import Mathlib

/-!
# ssh_proxy.c: the duplex relay with pkt-line demultiplexing

A shallow embedding of `src/ssh_proxy/ssh_proxy.c`.  The C program talks to the
outside only through `read`, `write`, `select` and `exit`; the embedding makes
that outside explicit as a `World` (what each descriptor still has to deliver,
what was written to each descriptor, and the results the coming system calls
will report) and threads it through every function.  A call of `exit` is the
`Outcome.exit` result, which carries the world as it was when the process ended.

Integers of type `ssize_t` are `Int`; the conversion to `size_t` at a call of
`xread`/`xwrite` is `size_t_of` (LP64, modulo `2^64`).  Bytes are `Nat` values
(`0..255` in every world the program can meet).
-/

namespace SshProxy

/-! ## The environment -/

/-- What one `read(2)` call reports, as decided by the environment. -/
inductive ReadEv where
  /-- The call returns `-1` with `errno = EINTR`; nothing is transferred. -/
  | eintr
  /-- The call returns `-1` with another `errno`. -/
  | fail
  /-- The call transfers at most `k + 1` bytes (a blocking read hands over at
  least one byte unless none was asked for or the stream is at its end). -/
  | data (k : Nat)
deriving DecidableEq, Repr

/-- What one `write(2)` call reports, as decided by the environment. -/
inductive WriteEv where
  /-- The call returns `-1` with `errno = EINTR`; nothing is transferred. -/
  | eintr
  /-- The call returns `-1` with another `errno`. -/
  | fail
  /-- The call accepts at most `k` bytes (`k = 0`: it returns `0`). -/
  | wrote (k : Nat)
deriving DecidableEq, Repr

/-- The outside of the process.  `input fd` are the bytes descriptor `fd` will
still deliver, in order, followed by end-of-stream; `output fd` are the bytes
written to `fd` so far; `reads` and `writes` are the results of the coming
`read` and `write` calls, in program order (once a list is used up every
further call transfers as much as it was asked for). -/
structure World where
  input : Int → List Nat
  output : Int → List Nat
  reads : List ReadEv
  writes : List WriteEv

/-- Result of running a piece of the program: it returns a value, or the
process has ended through `exit(code)`, or a loop did not finish within the
number of iterations the embedding allows it. -/
inductive Outcome (α : Type) where
  | ret (a : α) (w : World)
  | exit (code : Nat) (w : World)
  | hang

/-- Exit code of an outcome, when the process ended. -/
def Outcome.exitCode {α : Type} : Outcome α → Option Nat
  | .exit code _ => some code
  | _ => none

/-- World at the end of an outcome. -/
def Outcome.world {α : Type} : Outcome α → Option World
  | .ret _ w => some w
  | .exit _ w => some w
  | .hang => none

/-- Value an outcome returns, when it returns. -/
def Outcome.value {α : Type} : Outcome α → Option α
  | .ret a _ => some a
  | _ => none

/-- `#define EXIT_CH 3` -/
def EXIT_CH : Int := 3

/-- `sizeof(c->buf)` for `char buf[65536]`. -/
def BUF_SIZE : Int := 65536

/-- Largest value of `ssize_t` (LP64). -/
def SSIZE_MAX : Nat := 2 ^ 63 - 1

/-- Conversion of an `ssize_t` argument to the `size_t` parameter of
`xread`/`xwrite`: reduction modulo `2^64`. -/
def size_t_of (z : Int) : Nat := (z % (2 ^ 64 : Int)).toNat

/-- Conversion of a `char` holding byte `b` to `int`.  Plain `char` is signed
on the platforms the program is built for (x86 Linux), so bytes from 128 up
become negative. -/
def char_to_int (b : Nat) : Int :=
  if b % 256 < 128 then ((b % 256 : Nat) : Int) else ((b % 256 : Nat) : Int) - 256

/-- Bytes of a C string literal. -/
def bytes_of (s : String) : List Nat := s.toList.map Char.toNat

/-- Append `bs` to what descriptor `fd` has received. -/
def World.emit (w : World) (fd : Int) (bs : List Nat) : World :=
  { w with output := fun d => if d = fd then w.output d ++ bs else w.output d }

/-- Take the first `m` bytes off what descriptor `fd` still delivers. -/
def World.consume (w : World) (fd : Int) (m : Nat) : World :=
  { w with input := fun d => if d = fd then (w.input d).drop m else w.input d }

/-- `static void die(const char *msg)`: one diagnostic line on `stderr`
(descriptor 2), then `exit(1)`. -/
def die {α : Type} (msg : String) (w : World) : Outcome α :=
  .exit 1 (w.emit 2 (bytes_of ("fatal: " ++ msg ++ "\n")))

/-- The loop of `xread` over the results the `read` calls report: retry on
`EINTR`, `die` on any other failure, return the bytes transferred otherwise.
A successful call asked for `n` bytes transfers `min (k + 1) n` of the bytes
the descriptor still has (none at end-of-stream). -/
def xread_go (fd : Int) (n : Nat) (w : World) : List ReadEv → Outcome (List Nat)
  | [] => .ret ((w.input fd).take n) { w.consume fd n with reads := [] }
  | .eintr :: evs => xread_go fd n w evs
  | .fail :: evs => die "cannot read from fd" { w with reads := evs }
  | .data k :: evs =>
    .ret ((w.input fd).take (min (k + 1) n)) { w.consume fd (min (k + 1) n) with reads := evs }

/-- `static ssize_t xread(int fd, char *buf, size_t n)`.  The value returned is
the list of bytes stored at `buf`, its length being the C return value `r`.
A count above `SSIZE_MAX` is rejected by the kernel (`EINVAL` from
`rw_verify_area` on Linux, `EINVAL` on the BSDs), which is a failure other
than `EINTR`. -/
def xread (fd : Int) (n : Nat) (w : World) : Outcome (List Nat) :=
  if SSIZE_MAX < n then die "cannot read from fd" w
  else xread_go fd n w w.reads

/-- The loop of `xwrite` over the results the `write` calls report; `bs` are
the `n` bytes at `buf`.  A successful call accepts `min k n` bytes. -/
def xwrite_go (fd : Int) (bs : List Nat) (w : World) : List WriteEv → Outcome Nat
  | [] => .ret bs.length { w.emit fd bs with writes := [] }
  | .eintr :: evs => xwrite_go fd bs w evs
  | .fail :: evs => die "cannot write to fd" { w with writes := evs }
  | .wrote k :: evs =>
    .ret (min k bs.length) { w.emit fd (bs.take k) with writes := evs }

/-- `static ssize_t xwrite(int fd, char *buf, size_t n)`; `mem i` is the byte
at `buf[i]`.  A count above `SSIZE_MAX` is rejected by the kernel as for
`xread`. -/
def xwrite (fd : Int) (mem : Nat → Nat) (n : Nat) (w : World) : Outcome Nat :=
  if SSIZE_MAX < n then die "cannot write to fd" w
  else xwrite_go fd ((List.range n).map mem) w w.writes

/-! ## `fd_set` -/

/-- An `fd_set`: which descriptors are members. -/
abbrev FdSet := Int → Bool

/-- `FD_SET(fd, &s)` -/
def FD_SET (fd : Int) (s : FdSet) : FdSet := fun d => if d = fd then true else s d

/-- `FD_CLR(fd, &s)` -/
def FD_CLR (fd : Int) (s : FdSet) : FdSet := fun d => if d = fd then false else s d

/-- `FD_ISSET(fd, &s)` -/
def FD_ISSET (fd : Int) (s : FdSet) : Bool := s fd

/-- The three file-scope sets `read_fds`, `write_fds`, `error_fds`. -/
structure FdSets where
  read_fds : FdSet
  write_fds : FdSet
  error_fds : FdSet

/-! ## `struct copy` and the frame header -/

/-- `struct copy`; `buf i` is the byte at `c->buf[i]`. -/
structure Copy where
  in_fd : Int
  out_fd : Int
  demux : Bool
  pkt_len : Int
  pos : Int
  cnt : Int
  buf : Int → Nat

/-- `isspace` in the "C" locale. -/
def isspace (b : Nat) : Bool := b = 32 || (9 ≤ b && b ≤ 13)

/-- Value of a hexadecimal digit character, if it is one. -/
def hexval (b : Nat) : Option Nat :=
  if 48 ≤ b ∧ b ≤ 57 then some (b - 48)
  else if 97 ≤ b ∧ b ≤ 102 then some (b - 87)
  else if 65 ≤ b ∧ b ≤ 70 then some (b - 55)
  else none

/-- Value of the longest run of hexadecimal digits at the head of `s`,
continuing from `acc`. -/
def hexrun : Nat → List Nat → Nat
  | acc, [] => acc
  | acc, b :: bs =>
    match hexval b with
    | some d => hexrun (acc * 16 + d) bs
    | none => acc

/-- Skip an optional `0x`/`0X` that is followed by a hexadecimal digit. -/
def skip0x : List Nat → List Nat
  | 48 :: x :: d :: rest =>
    if (x = 120 ∨ x = 88) ∧ (hexval d).isSome then d :: rest else 48 :: x :: d :: rest
  | s => s

/-- `strtol(s, NULL, 16)` of ISO C on the characters `s` (the string ends at
its first NUL or at the end of `s`): white space is skipped, then an optional
sign, an optional `0x`, and the longest run of hexadecimal digits; the value is
0 when there is no digit.  With at most four characters the value cannot
overflow `long`. -/
def strtol16 (s : List Nat) : Int :=
  let s1 := (s.takeWhile (fun b => b ≠ 0)).dropWhile isspace
  match s1 with
  | 45 :: rest => - ((hexrun 0 (skip0x rest) : Nat) : Int)
  | 43 :: rest => ((hexrun 0 (skip0x rest) : Nat) : Int)
  | _ => ((hexrun 0 (skip0x s1) : Nat) : Int)

/-- The `while (n < need)` loop of `read_pkt_line_header`.  `tmp` holds the
bytes stored in the array so far, so that the C variable `n` is `tmp.length`
and `tmp + n` is the end of the list.  `xread` never returns a negative value,
so the branch `if (r < 0) die(...)` of the source cannot be taken.  The loop
is cut off after `fuel` iterations. -/
def hdr_loop (fd : Int) : Nat → List Nat → Nat → World → Outcome (List Nat)
  | fuel, tmp, need, w =>
    if tmp.length < need then
      match fuel with
      | 0 => .hang
      | fuel + 1 =>
        match xread fd (need - tmp.length) w with
        | .ret bs w1 =>
          if bs.length = 0 then .exit 0 w1
          else
            let tmp1 := tmp ++ bs
            let need1 := if 5 ≤ tmp1.length ∧ char_to_int (tmp1.getD 4 0) = EXIT_CH then 6 else need
            hdr_loop fd fuel tmp1 need1 w1
        | .exit code w1 => .exit code w1
        | .hang => .hang
    else .ret tmp w

/-- `static void read_pkt_line_header(struct copy *c)`.  Every iteration of
the loop stores at least one byte and `need` is at most 6, so 6 iterations are
the most the loop can make. -/
def read_pkt_line_header (c : Copy) (w : World) : Outcome Copy :=
  match hdr_loop c.in_fd 6 [] 5 w with
  | .ret tmp w1 =>
    let c1 : Copy := { c with out_fd := char_to_int (tmp.getD 4 0) }
    if c1.out_fd = EXIT_CH then .exit (tmp.getD 5 0 % 256) w1
    else .ret { c1 with pkt_len := strtol16 (tmp.take 4) - 5 } w1
  | .exit code w1 => .exit code w1
  | .hang => .hang

/-! ## The directional pipeline -/

/-- `static void begin_read(struct copy *c)` -/
def begin_read (c : Copy) (s : FdSets) : FdSets :=
  { read_fds := FD_SET c.in_fd s.read_fds
    error_fds := FD_SET c.in_fd s.error_fds
    write_fds := FD_CLR c.out_fd s.write_fds }

/-- `static void begin_write(struct copy *c)` -/
def begin_write (c : Copy) (s : FdSets) : FdSets :=
  { read_fds := FD_CLR c.in_fd s.read_fds
    error_fds := FD_CLR c.in_fd s.error_fds
    write_fds := FD_SET c.out_fd s.write_fds }

/-- Contents of `buf` after a read stored `bs` at its start. -/
def store (buf : Int → Nat) (bs : List Nat) : Int → Nat :=
  fun i => if 0 ≤ i ∧ i < (bs.length : Int) then bs.getD i.toNat 0 else buf i

/-- `static void do_copy(struct copy *c)` -/
def do_copy (c : Copy) (s : FdSets) (w : World) : Outcome (Copy × FdSets) :=
  if c.cnt = 0 then
    if !FD_ISSET c.in_fd s.read_fds && !FD_ISSET c.in_fd s.error_fds then
      .ret (c, s) w
    else
      match (if c.demux && c.pkt_len = 0 then read_pkt_line_header c w else .ret c w) with
      | .ret c1 w1 =>
        let sz : Int := if c1.demux then c1.pkt_len else BUF_SIZE
        match xread c1.in_fd (size_t_of sz) w1 with
        | .ret bs w2 =>
          let c2 : Copy := { c1 with pos := 0, cnt := (bs.length : Int), buf := store c1.buf bs }
          if c2.cnt = 0 then .exit 0 w2
          else
            let c3 : Copy := if c2.demux then { c2 with pkt_len := c2.pkt_len - c2.cnt } else c2
            .ret (c3, begin_write c3 s) w2
        | .exit code w2 => .exit code w2
        | .hang => .hang
      | .exit code w1 => .exit code w1
      | .hang => .hang
  else
    if !FD_ISSET c.out_fd s.write_fds then
      .ret (c, { s with write_fds := FD_SET c.out_fd s.write_fds }) w
    else
      match xwrite c.out_fd (fun i => c.buf (c.pos + (i : Int))) (size_t_of c.cnt) w with
      | .ret n w1 =>
        let c1 : Copy := { c with pos := c.pos + (n : Int), cnt := c.cnt - (n : Int) }
        .ret (c1, if c1.cnt = 0 then begin_read c1 s else begin_write c1 s) w1
      | .exit code w1 => .exit code w1
      | .hang => .hang

/-- Call `do_copy` on one pipeline `n` times in a row with no readiness wait
in between, so that every descriptor the pipeline expressed interest in is
found ready; stops when the process ends. -/
def pump : Nat → Copy → FdSets → World → Outcome (Copy × FdSets)
  | 0, c, s, w => .ret (c, s) w
  | n + 1, c, s, w =>
    match do_copy c s w with
    | .ret (c1, s1) w1 => pump n c1 s1 w1
    | .exit code w1 => .exit code w1
    | .hang => .hang

/-! ## The relay engine -/

/-- What one `select` call reports. -/
inductive SelectEv where
  /-- The call returns `-1` with `errno` `EINTR` or `EAGAIN`. -/
  | again
  /-- The call returns `-1` with another `errno`. -/
  | fail
  /-- The call succeeds; the three sets say which descriptors are ready for
  reading, ready for writing, and in an exceptional condition. -/
  | ready (r wr e : FdSet)

/-- The sets after a successful `select(nfds, &read_fds, &write_fds,
&error_fds, NULL)`: below `nfds` a descriptor stays a member only if it is
ready, from `nfds` on the sets are not touched. -/
def select_sets (nfds : Int) (s : FdSets) (r wr e : FdSet) : FdSets :=
  { read_fds := fun d => if 0 ≤ d ∧ d < nfds then s.read_fds d && r d else s.read_fds d
    write_fds := fun d => if 0 ≤ d ∧ d < nfds then s.write_fds d && wr d else s.write_fds d
    error_fds := fun d => if 0 ≤ d ∧ d < nfds then s.error_fds d && e d else s.error_fds d }

/-- The two pipelines `cin`, `cout` and the file-scope descriptor sets. -/
structure Relay where
  cin : Copy
  cout : Copy
  fds : FdSets

/-- A `struct copy` with static storage before `main` touches it. -/
def Copy.zero : Copy :=
  { in_fd := 0, out_fd := 0, demux := false, pkt_len := 0, pos := 0, cnt := 0, buf := fun _ => 0 }

/-- The caller-to-backend pipeline as `main` sets it up. -/
def cin_init (sock : Int) : Copy := { Copy.zero with in_fd := 0, out_fd := sock }

/-- The backend-to-caller pipeline as `main` sets it up. -/
def cout_init (sock : Int) : Copy := { Copy.zero with in_fd := sock, out_fd := 1, demux := true }

/-- The descriptor sets with static storage before `main` touches them. -/
def FdSets.empty : FdSets :=
  { read_fds := fun _ => false, write_fds := fun _ => false, error_fds := fun _ => false }

/-- State of `main` when it enters its `for (;;)` loop (lines 238 to 247). -/
def main_init (sock : Int) : Relay :=
  { cin := cin_init sock
    cout := cout_init sock
    fds := begin_read (cout_init sock) (begin_read (cin_init sock) FdSets.empty) }

/-- One iteration of the `for (;;)` loop of `main` with `max_fd = sock + 1`:
the readiness wait, then `do_copy(&cin)` and `do_copy(&cout)`. -/
def loop_body (sock : Int) (ev : SelectEv) (st : Relay) (w : World) : Outcome Relay :=
  match ev with
  | .again => .ret st w
  | .fail => die "select error" w
  | .ready r wr e =>
    let s0 := select_sets (sock + 1) st.fds r wr e
    match do_copy st.cin s0 w with
    | .ret (cin1, s1) w1 =>
      match do_copy st.cout s1 w1 with
      | .ret (cout1, s2) w2 => .ret { cin := cin1, cout := cout1, fds := s2 } w2
      | .exit code w2 => .exit code w2
      | .hang => .hang
    | .exit code w1 => .exit code w1
    | .hang => .hang

/-- The `for (;;)` loop of `main` over the results the `select` calls report,
up to the last of them. -/
def main_loop (sock : Int) : List SelectEv → Relay → World → Outcome Relay
  | [], st, w => .ret st w
  | ev :: evs, st, w =>
    match loop_body sock ev st w with
    | .ret st1 w1 => main_loop sock evs st1 w1
    | .exit code w1 => .exit code w1
    | .hang => .hang

/-! ## Auxiliary notions for the proofs -/

/-- World `w1` differs from `w` at most by reads on descriptor `fd`. -/
def ReadOnly (fd : Int) (w w1 : World) : Prop :=
  (∀ d, d ≠ fd → w1.input d = w.input d) ∧ w1.output = w.output ∧ w1.writes = w.writes ∧
    (∀ e, e ∈ w1.reads → e ∈ w.reads)

/-- Value of `need` once `n` bytes of the stream `all` are in `tmp`. -/
def need_of (all : List Nat) (n : Nat) : Nat :=
  if 5 ≤ n ∧ char_to_int (all.getD 4 0) = EXIT_CH then 6 else 5

/-- Number of bytes the header loop takes from a stream `all`. -/
def hdr_consumed (all : List Nat) : Nat :=
  if all.length < 5 then all.length
  else if char_to_int (all.getD 4 0) = EXIT_CH then min 6 all.length else 5

/-- Whether the stream `all` holds a whole header. -/
def hdr_complete (all : List Nat) : Bool :=
  decide (5 ≤ all.length ∧ (char_to_int (all.getD 4 0) = EXIT_CH → 6 ≤ all.length))

/-- A world in which descriptor 3 (the backend socket) still delivers `bs`,
nothing has been written yet, and the coming calls report `rd` and `wr`. -/
def demo_world (bs : List Nat) (rd : List ReadEv) (wr : List WriteEv) : World :=
  { input := fun d => if d = 3 then bs else [], output := fun _ => [], reads := rd, writes := wr }

/-- The bookkeeping invariant of a pipeline: `0 ≤ cnt` and
`pos + cnt ≤ sizeof(buf)`. -/
def Copy.Inv (c : Copy) : Prop := 0 ≤ c.cnt ∧ c.pos + c.cnt ≤ BUF_SIZE

/-- The invariant together with what makes it inductive: the cursor is not
negative and, in the demultiplexing pipeline, `pkt_len` is within what a
four-character length field can give. -/
def Copy.StrongInv (c : Copy) : Prop :=
  0 ≤ c.cnt ∧ 0 ≤ c.pos ∧ c.pos + c.cnt ≤ BUF_SIZE ∧
    (c.demux = true → -65540 ≤ c.pkt_len ∧ c.pkt_len ≤ 65530)

/-- States a pipeline of `main` can be in: the two initial states (for any
number of the socket descriptor) and what a call of `do_copy` returns, with
any descriptor sets and any behaviour of the environment. -/
inductive Reach : Copy → Prop where
  | cin (sock : Int) : Reach (cin_init sock)
  | cout (sock : Int) : Reach (cout_init sock)
  | step {c c1 : Copy} {s s1 : FdSets} {w w1 : World} :
      Reach c → do_copy c s w = .ret (c1, s1) w1 → Reach c1

/-- World `w1` differs from `w` at most by writes on descriptor `fd`. -/
def WriteOnly (fd : Int) (w w1 : World) : Prop :=
  w1.input = w.input ∧ w1.reads = w.reads ∧ (∀ d, d ≠ fd → w1.output d = w.output d) ∧
    (∀ e, e ∈ w1.writes → e ∈ w.writes)

/-- The bytes `buf[pos .. pos + n)` of a pipeline. -/
def Copy.pending (c : Copy) (n : Nat) : List Nat :=
  (List.range n).map (fun (i : Nat) => c.buf (c.pos + (i : Int)))

/-- Lines 114 to 122 of `do_copy`, as a function of the struct and the world
`do_copy` has once the header decode of line 113 (if any) is done: the read
into `buf`, the end-of-stream test, the update of `pkt_len` and
`begin_write`. -/
def read_tail (c1 : Copy) (s : FdSets) (w1 : World) : Outcome (Copy × FdSets) :=
  let sz : Int := if c1.demux then c1.pkt_len else BUF_SIZE
  match xread c1.in_fd (size_t_of sz) w1 with
  | .ret bs w2 =>
    let c2 : Copy := { c1 with pos := 0, cnt := (bs.length : Int), buf := store c1.buf bs }
    if c2.cnt = 0 then .exit 0 w2
    else
      let c3 : Copy := if c2.demux then { c2 with pkt_len := c2.pkt_len - c2.cnt } else c2
      .ret (c3, begin_write c3 s) w2
  | .exit code w2 => .exit code w2
  | .hang => .hang

/-- A world in which descriptor 0 (the caller's input) still delivers `bs`,
nothing has been written yet, and the coming calls report `rd` and `wr`. -/
def demo_caller_world (bs : List Nat) (rd : List ReadEv) (wr : List WriteEv) : World :=
  { input := fun d => if d = 0 then bs else [], output := fun _ => [], reads := rd, writes := wr }

/-- The caller-to-backend pipeline holding the two bytes `hi` it has read and
not yet written. -/
def demo_pending : Copy :=
  { cin_init 3 with cnt := 2, buf := store (fun _ => 0) [104, 105] }

/-- What a `select` call reports when only descriptor 0 is readable and
nothing else is ready. -/
def only_stdin_readable : SelectEv :=
  .ready (fun d => decide (d = 0)) (fun _ => false) (fun _ => false)

/-- What a `select` call reports when every descriptor is ready for reading
and for writing and none is in an exceptional condition. -/
def all_ready : SelectEv :=
  .ready (fun _ => true) (fun _ => true) (fun _ => false)

/-- A world in which descriptor 0 (the caller's input) still delivers `caller`
and descriptor 3 (the backend socket) still delivers `backend`; nothing has
been written yet and every call transfers all it is asked for. -/
def demo_relay_world (caller backend : List Nat) : World :=
  { input := fun d => if d = 0 then caller else if d = 3 then backend else [],
    output := fun _ => [], reads := [], writes := [] }

/-- The oracle of a world reports no failed call and no write of zero bytes:
every read and every write makes progress (possibly after interrupted
calls), in whatever partial amounts. -/
def World.Benign (w : World) : Prop :=
  ReadEv.fail ∉ w.reads ∧ WriteEv.fail ∉ w.writes ∧ WriteEv.wrote 0 ∉ w.writes

instance World.decidable_benign (w : World) : Decidable w.Benign := by
  unfold World.Benign
  infer_instance

/-- A frame on the backend stream: four length characters, the channel byte
and the payload. -/
structure Frame where
  d0 : Nat
  d1 : Nat
  d2 : Nat
  d3 : Nat
  ch : Nat
  payload : List Nat
deriving DecidableEq, Repr

/-- Bytes of a frame on the wire. -/
def Frame.bytes (f : Frame) : List Nat :=
  f.d0 :: f.d1 :: f.d2 :: f.d3 :: f.ch :: f.payload

/-- Total length a frame declares, when its length field is four hexadecimal
digits. -/
def Frame.declared (f : Frame) : Option Nat :=
  match hexval f.d0, hexval f.d1, hexval f.d2, hexval f.d3 with
  | some a, some b, some c, some d => some (((a * 16 + b) * 16 + c) * 16 + d)
  | _, _, _, _ => none

/-- A frame with a non-empty payload whose length field is four hexadecimal
digits giving the payload length plus 5, on a channel other than the exit
marker. -/
def Frame.wf (f : Frame) : Prop :=
  f.declared = some (5 + f.payload.length) ∧ 1 ≤ f.payload.length ∧ f.ch < 256 ∧ f.ch ≠ 3

instance Frame.decidable_wf (f : Frame) : Decidable f.wf := by
  unfold Frame.wf
  infer_instance

/-- The backend stream made of the frames `fs`. -/
def stream : List Frame → List Nat
  | [] => []
  | f :: fs => f.bytes ++ stream fs

/-- The payloads of the frames of `fs` whose channel byte, read as a
descriptor number, is `d`, concatenated in order. -/
def routed (d : Int) : List Frame → List Nat
  | [] => []
  | f :: fs => (if char_to_int f.ch = d then f.payload else []) ++ routed d fs

/-- Inside a frame on channel descriptor `o` with payload `p`, followed on the
stream by `tail`: the sink is `o`, `cnt` is not negative, and what the source
still holds is a final part `q` of the payload followed by `tail`, `pkt_len`
being the length of `q`. -/
def InFrame (fd o : Int) (p tail : List Nat) (c : Copy) (w : World) : Prop :=
  c.out_fd = o ∧ 0 ≤ c.cnt ∧
    ∃ pre q, p = pre ++ q ∧ w.input fd = q ++ tail ∧ c.pkt_len = (q.length : Int)
/-- The backend stream `0008`, channel 1, `ok\n`, followed by the start of a
second frame, arriving one or two bytes at a time, with writes of at most two
bytes. -/
def demo_frame_world : World :=
  demo_world [48, 48, 48, 56, 1, 111, 107, 10, 48, 48, 48, 54, 2, 101]
    [.data 0, .eintr, .data 1, .data 0, .data 1] [.wrote 2, .eintr, .wrote 1]

/-! ## The control lines sent at start-up -/

/-- The `while (n > 0)` loop of `write_or_die`; `mem i` is the byte at
`buf[i]`.  `xwrite` never returns a negative value, so `w <= 0` is `w == 0`.
The loop is cut off after `fuel` iterations. -/
def write_or_die_loop (fd : Int) : Nat → (Nat → Nat) → Nat → World → Outcome Unit
  | fuel, mem, n, w =>
    if 0 < n then
      match fuel with
      | 0 => .hang
      | fuel + 1 =>
        match xwrite fd mem n w with
        | .ret k w1 =>
          if k = 0 then die "cannot write to fd" w1
          else write_or_die_loop fd fuel (fun i => mem (k + i)) (n - k) w1
        | .exit code w1 => .exit code w1
        | .hang => .hang
    else .ret () w

/-- `static void write_or_die(int fd, char *buf, size_t n)`.  Every iteration
of the loop writes at least one byte or ends the process, so `n` iterations
are the most the loop can make. -/
def write_or_die (fd : Int) (mem : Nat → Nat) (n : Nat) (w : World) : Outcome Unit :=
  write_or_die_loop fd n mem n w

/-- The character `printf` writes for the hexadecimal digit `d` under `%x`. -/
def hexchar (d : Nat) : Nat := if d < 10 then 48 + d else 87 + d

/-- Hexadecimal digits of `v`, most significant first, without leading
zeros (`fuel` bounds their number). -/
def to_hex : Nat → Nat → List Nat
  | 0, _ => []
  | fuel + 1, v => if v < 16 then [hexchar v] else to_hex fuel (v / 16) ++ [hexchar (v % 16)]

/-- The characters `sprintf(len, "%04x", v)` produces: the hexadecimal digits
of `v` in lower case, padded with zeros on the left to four characters (an
`int` has at most eight digits). -/
def fmt_04x (v : Nat) : List Nat :=
  List.replicate (4 - (to_hex 8 v).length) 48 ++ to_hex 8 v

/-- Contents of `buf` after `vsnprintf(buf, sizeof(buf), fmt, ap)` with
`char buf[1000]`, when the format expands to the characters `text`: at most
999 characters of `text`, then a NUL; `stack i` is what memory holds at
`buf + i` where `vsnprintf` stored nothing (the rest of the array and what
lies behind it). -/
def vsnprintf_buf (text : List Nat) (stack : Nat → Nat) : Nat → Nat :=
  fun i =>
    if i < min text.length 999 then text.getD i 0
    else if i = min text.length 999 then 0
    else stack i

/-- `static void pkt_write(int sock, char *fmt, ...)`, where `text` are the
characters the format expands to, so that `text.length` is the value
`vsnprintf` returns (the length of the whole expansion, also when it did not
fit into `buf`; the strings the program formats come from its arguments and
environment and stay far below `INT_MAX` bytes).  `write_or_die(sock, len, 4)`
sends the first four characters of `len`. -/
def pkt_write (sock : Int) (text : List Nat) (stack : Nat → Nat) (w : World) : Outcome Unit :=
  let n := text.length
  let len := fmt_04x (n + 4)
  match write_or_die sock (fun i => len.getD i 0) 4 w with
  | .ret _ w1 => write_or_die sock (vsnprintf_buf text stack) n w1
  | .exit code w1 => .exit code w1
  | .hang => .hang

/-- A C string: the characters of `s` up to its first NUL. -/
def cstr (s : List Nat) : List Nat := s.takeWhile (fun b => b ≠ 0)

/-- `isdigit` in the "C" locale. -/
def isdigit (b : Nat) : Bool := 48 ≤ b && b ≤ 57

/-- Where `strtoul(s, &p, 10)` of ISO C leaves `p`, as the rest of the string
from `p` on: behind the digits that follow optional white space and an
optional sign, or at the start of `s` when there is no digit. -/
def strtoul10_end (s : List Nat) : List Nat :=
  let s1 := s.dropWhile isspace
  let s2 := match s1 with
    | 45 :: rest => rest
    | 43 :: rest => rest
    | _ => s1
  match s2 with
  | d :: rest => if isdigit d then (d :: rest).dropWhile isdigit else s
  | [] => s

/-- What `socket`, `gethostbyname` and `connect` report in `dial_gerrit`. -/
inductive NetEv where
  | socket_fails
  | resolve_fails
  | connect_fails
  | connected
deriving DecidableEq, Repr

/-- `static int dial_gerrit(char *site_path)`.  `info` is what
`read(fd, info_block, sizeof(info_block) - 1)` stored from the file
`tmp/sshd_backend` under the site path (`none` when the file cannot be opened
or the read returns nothing), `net` what the network calls report and `sock`
the descriptor `socket` returns. -/
def dial_gerrit (info : Option (List Nat)) (net : NetEv) (sock : Int) (stack : Nat → Nat)
    (w : World) : Outcome Int :=
  match info with
  | none => die "cannot find sshd_backend" w
  | some block =>
    if block.length = 0 then die "cannot find sshd_backend" w
    else
      let info_block := cstr (if block.getLast? = some 10 then block.dropLast else block)
      match strtoul10_end info_block with
      | 10 :: key =>
        match net with
        | .socket_fails => die "cannot create socket" w
        | .resolve_fails => die "cannot resolve backend" w
        | .connect_fails => die "cannot connect to backend" w
        | .connected =>
          match pkt_write sock (bytes_of "auth " ++ key ++ [10]) stack w with
          | .ret _ w1 => .ret sock w1
          | .exit code w1 => .exit code w1
          | .hang => .hang
      | _ => die "invalid sshd_backend" w

/-- Lines 216 to 236 of `main`: the argument check, `dial_gerrit` and the
control lines of the session mode.  `args` is `argv` (so `argc` is its
length), `conn`, `user`, `cmd` are what `getenv` returns for
`SSH_CONNECTION`, `LOGNAME`, `SSH_ORIGINAL_COMMAND`, and `mems k` is the
memory around `buf` in the `k`-th call of `pkt_write`.  The value returned is
`sock`. -/
def main_handshake (args : List (List Nat)) (info : Option (List Nat)) (net : NetEv) (sock : Int)
    (conn user cmd : Option (List Nat)) (mems : Nat → Nat → Nat) (w : World) : Outcome Int :=
  if args.length < 3 then die "usage: ssh_proxy site_path \x7bexec|keys user\x7d" w
  else
    match dial_gerrit info net sock (mems 0) w with
    | .ret sock w1 =>
      if cstr (args.getD 2 []) = bytes_of "keys" then
        if args.length ≠ 4 then die "usage: ssh_proxy keys user" w1
        else
          match pkt_write sock (bytes_of "keys " ++ cstr (args.getD 3 []) ++ [10]) (mems 1) w1 with
          | .ret _ w2 => .ret sock w2
          | .exit code w2 => .exit code w2
          | .hang => .hang
      else if cstr (args.getD 2 []) = bytes_of "exec" then
        if args.length ≠ 3 then die "usage: ssh_proxy exec" w1
        else
          match conn, user, cmd with
          | some conn, some user, some cmd =>
            match pkt_write sock (bytes_of "conn " ++ cstr conn ++ [10]) (mems 1) w1 with
            | .ret _ w2 =>
              match pkt_write sock (bytes_of "user " ++ cstr user ++ [10]) (mems 2) w2 with
              | .ret _ w3 =>
                match pkt_write sock (bytes_of "exec " ++ cstr cmd) (mems 3) w3 with
                | .ret _ w4 => .ret sock w4
                | .exit code w4 => .exit code w4
                | .hang => .hang
              | .exit code w3 => .exit code w3
              | .hang => .hang
            | .exit code w2 => .exit code w2
            | .hang => .hang
          | _, _, _ => die "usage: must be run by sshd" w1
      else die "usage: ssh_proxy site_path \x7bexec|keys user\x7d" w1
    | .exit code w1 => .exit code w1
    | .hang => .hang

/-- What the specification calls the control line framing `text`: four
hexadecimal digits giving the length of the line, themselves included, then
the bytes of `text` and nothing else. -/
def control_line (text : List Nat) : List Nat := fmt_04x (text.length + 4) ++ text

/-- The bytes one call of `pkt_write` hands to `write`: the first four
characters of `len`, then `text.length` bytes starting at `buf`. -/
def pkt_bytes (text : List Nat) (stack : Nat → Nat) : List Nat :=
  (List.range 4).map (fun i => (fmt_04x (text.length + 4)).getD i 0) ++
    (List.range text.length).map (vsnprintf_buf text stack)

/-! ## Reads and the header loop -/

theorem readOnly_refl (fd : Int) (w : World) : ReadOnly fd w w :=
  ⟨fun _ _ => rfl, rfl, rfl, fun _ h => h⟩

theorem readOnly_trans {fd : Int} {w w1 w2 : World} (h1 : ReadOnly fd w w1)
    (h2 : ReadOnly fd w1 w2) : ReadOnly fd w w2 :=
  ⟨fun d hd => (h2.1 d hd).trans (h1.1 d hd), h2.2.1.trans h1.2.1, h2.2.2.1.trans h1.2.2.1,
    fun e he => h1.2.2.2 e (h2.2.2.2 e he)⟩

theorem xread_go_spec (fd : Int) (n : Nat) (w : World) (evs : List ReadEv)
    (hevs : ∀ e, e ∈ evs → e ∈ w.reads) (hok : ReadEv.fail ∉ evs) :
    ∃ m w1, xread_go fd n w evs = .ret ((w.input fd).take m) w1 ∧ m ≤ n ∧ (1 ≤ n → 1 ≤ m) ∧
      w1.input fd = (w.input fd).drop m ∧ ReadOnly fd w w1 := by
  induction evs with
  | nil =>
    refine ⟨n, _, rfl, le_refl _, fun h => h, ?_, ?_⟩
    · simp [World.consume]
    · refine ⟨fun d hd => ?_, rfl, rfl, fun e he => ?_⟩
      · simp [World.consume, hd]
      · simp at he
  | cons ev evs ih =>
    cases ev with
    | eintr =>
      exact ih (fun e he => hevs e (List.mem_cons_of_mem _ he))
        (fun h => hok (List.mem_cons_of_mem _ h))
    | fail => exact absurd (List.mem_cons_self _ _) hok
    | data k =>
      refine ⟨min (k + 1) n, _, rfl, Nat.min_le_right _ _, fun h => ?_, ?_, ?_⟩
      · exact Nat.le_min.mpr ⟨Nat.succ_le_succ (Nat.zero_le k), h⟩
      · simp [World.consume]
      · refine ⟨fun d hd => ?_, rfl, rfl, fun e he => ?_⟩
        · simp [World.consume, hd]
        · exact hevs e (List.mem_cons_of_mem _ he)

theorem xread_spec (fd : Int) (n : Nat) (w : World) (hn : n ≤ SSIZE_MAX)
    (hok : ReadEv.fail ∉ w.reads) :
    ∃ m w1, xread fd n w = .ret ((w.input fd).take m) w1 ∧ m ≤ n ∧ (1 ≤ n → 1 ≤ m) ∧
      w1.input fd = (w.input fd).drop m ∧ ReadOnly fd w w1 := by
  unfold xread
  rw [if_neg (Nat.not_lt.mpr hn)]
  exact xread_go_spec fd n w w.reads (fun _ h => h) hok

theorem getD_append_left (l r : List Nat) (i : Nat) (h : i < l.length) :
    (l ++ r).getD i 0 = l.getD i 0 := by
  simp [List.getD_eq_getElem?_getD, List.getElem?_append_left h]

theorem hdr_loop_spec (fd : Int) (all : List Nat) : ∀ (fuel : Nat) (tmp : List Nat) (need : Nat)
    (w : World), ReadEv.fail ∉ w.reads → tmp ++ w.input fd = all →
    need = need_of all tmp.length → tmp.length ≤ need → 6 ≤ fuel + tmp.length →
    ∃ w1, hdr_loop fd fuel tmp need w
        = (if hdr_complete all then .ret (all.take (hdr_consumed all)) w1 else .exit 0 w1) ∧
      w1.input fd = all.drop (hdr_consumed all) ∧ ReadOnly fd w w1 := by
  intro fuel
  induction fuel with
  | zero =>
    intro tmp need w _ hall hneed hle hfuel
    have h6 : need ≤ 6 := by rw [hneed]; unfold need_of; split <;> omega
    have hlen : tmp.length = need := by omega
    have hn6 : need = 6 := by omega
    have hc : 5 ≤ tmp.length ∧ char_to_int (all.getD 4 0) = EXIT_CH := by
      by_contra hcon
      rw [hneed] at hn6; unfold need_of at hn6; rw [if_neg hcon] at hn6; omega
    refine ⟨w, ?_, ?_, readOnly_refl fd w⟩
    · have hal : 6 ≤ all.length := by rw [← hall, List.length_append]; omega
      have hcomp : hdr_complete all = true := by
        simp only [hdr_complete, decide_eq_true_eq]; exact ⟨by omega, fun _ => hal⟩
      have hcons : hdr_consumed all = tmp.length := by
        unfold hdr_consumed; rw [if_neg (by omega), if_pos hc.2]; omega
      rw [hcomp, hcons]
      unfold hdr_loop
      rw [if_neg (by omega)]
      simp [← hall]
    · have hcons : hdr_consumed all = tmp.length := by
        have hal : 6 ≤ all.length := by rw [← hall, List.length_append]; omega
        unfold hdr_consumed; rw [if_neg (by omega), if_pos hc.2]; omega
      rw [hcons, ← hall]; simp
  | succ f ih =>
    intro tmp need w hok hall hneed hle hfuel
    have h6 : need ≤ 6 := by rw [hneed]; unfold need_of; split <;> omega
    have h5 : 5 ≤ need := by rw [hneed]; unfold need_of; split <;> omega
    by_cases hlt : tmp.length < need
    · -- one more read
      obtain ⟨m, w1, hx, hmn, hm1, hin, hro⟩ :=
        xread_spec fd (need - tmp.length) w (by unfold SSIZE_MAX; omega) hok
      have hm1 : 1 ≤ m := hm1 (by omega)
      unfold hdr_loop
      rw [if_pos hlt]
      simp only [hx]
      by_cases hemp : ((w.input fd).take m).length = 0
      · rw [if_pos hemp]
        have hnil : w.input fd = [] := by
          have h0 : (w.input fd).length = 0 := by
            rw [List.length_take] at hemp; omega
          exact List.length_eq_zero.mp h0
        have hall' : all = tmp := by rw [← hall, hnil]; simp
        have hcomp : hdr_complete all = false := by
          simp only [hdr_complete, decide_eq_false_iff_not]
          rintro ⟨ha, hb⟩
          rw [hall'] at ha hb
          have hn6 : need = 6 := by omega
          have hc : 5 ≤ tmp.length ∧ char_to_int (all.getD 4 0) = EXIT_CH := by
            by_contra hcon
            rw [hneed] at hn6; unfold need_of at hn6; rw [if_neg hcon] at hn6; omega
          rw [hall'] at hc
          have := hb hc.2
          omega
        refine ⟨w1, by rw [hcomp]; simp, ?_, hro⟩
        rw [hin, hnil]
        have hcons : hdr_consumed all = all.length := by
          unfold hdr_consumed
          by_cases h : all.length < 5
          · rw [if_pos h]
          · rw [if_neg h]
            have hn6 : need = 6 := by rw [hall'] at h; omega
            have hc : 5 ≤ tmp.length ∧ char_to_int (all.getD 4 0) = EXIT_CH := by
              by_contra hcon
              rw [hneed] at hn6; unfold need_of at hn6; rw [if_neg hcon] at hn6; omega
            rw [if_pos hc.2]
            rw [hall']; omega
        rw [hcons]; simp
      · rw [if_neg hemp]
        have hlen1 : (tmp ++ (w.input fd).take m).length ≤ need := by
          rw [List.length_append, List.length_take]; omega
        have hlen2 : tmp.length + 1 ≤ (tmp ++ (w.input fd).take m).length := by
          rw [List.length_append]; omega
        have hall1 : (tmp ++ (w.input fd).take m) ++ w1.input fd = all := by
          rw [hin, List.append_assoc, List.take_append_drop, hall]
        have hget : 5 ≤ (tmp ++ (w.input fd).take m).length →
            (tmp ++ (w.input fd).take m).getD 4 0 = all.getD 4 0 := by
          intro h
          have hg := getD_append_left (tmp ++ (w.input fd).take m) (w1.input fd) 4 (by omega)
          rw [hall1] at hg
          exact hg.symm
        have hneed1 : (if 5 ≤ (tmp ++ (w.input fd).take m).length ∧
              char_to_int ((tmp ++ (w.input fd).take m).getD 4 0) = EXIT_CH then 6 else need)
            = need_of all (tmp ++ (w.input fd).take m).length := by
          unfold need_of
          by_cases h : 5 ≤ (tmp ++ (w.input fd).take m).length
          · rw [hget h]
            by_cases hch : char_to_int (all.getD 4 0) = EXIT_CH
            · rw [if_pos ⟨h, hch⟩, if_pos ⟨h, hch⟩]
            · rw [if_neg (fun hh => hch hh.2), if_neg (fun hh => hch hh.2), hneed]
              unfold need_of; rw [if_neg (fun hh => hch hh.2)]
          · rw [if_neg (fun hh => h hh.1), if_neg (fun hh => h hh.1), hneed]
            unfold need_of; rw [if_neg (fun hh => h (by omega))]
        have hok1 : ReadEv.fail ∉ w1.reads := fun h => hok (hro.2.2.2 _ h)
        obtain ⟨w2, hr, hin2, hro2⟩ := ih (tmp ++ (w.input fd).take m) _ w1 hok1 hall1
          hneed1 (by split <;> omega) (by omega)
        exact ⟨w2, hr, hin2, readOnly_trans hro hro2⟩
    · -- the loop is over
      have hlen : tmp.length = need := by omega
      have hal : need ≤ all.length := by rw [← hall, List.length_append]; omega
      have hcomp : hdr_complete all = true := by
        simp only [hdr_complete, decide_eq_true_eq]
        refine ⟨by omega, fun hch => ?_⟩
        have : need = 6 := by
          rw [hneed]; unfold need_of; rw [if_pos ⟨by omega, hch⟩]
        omega
      have hcons : hdr_consumed all = tmp.length := by
        unfold hdr_consumed; rw [if_neg (by omega)]
        by_cases hch : char_to_int (all.getD 4 0) = EXIT_CH
        · rw [if_pos hch]
          have : need = 6 := by
            rw [hneed]; unfold need_of; rw [if_pos ⟨by omega, hch⟩]
          omega
        · rw [if_neg hch]
          have : need = 5 := by
            rw [hneed]; unfold need_of; rw [if_neg (fun hh => hch hh.2)]
          omega
      refine ⟨w, ?_, ?_, readOnly_refl fd w⟩
      · rw [hcomp, hcons]
        unfold hdr_loop
        rw [if_neg hlt]
        simp [← hall]
      · rw [hcons, ← hall]; simp

theorem getD_take (l : List Nat) (k i : Nat) (h : i < k) : (l.take k).getD i 0 = l.getD i 0 := by
  simp [List.getD_eq_getElem?_getD, List.getElem?_take, h]

theorem read_pkt_line_header_spec (c : Copy) (w : World) (hok : ReadEv.fail ∉ w.reads) :
    ∃ w1, ReadOnly c.in_fd w w1 ∧
      w1.input c.in_fd = (w.input c.in_fd).drop (hdr_consumed (w.input c.in_fd)) ∧
      read_pkt_line_header c w =
        (if hdr_complete (w.input c.in_fd) then
          (if char_to_int ((w.input c.in_fd).getD 4 0) = EXIT_CH then
            .exit ((w.input c.in_fd).getD 5 0 % 256) w1
          else
            .ret { c with out_fd := char_to_int ((w.input c.in_fd).getD 4 0),
                          pkt_len := strtol16 ((w.input c.in_fd).take 4) - 5 } w1)
        else .exit 0 w1) := by
  obtain ⟨w1, hr, hin, hro⟩ := hdr_loop_spec c.in_fd (w.input c.in_fd) 6 [] 5 w hok
    (by simp) (by simp [need_of]) (by simp) (by simp)
  refine ⟨w1, hro, hin, ?_⟩
  unfold read_pkt_line_header
  rw [hr]
  by_cases hc : hdr_complete (w.input c.in_fd) = true
  · rw [if_pos hc, if_pos hc]
    have hc' := hc
    simp only [hdr_complete, decide_eq_true_eq] at hc'
    by_cases hch : char_to_int ((w.input c.in_fd).getD 4 0) = EXIT_CH
    · have hcons : hdr_consumed (w.input c.in_fd) = 6 := by
        unfold hdr_consumed
        rw [if_neg (by omega), if_pos hch]
        have := hc'.2 hch
        omega
      rw [hcons]
      simp only [getD_take _ 6 4 (by omega), getD_take _ 6 5 (by omega), hch, if_true]
    · have hcons : hdr_consumed (w.input c.in_fd) = 5 := by
        unfold hdr_consumed
        rw [if_neg (by omega), if_neg hch]
      rw [hcons]
      simp only [getD_take _ 5 4 (by omega), hch, if_false, List.take_take]
      rfl
  · rw [if_neg hc, if_neg hc]

theorem hexval_some {b v : Nat} (h : hexval b = some v) :
    (48 ≤ b ∧ b ≤ 57 ∧ v = b - 48) ∨ (97 ≤ b ∧ b ≤ 102 ∧ v = b - 87) ∨
      (65 ≤ b ∧ b ≤ 70 ∧ v = b - 55) := by
  unfold hexval at h
  split_ifs at h with h1 h2 h3
  · left; injection h with h; omega
  · right; left; injection h with h; omega
  · right; right; injection h with h; omega

theorem hexval_lt {b v : Nat} (h : hexval b = some v) : v < 16 := by
  rcases hexval_some h with h | h | h <;> omega

theorem skip0x_hex (d0 d1 d2 d3 v1 : Nat) (h1 : hexval d1 = some v1) :
    skip0x [d0, d1, d2, d3] = [d0, d1, d2, d3] := by
  have h := hexval_some h1
  unfold skip0x
  split
  · rename_i x d rest heq
    simp only [List.cons.injEq] at heq
    rw [if_neg]
    · obtain ⟨e0, e1, e2, e3⟩ := heq
      rw [e0, e1, e2, e3]
    · rintro ⟨hx | hx, _⟩ <;> omega
  · rfl

theorem strtol16_hex (d0 d1 d2 d3 v0 v1 v2 v3 : Nat) (h0 : hexval d0 = some v0)
    (h1 : hexval d1 = some v1) (h2 : hexval d2 = some v2) (h3 : hexval d3 = some v3) :
    strtol16 [d0, d1, d2, d3] = (((v0 * 16 + v1) * 16 + v2) * 16 + v3 : Nat) := by
  have r0 := hexval_some h0
  have r1 := hexval_some h1
  have r2 := hexval_some h2
  have r3 := hexval_some h3
  have n0 : d0 ≠ 0 := by omega
  have n1 : d1 ≠ 0 := by omega
  have n2 : d2 ≠ 0 := by omega
  have n3 : d3 ≠ 0 := by omega
  have s0 : isspace d0 = false := by
    simp only [isspace, Bool.or_eq_false_iff, decide_eq_false_iff_not, Bool.and_eq_false_iff]
    omega
  have e1 : ([d0, d1, d2, d3].takeWhile (fun b => decide (b ≠ 0))).dropWhile isspace
      = [d0, d1, d2, d3] := by
    simp [List.takeWhile, List.dropWhile, n0, n1, n2, n3, s0]
  unfold strtol16
  simp only [e1]
  split
  · rename_i rest heq
    simp only [List.cons.injEq] at heq
    omega
  · rename_i rest heq
    simp only [List.cons.injEq] at heq
    omega
  · rw [skip0x_hex d0 d1 d2 d3 v1 h1]
    simp [hexrun, h0, h1, h2, h3]

theorem char_to_int_eq_exit {b : Nat} (hb : b < 256) : char_to_int b = EXIT_CH ↔ b = 3 := by
  unfold char_to_int EXIT_CH
  rw [Nat.mod_eq_of_lt hb]
  split <;> omega

/-- C5: for every header whose channel byte is not the exit marker and whose
length field is four hexadecimal digits of value `L`, `read_pkt_line_header`
returns (for every way the reads are split) with `pkt_len = L - 5`. -/
theorem C5_pkt_len_is_length_minus_header (c : Copy) (w : World)
    (d0 d1 d2 d3 ch v0 v1 v2 v3 : Nat) (rest : List Nat)
    (hin : w.input c.in_fd = d0 :: d1 :: d2 :: d3 :: ch :: rest)
    (h0 : hexval d0 = some v0) (h1 : hexval d1 = some v1) (h2 : hexval d2 = some v2)
    (h3 : hexval d3 = some v3) (hch : ch < 256) (hne : ch ≠ 3)
    (hok : ReadEv.fail ∉ w.reads) :
    ∃ c1 w1, read_pkt_line_header c w = .ret c1 w1 ∧
      c1.pkt_len = ((v0 * 16 ^ 3 + v1 * 16 ^ 2 + v2 * 16 + v3 : Nat) : Int) - 5 := by
  obtain ⟨w1, _, _, hr⟩ := read_pkt_line_header_spec c w hok
  have hnch : ¬ char_to_int ch = EXIT_CH := fun h => hne ((char_to_int_eq_exit hch).mp h)
  have hcomp : hdr_complete (w.input c.in_fd) = true := by
    simp only [hdr_complete, decide_eq_true_eq, hin]
    exact ⟨by simp, fun h => absurd (by simpa using h) hnch⟩
  rw [hcomp, hin] at hr
  simp only [List.getD_cons_succ, List.getD_cons_zero, if_true, if_neg hnch] at hr
  refine ⟨_, w1, hr, ?_⟩
  simp only [List.take, strtol16_hex d0 d1 d2 d3 v0 v1 v2 v3 h0 h1 h2 h3]
  congr 2
  ring

theorem C5_pkt_len_is_length_minus_header_witness :
    ∃ c1 w1, read_pkt_line_header (cout_init 3)
        (demo_world [48, 48, 49, 97, 1, 120] [.data 1, .eintr, .data 0] []) = .ret c1 w1 ∧
      c1.pkt_len = ((0 * 16 ^ 3 + 0 * 16 ^ 2 + 1 * 16 + 10 : Nat) : Int) - 5 :=
  C5_pkt_len_is_length_minus_header (cout_init 3)
    (demo_world [48, 48, 49, 97, 1, 120] [.data 1, .eintr, .data 0] [])
    48 48 49 97 1 0 0 1 10 [120] rfl (by decide) (by decide) (by decide) (by decide)
    (by decide) (by decide) (by decide)

theorem exitCode_ite {α : Type} (b : Bool) (x y : Outcome α) :
    (if b = true then x else y).exitCode = if b = true then x.exitCode else y.exitCode := by
  cases b <;> rfl

/-- C2: when the fifth header byte is the exit marker 3 and the sixth byte is
`V` (any value `0..255`), whatever the four length bytes are and however the
reads are split, `read_pkt_line_header` ends the process with exit code `V`;
it does not return, it has consumed exactly the six bytes, and nothing has
been written to any descriptor. -/
theorem C2_exit_marker_gives_status (c : Copy) (w : World) (l0 l1 l2 l3 V : Nat)
    (rest : List Nat) (hin : w.input c.in_fd = l0 :: l1 :: l2 :: l3 :: 3 :: V :: rest)
    (hV : V < 256) (hok : ReadEv.fail ∉ w.reads) :
    ∃ w1, read_pkt_line_header c w = .exit V w1 ∧ w1.output = w.output ∧
      w1.input c.in_fd = rest := by
  obtain ⟨w1, hro, hinp, hr⟩ := read_pkt_line_header_spec c w hok
  have hch : char_to_int 3 = EXIT_CH := by decide
  have hcomp : hdr_complete (w.input c.in_fd) = true := by
    simp [hdr_complete, hin]
  have hcons : hdr_consumed (w.input c.in_fd) = 6 := by
    simp [hdr_consumed, hin, hch]
  rw [hcomp, hin] at hr
  simp only [List.getD_cons_succ, List.getD_cons_zero, if_true, hch, Nat.mod_eq_of_lt hV] at hr
  refine ⟨w1, hr, hro.2.1, ?_⟩
  rw [hinp, hcons, hin]
  rfl

theorem C2_exit_marker_gives_status_witness :
    ∃ w1, read_pkt_line_header (cout_init 3)
        (demo_world [122, 0, 45, 57, 3, 200, 7] [.data 2, .data 0, .eintr] []) = .exit 200 w1 ∧
      w1.output = (demo_world [122, 0, 45, 57, 3, 200, 7] [.data 2, .data 0, .eintr] []).output ∧
      w1.input (cout_init 3).in_fd = [7] :=
  C2_exit_marker_gives_status (cout_init 3)
    (demo_world [122, 0, 45, 57, 3, 200, 7] [.data 2, .data 0, .eintr] [])
    122 0 45 57 200 [7] rfl (by decide) (by decide)

/-- C10: when the stream ends after `k < 5` header bytes, or after five bytes
of which the fifth is the exit marker 3 (the status byte missing), the read
that returns zero bytes makes `read_pkt_line_header` end the process with exit
code 0, however the bytes before it were split over reads; nothing is
written. -/
theorem C10_short_header_exits_zero (c : Copy) (w : World)
    (hshort : (w.input c.in_fd).length < 5 ∨
      ((w.input c.in_fd).length = 5 ∧ (w.input c.in_fd).getD 4 0 = 3))
    (hok : ReadEv.fail ∉ w.reads) :
    ∃ w1, read_pkt_line_header c w = .exit 0 w1 ∧ w1.output = w.output ∧
      w1.input c.in_fd = [] := by
  obtain ⟨w1, hro, hinp, hr⟩ := read_pkt_line_header_spec c w hok
  have hch : char_to_int 3 = EXIT_CH := by decide
  have hcomp : hdr_complete (w.input c.in_fd) = false := by
    simp only [hdr_complete, decide_eq_false_iff_not]
    rintro ⟨h5, h6⟩
    rcases hshort with h | ⟨h, hb⟩
    · omega
    · rw [hb] at h6
      have := h6 hch
      omega
  have hcons : hdr_consumed (w.input c.in_fd) = (w.input c.in_fd).length := by
    unfold hdr_consumed
    rcases hshort with h | ⟨h, hb⟩
    · rw [if_pos h]
    · rw [if_neg (by omega), hb, if_pos hch, h]
      rfl
  rw [hcomp] at hr
  refine ⟨w1, by simpa using hr, hro.2.1, ?_⟩
  rw [hinp, hcons]
  simp

theorem C10_short_header_exits_zero_witness :
    ∃ w1, read_pkt_line_header (cout_init 3)
        (demo_world [48, 48, 48, 56, 3] [.data 1, .eintr, .data 9] []) = .exit 0 w1 ∧
      w1.output = (demo_world [48, 48, 48, 56, 3] [.data 1, .eintr, .data 9] []).output ∧
      w1.input (cout_init 3).in_fd = [] :=
  C10_short_header_exits_zero (cout_init 3)
    (demo_world [48, 48, 48, 56, 3] [.data 1, .eintr, .data 9] [])
    (by decide) (by decide)

/-- C6: for every way the header bytes are split over non-empty short reads
(with interrupted calls in between), `read_pkt_line_header` takes exactly 5
bytes from the source when the fifth byte is not the exit marker and exactly 6
when it is, and its outcome (exit status, or the decoded channel and
`pkt_len`) is the one obtained when every read delivers all it was asked
for. -/
theorem C6_header_independent_of_chunking (c : Copy) (w : World)
    (hb : (w.input c.in_fd).getD 4 0 < 256) (h5 : 5 ≤ (w.input c.in_fd).length)
    (h6 : (w.input c.in_fd).getD 4 0 = 3 → 6 ≤ (w.input c.in_fd).length)
    (hok : ReadEv.fail ∉ w.reads) :
    (read_pkt_line_header c w).exitCode
        = (read_pkt_line_header c { w with reads := [] }).exitCode ∧
      (read_pkt_line_header c w).value
        = (read_pkt_line_header c { w with reads := [] }).value ∧
      ∃ w1, (read_pkt_line_header c w).world = some w1 ∧
        w1.input c.in_fd
          = (w.input c.in_fd).drop (if (w.input c.in_fd).getD 4 0 = 3 then 6 else 5) ∧
        (∀ d, d ≠ c.in_fd → w1.input d = w.input d) ∧ w1.output = w.output := by
  obtain ⟨w1, hro, hinp, hr⟩ := read_pkt_line_header_spec c w hok
  obtain ⟨w2, _, _, hr2⟩ := read_pkt_line_header_spec c { w with reads := [] } (by simp)
  have hcomp : hdr_complete (w.input c.in_fd) = true := by
    simp only [hdr_complete, decide_eq_true_eq]
    exact ⟨h5, fun h => h6 ((char_to_int_eq_exit hb).mp h)⟩
  simp only [hcomp, if_true] at hr hr2
  have hcons : hdr_consumed (w.input c.in_fd)
      = if (w.input c.in_fd).getD 4 0 = 3 then 6 else 5 := by
    unfold hdr_consumed
    rw [if_neg (by omega)]
    by_cases h : (w.input c.in_fd).getD 4 0 = 3
    · rw [if_pos ((char_to_int_eq_exit hb).mpr h), if_pos h]
      have := h6 h
      omega
    · rw [if_neg (fun hh => h ((char_to_int_eq_exit hb).mp hh)), if_neg h]
  rw [hr, hr2]
  by_cases h : char_to_int ((w.input c.in_fd).getD 4 0) = EXIT_CH
  · simp only [if_pos h]
    exact ⟨rfl, rfl, w1, rfl, hcons ▸ hinp, hro.1, hro.2.1⟩
  · simp only [if_neg h]
    exact ⟨rfl, rfl, w1, rfl, hcons ▸ hinp, hro.1, hro.2.1⟩

theorem C6_header_independent_of_chunking_witness :
    (read_pkt_line_header (cout_init 3)
        (demo_world [48, 48, 48, 56, 1, 111, 107, 10] [.data 0, .eintr, .data 1, .data 7] [])).exitCode
        = (read_pkt_line_header (cout_init 3)
            { demo_world [48, 48, 48, 56, 1, 111, 107, 10] [.data 0, .eintr, .data 1, .data 7] []
              with reads := [] }).exitCode ∧
      (read_pkt_line_header (cout_init 3)
        (demo_world [48, 48, 48, 56, 1, 111, 107, 10] [.data 0, .eintr, .data 1, .data 7] [])).value
        = (read_pkt_line_header (cout_init 3)
            { demo_world [48, 48, 48, 56, 1, 111, 107, 10] [.data 0, .eintr, .data 1, .data 7] []
              with reads := [] }).value ∧
      ∃ w1, (read_pkt_line_header (cout_init 3)
          (demo_world [48, 48, 48, 56, 1, 111, 107, 10] [.data 0, .eintr, .data 1, .data 7] [])).world
          = some w1 ∧
        w1.input (cout_init 3).in_fd
          = ((demo_world [48, 48, 48, 56, 1, 111, 107, 10] [.data 0, .eintr, .data 1, .data 7]
              []).input (cout_init 3).in_fd).drop
            (if ((demo_world [48, 48, 48, 56, 1, 111, 107, 10] [.data 0, .eintr, .data 1, .data 7]
              []).input (cout_init 3).in_fd).getD 4 0 = 3 then 6 else 5) ∧
        (∀ d, d ≠ (cout_init 3).in_fd →
          w1.input d = (demo_world [48, 48, 48, 56, 1, 111, 107, 10]
            [.data 0, .eintr, .data 1, .data 7] []).input d) ∧
        w1.output = (demo_world [48, 48, 48, 56, 1, 111, 107, 10]
            [.data 0, .eintr, .data 1, .data 7] []).output :=
  C6_header_independent_of_chunking (cout_init 3)
    (demo_world [48, 48, 48, 56, 1, 111, 107, 10] [.data 0, .eintr, .data 1, .data 7] [])
    (by decide) (by decide) (by decide) (by decide)

/-! ## The loops always finish -/

theorem xread_go_ne_hang (fd : Int) (n : Nat) (w : World) (evs : List ReadEv) :
    xread_go fd n w evs ≠ .hang := by
  induction evs with
  | nil => simp [xread_go]
  | cons ev evs ih =>
    cases ev with
    | eintr => exact ih
    | fail => simp [xread_go, die]
    | data k => simp [xread_go]

theorem xread_ne_hang (fd : Int) (n : Nat) (w : World) : xread fd n w ≠ .hang := by
  unfold xread
  split
  · simp [die]
  · exact xread_go_ne_hang fd n w w.reads

theorem xwrite_go_ne_hang (fd : Int) (bs : List Nat) (w : World) (evs : List WriteEv) :
    xwrite_go fd bs w evs ≠ .hang := by
  induction evs with
  | nil => simp [xwrite_go]
  | cons ev evs ih =>
    cases ev with
    | eintr => exact ih
    | fail => simp [xwrite_go, die]
    | wrote k => simp [xwrite_go]

theorem xwrite_ne_hang (fd : Int) (mem : Nat → Nat) (n : Nat) (w : World) :
    xwrite fd mem n w ≠ .hang := by
  unfold xwrite
  split
  · simp [die]
  · exact xwrite_go_ne_hang fd _ w w.writes

theorem hdr_loop_ne_hang (fd : Int) : ∀ (fuel : Nat) (tmp : List Nat) (need : Nat) (w : World),
    need ≤ 6 → 6 ≤ fuel + tmp.length → hdr_loop fd fuel tmp need w ≠ .hang := by
  intro fuel
  induction fuel with
  | zero =>
    intro tmp need w h6 hf
    unfold hdr_loop
    rw [if_neg (by omega)]
    simp
  | succ f ih =>
    intro tmp need w h6 hf
    unfold hdr_loop
    split
    · simp only
      split
      · rename_i bs w1 hx
        split
        · simp
        · rename_i hbs
          apply ih
          · split <;> omega
          · rw [List.length_append]; omega
      · simp
      · rename_i hx
        exact absurd hx (xread_ne_hang _ _ _)
    · simp

theorem read_pkt_line_header_ne_hang (c : Copy) (w : World) :
    read_pkt_line_header c w ≠ .hang := by
  unfold read_pkt_line_header
  split
  · simp only
    split <;> simp
  · simp
  · rename_i h
    exact absurd h (hdr_loop_ne_hang c.in_fd 6 [] 5 w (by omega) (by simp))

theorem do_copy_ne_hang (c : Copy) (s : FdSets) (w : World) : do_copy c s w ≠ .hang := by
  unfold do_copy
  split
  · split
    · simp
    · split
      · simp only
        split
        · split <;> simp
        · simp
        · rename_i h
          exact absurd h (xread_ne_hang _ _ _)
      · simp
      · rename_i h
        split at h
        · exact absurd h (read_pkt_line_header_ne_hang c w)
        · simp at h
  · split
    · simp
    · split
      · simp
      · simp
      · rename_i h
        exact absurd h (xwrite_ne_hang _ _ _ _)

/-! ## The bookkeeping invariant -/

theorem hexrun_lt (s : List Nat) : ∀ acc : Nat, hexrun acc s + 1 ≤ (acc + 1) * 16 ^ s.length := by
  induction s with
  | nil => intro acc; simp [hexrun]
  | cons b bs ih =>
    intro acc
    unfold hexrun
    cases hb : hexval b with
    | none =>
      simp only [List.length_cons]
      have : 1 ≤ 16 ^ (bs.length + 1) := Nat.one_le_two_pow.trans (Nat.pow_le_pow_left (by omega) _)
      nlinarith
    | some d =>
      simp only [List.length_cons]
      have hd := hexval_lt hb
      have h := ih (acc * 16 + d)
      have h2 : (acc * 16 + d + 1) * 16 ^ bs.length ≤ (acc + 1) * 16 * 16 ^ bs.length :=
        Nat.mul_le_mul_right _ (by omega)
      rw [pow_succ]
      nlinarith

theorem hexrun_le_of_length (s : List Nat) (h : s.length ≤ 4) : hexrun 0 s ≤ 65535 := by
  have h1 := hexrun_lt s 0
  have h2 : 16 ^ s.length ≤ 16 ^ 4 := Nat.pow_le_pow_right (by omega) h
  have h3 : (16 : Nat) ^ 4 = 65536 := by norm_num
  omega

theorem skip0x_length (s : List Nat) : (skip0x s).length ≤ s.length := by
  unfold skip0x
  split
  · split <;> simp
  · exact le_refl _

theorem strtol16_bounds (s : List Nat) (h : s.length ≤ 4) :
    -65535 ≤ strtol16 s ∧ strtol16 s ≤ 65535 := by
  have hlen : ((s.takeWhile (fun b => decide (b ≠ 0))).dropWhile isspace).length ≤ 4 := by
    have h1 := (List.dropWhile_sublist isspace
      (l := s.takeWhile (fun b => decide (b ≠ 0)))).length_le
    have h2 := (List.takeWhile_sublist (fun b => decide (b ≠ 0)) (l := s)).length_le
    omega
  unfold strtol16
  simp only
  split
  · rename_i rest heq
    rw [heq] at hlen
    have := hexrun_le_of_length (skip0x rest) (by
      have := skip0x_length rest
      simp only [List.length_cons] at hlen
      omega)
    omega
  · rename_i rest heq
    rw [heq] at hlen
    have := hexrun_le_of_length (skip0x rest) (by
      have := skip0x_length rest
      simp only [List.length_cons] at hlen
      omega)
    omega
  · have := hexrun_le_of_length (skip0x ((s.takeWhile (fun b => decide (b ≠ 0))).dropWhile isspace))
      (by
        have := skip0x_length ((s.takeWhile (fun b => decide (b ≠ 0))).dropWhile isspace)
        omega)
    omega

theorem xread_go_ret (fd : Int) (n : Nat) (w : World) (evs : List ReadEv) (bs : List Nat)
    (w1 : World) (h : xread_go fd n w evs = .ret bs w1) : bs.length ≤ n := by
  induction evs with
  | nil =>
    simp only [xread_go, Outcome.ret.injEq] at h
    rw [← h.1, List.length_take]
    exact Nat.min_le_left _ _
  | cons ev evs ih =>
    cases ev with
    | eintr => exact ih h
    | fail => simp [xread_go, die] at h
    | data k =>
      simp only [xread_go, Outcome.ret.injEq] at h
      rw [← h.1, List.length_take]
      omega

theorem xread_ret (fd : Int) (n : Nat) (w : World) (bs : List Nat) (w1 : World)
    (h : xread fd n w = .ret bs w1) : bs.length ≤ n ∧ n ≤ SSIZE_MAX := by
  unfold xread at h
  by_cases hn : SSIZE_MAX < n
  · rw [if_pos hn] at h
    simp [die] at h
  · rw [if_neg hn] at h
    exact ⟨xread_go_ret fd n w w.reads bs w1 h, Nat.not_lt.mp hn⟩

theorem xwrite_go_ret (fd : Int) (bs : List Nat) (w : World) (evs : List WriteEv) (k : Nat)
    (w1 : World) (h : xwrite_go fd bs w evs = .ret k w1) : k ≤ bs.length := by
  induction evs with
  | nil =>
    simp only [xwrite_go, Outcome.ret.injEq] at h
    omega
  | cons ev evs ih =>
    cases ev with
    | eintr => exact ih h
    | fail => simp [xwrite_go, die] at h
    | wrote j =>
      simp only [xwrite_go, Outcome.ret.injEq] at h
      omega

theorem xwrite_ret (fd : Int) (mem : Nat → Nat) (n : Nat) (w : World) (k : Nat) (w1 : World)
    (h : xwrite fd mem n w = .ret k w1) : k ≤ n ∧ n ≤ SSIZE_MAX := by
  unfold xwrite at h
  by_cases hn : SSIZE_MAX < n
  · rw [if_pos hn] at h
    simp [die] at h
  · rw [if_neg hn] at h
    have := xwrite_go_ret fd _ w w.writes k w1 h
    simp only [List.length_map, List.length_range] at this
    exact ⟨this, Nat.not_lt.mp hn⟩

theorem read_pkt_line_header_ret (c c1 : Copy) (w w1 : World)
    (h : read_pkt_line_header c w = .ret c1 w1) :
    c1.demux = c.demux ∧ c1.cnt = c.cnt ∧ c1.pos = c.pos ∧ c1.in_fd = c.in_fd ∧
      c1.buf = c.buf ∧ -65540 ≤ c1.pkt_len ∧ c1.pkt_len ≤ 65530 := by
  unfold read_pkt_line_header at h
  split at h
  · rename_i tmp w2 _
    simp only at h
    split at h
    · simp at h
    · simp only [Outcome.ret.injEq] at h
      have hb := strtol16_bounds (tmp.take 4) (by simp [List.length_take])
      rw [← h.1]
      exact ⟨rfl, rfl, rfl, rfl, rfl, by simp only; omega, by simp only; omega⟩
  · simp at h
  · simp at h

theorem size_t_of_nonneg {z : Int} (h0 : 0 ≤ z) (h1 : z < 2 ^ 64) : (size_t_of z : Int) = z := by
  unfold size_t_of
  rw [Int.emod_eq_of_lt h0 h1]
  exact Int.toNat_of_nonneg h0

theorem size_t_of_neg {z : Int} (h0 : z < 0) (h1 : -(2 ^ 63) ≤ z) : SSIZE_MAX < size_t_of z := by
  unfold size_t_of SSIZE_MAX
  have h2 : z % (2 ^ 64 : Int) = z + 2 ^ 64 := by
    rw [← Int.add_emod_self]
    exact Int.emod_eq_of_lt (by omega) (by omega)
  rw [h2]
  omega
theorem do_copy_read_tail_inv (c1 : Copy) (s : FdSets) (w1 : World) (c2 : Copy) (s2 : FdSets)
    (w2 : World) (hpk : c1.demux = true → -65540 ≤ c1.pkt_len ∧ c1.pkt_len ≤ 65530)
    (h : (match xread c1.in_fd (size_t_of (if c1.demux then c1.pkt_len else BUF_SIZE)) w1 with
        | .ret bs w2 =>
          if (bs.length : Int) = 0 then (Outcome.exit 0 w2 : Outcome (Copy × FdSets))
          else
            .ret ((if c1.demux then
                  { c1 with pos := 0, cnt := (bs.length : Int), buf := store c1.buf bs,
                            pkt_len := c1.pkt_len - (bs.length : Int) }
                else { c1 with pos := 0, cnt := (bs.length : Int), buf := store c1.buf bs }),
              begin_write (if c1.demux then
                  { c1 with pos := 0, cnt := (bs.length : Int), buf := store c1.buf bs,
                            pkt_len := c1.pkt_len - (bs.length : Int) }
                else { c1 with pos := 0, cnt := (bs.length : Int), buf := store c1.buf bs }) s) w2
        | .exit code w2 => .exit code w2
        | .hang => .hang) = .ret (c2, s2) w2) :
    c2.StrongInv := by
  split at h
  · rename_i bs w3 hx
    obtain ⟨hlen, hmax⟩ := xread_ret _ _ _ _ _ hx
    split at h
    · simp at h
    · simp only [Outcome.ret.injEq, Prod.mk.injEq] at h
      obtain ⟨⟨hc, _⟩, _⟩ := h
      by_cases hd : c1.demux = true
      · obtain ⟨hlo, hhi⟩ := hpk hd
        simp only [hd, if_true] at hc hlen hmax
        have hnn : 0 ≤ c1.pkt_len := by
          by_contra hneg
          have := size_t_of_neg (z := c1.pkt_len) (by omega) (by omega)
          omega
        have hsz := size_t_of_nonneg hnn (by omega)
        rw [← hc]
        refine ⟨by simp, by simp, ?_, fun _ => ?_⟩
        · simp only [BUF_SIZE]; omega
        · simp only; omega
      · have hd' : c1.demux = false := by simpa using hd
        simp only [hd', Bool.false_eq_true, if_false] at hc hlen hmax
        have hsz := size_t_of_nonneg (z := BUF_SIZE) (by decide) (by decide)
        rw [← hc]
        refine ⟨by simp, by simp, ?_, fun hh => ?_⟩
        · have hB : BUF_SIZE = 65536 := rfl
          simp only; omega
        · simp [hd'] at hh
  · simp at h
  · simp at h

theorem do_copy_strong_inv (c : Copy) (s : FdSets) (w : World) (c1 : Copy) (s1 : FdSets)
    (w1 : World) (h : do_copy c s w = .ret (c1, s1) w1) (hinv : c.StrongInv) :
    c1.StrongInv := by
  obtain ⟨hcnt, hpos, hcap, hpk⟩ := hinv
  unfold do_copy at h
  by_cases h0 : c.cnt = 0
  · rw [if_pos h0] at h
    split at h
    · simp only [Outcome.ret.injEq, Prod.mk.injEq] at h
      rw [← h.1.1]
      exact ⟨hcnt, hpos, hcap, hpk⟩
    · split at h
      · rename_i c2 w2 hhdr
        have hpk2 : c2.demux = true → -65540 ≤ c2.pkt_len ∧ c2.pkt_len ≤ 65530 := by
          split at hhdr
          · have := read_pkt_line_header_ret c c2 w w2 hhdr
            exact fun _ => ⟨this.2.2.2.2.2.1, this.2.2.2.2.2.2⟩
          · simp only [Outcome.ret.injEq] at hhdr
            rw [← hhdr.1]
            exact hpk
        exact do_copy_read_tail_inv c2 s w2 c1 s1 w1 hpk2 h
      · simp at h
      · simp at h
  · rw [if_neg h0] at h
    split at h
    · simp only [Outcome.ret.injEq, Prod.mk.injEq] at h
      rw [← h.1.1]
      exact ⟨hcnt, hpos, hcap, hpk⟩
    · split at h
      · rename_i n w2 hx
        obtain ⟨hn, hmax⟩ := xwrite_ret _ _ _ _ _ _ hx
        have hsz := size_t_of_nonneg hcnt (by simp only [BUF_SIZE] at hcap; omega)
        simp only [Outcome.ret.injEq, Prod.mk.injEq] at h
        rw [← h.1.1]
        refine ⟨?_, ?_, ?_, hpk⟩
        · simp only; omega
        · simp only; omega
        · simp only; omega
      · simp at h
      · simp at h
theorem StrongInv_of_reach (c : Copy) (h : Reach c) : c.StrongInv := by
  induction h with
  | cin sock =>
    exact ⟨le_refl _, le_refl _, by simp [cin_init, Copy.zero, BUF_SIZE],
      fun hd => by simp [cin_init, Copy.zero] at hd⟩
  | cout sock =>
    exact ⟨le_refl _, le_refl _, by simp [cout_init, Copy.zero, BUF_SIZE],
      fun _ => by simp [cout_init, Copy.zero]⟩
  | step _ hstep ih => exact do_copy_strong_inv _ _ _ _ _ _ hstep ih

/-- C7: the bookkeeping invariant `0 ≤ cnt` and `pos + cnt ≤ 65536` holds in
every state a pipeline can reach: in the initial state of `cin` and of `cout`,
and after every call of `do_copy` (read phase or write phase) from such a
state, whatever the descriptor sets hold, whatever the `read` and `write`
calls report and whatever header bytes the backend sends (a header that
decodes to a negative `pkt_len` makes the next read ask for a count above
`SSIZE_MAX`, which fails, so that `do_copy` does not return). -/
theorem C7_bookkeeping_invariant (c : Copy) (h : Reach c) : c.Inv :=
  ⟨(StrongInv_of_reach c h).1, (StrongInv_of_reach c h).2.2.1⟩

theorem C7_bookkeeping_invariant_witness : ∃ c1, Reach c1 ∧ c1.cnt = 3 ∧ c1.Inv := by
  cases h : do_copy (cout_init 3) (main_init 3).fds
      (demo_world [48, 48, 48, 56, 1, 111, 107, 10] [] []) with
  | ret a w1 =>
    obtain ⟨c1, s1⟩ := a
    have hcnt : (do_copy (cout_init 3) (main_init 3).fds
        (demo_world [48, 48, 48, 56, 1, 111, 107, 10] [] [])).value.map (fun p => p.1.cnt)
        = some 3 := by decide
    rw [h] at hcnt
    exact ⟨c1, Reach.step (Reach.cout 3) h, by simpa [Outcome.value] using hcnt,
      C7_bookkeeping_invariant c1 (Reach.step (Reach.cout 3) h)⟩
  | exit code w1 =>
    have hno : (do_copy (cout_init 3) (main_init 3).fds
        (demo_world [48, 48, 48, 56, 1, 111, 107, 10] [] [])).exitCode = none := by decide
    rw [h] at hno
    simp [Outcome.exitCode] at hno
  | hang => exact absurd h (do_copy_ne_hang _ _ _)
/-! ## Writes and draining the buffer -/

theorem writeOnly_refl (fd : Int) (w : World) : WriteOnly fd w w :=
  ⟨rfl, rfl, fun _ _ => rfl, fun _ h => h⟩

theorem writeOnly_trans {fd : Int} {w w1 w2 : World} (h1 : WriteOnly fd w w1)
    (h2 : WriteOnly fd w1 w2) : WriteOnly fd w w2 :=
  ⟨h2.1.trans h1.1, h2.2.1.trans h1.2.1, fun d hd => (h2.2.2.1 d hd).trans (h1.2.2.1 d hd),
    fun e he => h1.2.2.2 e (h2.2.2.2 e he)⟩

theorem xwrite_go_spec (fd : Int) (bs : List Nat) (w : World) (evs : List WriteEv)
    (hbs : 1 ≤ bs.length) (hevs : ∀ e, e ∈ evs → e ∈ w.writes) (hok : WriteEv.fail ∉ evs)
    (hnz : WriteEv.wrote 0 ∉ evs) :
    ∃ k w1, xwrite_go fd bs w evs = .ret k w1 ∧ 1 ≤ k ∧ k ≤ bs.length ∧
      w1.output fd = w.output fd ++ bs.take k ∧ WriteOnly fd w w1 := by
  induction evs with
  | nil =>
    refine ⟨bs.length, _, rfl, hbs, le_refl _, ?_, ?_⟩
    · simp [World.emit]
    · refine ⟨rfl, rfl, fun d hd => ?_, fun e he => ?_⟩
      · simp [World.emit, hd]
      · simp at he
  | cons ev evs ih =>
    cases ev with
    | eintr =>
      exact ih (fun e he => hevs e (List.mem_cons_of_mem _ he))
        (fun h => hok (List.mem_cons_of_mem _ h)) (fun h => hnz (List.mem_cons_of_mem _ h))
    | fail => exact absurd (List.mem_cons_self _ _) hok
    | wrote j =>
      have hj : 1 ≤ j := by
        rcases Nat.eq_zero_or_pos j with h | h
        · exact absurd (h ▸ List.mem_cons_self _ _) hnz
        · exact h
      refine ⟨min j bs.length, _, rfl, Nat.le_min.mpr ⟨hj, hbs⟩, Nat.min_le_right _ _, ?_, ?_⟩
      · simp [World.emit, List.take_eq_take]
      · refine ⟨rfl, rfl, fun d hd => ?_, fun e he => ?_⟩
        · simp [World.emit, hd]
        · exact hevs e (List.mem_cons_of_mem _ he)

theorem take_pending (c : Copy) (n k : Nat) (h : k ≤ n) : (c.pending n).take k = c.pending k := by
  unfold Copy.pending
  rw [← List.map_take, List.take_range, Nat.min_eq_left h]

theorem do_copy_write_spec (c : Copy) (s : FdSets) (w : World) (m : Nat) (hm : c.cnt = (m : Int))
    (hm1 : 1 ≤ m) (hmax : m ≤ SSIZE_MAX) (hrdy : FD_ISSET c.out_fd s.write_fds = true)
    (hok : WriteEv.fail ∉ w.writes) (hnz : WriteEv.wrote 0 ∉ w.writes) :
    ∃ k w1, 1 ≤ k ∧ k ≤ m ∧
      do_copy c s w = .ret ({ c with pos := c.pos + (k : Int), cnt := ((m - k : Nat) : Int) },
        if m - k = 0 then begin_read c s else begin_write c s) w1 ∧
      w1.output c.out_fd = w.output c.out_fd ++ c.pending k ∧ WriteOnly c.out_fd w w1 := by
  have hsz : size_t_of c.cnt = m := by
    have h := size_t_of_nonneg (z := c.cnt) (by omega) (by unfold SSIZE_MAX at hmax; omega)
    omega
  obtain ⟨k, w1, hx, hk1, hk2, hout, hwo⟩ :=
    xwrite_go_spec c.out_fd (c.pending m) w w.writes (by simp [Copy.pending]; omega)
      (fun _ h => h) hok hnz
  simp only [Copy.pending, List.length_map, List.length_range] at hk2
  refine ⟨k, w1, hk1, hk2, ?_, ?_, hwo⟩
  · unfold do_copy
    rw [if_neg (by omega)]
    simp only [hrdy, Bool.not_true, Bool.false_eq_true, if_false]
    unfold xwrite
    rw [hsz, if_neg (by omega)]
    unfold Copy.pending at hx
    simp only [hx]
    have e1 : c.cnt - (k : Int) = ((m - k : Nat) : Int) := by omega
    have e2 : (c.cnt - (k : Int) = 0) ↔ (m - k = 0) := by omega
    simp only [e1, begin_read, begin_write]
    congr 2
    by_cases h : m - k = 0
    · simp [h]
    · simp [h]
  · rw [hout, take_pending c m k hk2]
theorem pump_ret_add (a b : Nat) : ∀ (c : Copy) (s : FdSets) (w : World) (c1 : Copy) (s1 : FdSets)
    (w1 : World), pump a c s w = .ret (c1, s1) w1 → pump (a + b) c s w = pump b c1 s1 w1 := by
  induction a with
  | zero =>
    intro c s w c1 s1 w1 h
    simp only [pump, Outcome.ret.injEq, Prod.mk.injEq] at h
    obtain ⟨⟨rfl, rfl⟩, rfl⟩ := h
    simp
  | succ a ih =>
    intro c s w c1 s1 w1 h
    rw [Nat.add_right_comm]
    simp only [pump] at h ⊢
    split at h
    · rename_i c2 s2 w2 heq
      exact ih c2 s2 w2 c1 s1 w1 h
    · simp at h
    · simp at h

theorem pump_succ_of_ret (n : Nat) (c : Copy) (s : FdSets) (w : World) (c1 : Copy) (s1 : FdSets)
    (w1 : World) (h : do_copy c s w = .ret (c1, s1) w1) :
    pump (n + 1) c s w = pump n c1 s1 w1 := by
  simp only [pump, h]

theorem pending_split (c : Copy) (k r : Nat) :
    c.pending (k + r) = c.pending k ++ Copy.pending { c with pos := c.pos + (k : Int) } r := by
  unfold Copy.pending
  rw [List.range_add, List.map_append, List.map_map]
  congr 1
  apply List.map_congr_left
  intro i _
  simp only [Function.comp, Nat.cast_add]
  rw [Int.add_assoc]

theorem drain_spec : ∀ (m : Nat) (c : Copy) (s : FdSets) (w : World), c.cnt = (m : Int) → 1 ≤ m →
    m ≤ SSIZE_MAX → FD_ISSET c.out_fd s.write_fds = true → WriteEv.fail ∉ w.writes →
    WriteEv.wrote 0 ∉ w.writes →
    ∃ n s1 w1, pump n c s w = .ret ({ c with pos := c.pos + (m : Int), cnt := 0 }, s1) w1 ∧
      FD_ISSET c.in_fd s1.read_fds = true ∧
      w1.output c.out_fd = w.output c.out_fd ++ c.pending m ∧ WriteOnly c.out_fd w w1 ∧
      (∀ j, j < n → ∃ cj sj wj, pump j c s w = .ret (cj, sj) wj ∧ 0 < cj.cnt) := by
  intro m
  induction m using Nat.strong_induction_on with
  | _ m ih =>
    intro c s w hm hm1 hmax hrdy hok hnz
    obtain ⟨k, w1, hk1, hk2, hstep, hout, hwo⟩ := do_copy_write_spec c s w m hm hm1 hmax hrdy hok hnz
    by_cases hz : m - k = 0
    · have hkm : k = m := by omega
      subst hkm
      refine ⟨1, begin_read c s, w1, ?_, ?_, hout, hwo, ?_⟩
      · rw [pump_succ_of_ret 0 c s w _ _ _ hstep]
        simp [pump, hz]
      · simp [begin_read, FD_ISSET, FD_SET]
      · intro j hj
        have : j = 0 := by omega
        subst this
        exact ⟨c, s, w, rfl, by omega⟩
    · rw [if_neg hz] at hstep
      have hok1 : WriteEv.fail ∉ w1.writes := fun h => hok (hwo.2.2.2 _ h)
      have hnz1 : WriteEv.wrote 0 ∉ w1.writes := fun h => hnz (hwo.2.2.2 _ h)
      obtain ⟨n, s1, w2, hp, hrd, hout2, hwo2, hfirst⟩ :=
        ih (m - k) (by omega) { c with pos := c.pos + (k : Int), cnt := ((m - k : Nat) : Int) }
          (begin_write c s) w1 rfl (by omega) (by omega)
          (by simp [begin_write, FD_ISSET, FD_SET]) hok1 hnz1
      refine ⟨n + 1, s1, w2, ?_, hrd, ?_, writeOnly_trans hwo hwo2, ?_⟩
      · rw [pump_succ_of_ret n c s w _ _ _ hstep, hp]
        congr 3
        simp only [Copy.mk.injEq, and_true, true_and]
        omega
      · have hsp := pending_split c k (m - k)
        rw [Nat.add_sub_cancel' hk2] at hsp
        simp only at hout2
        rw [hout2, hout, hsp, List.append_assoc]
        rfl
      · intro j hj
        cases j with
        | zero => exact ⟨c, s, w, rfl, by omega⟩
        | succ j =>
          rw [pump_succ_of_ret j c s w _ _ _ hstep]
          exact hfirst j (by omega)

/-! ## The read step of `do_copy` -/

theorem do_copy_read_eq (c : Copy) (s : FdSets) (w : World) (hcnt : c.cnt = 0)
    (hrdy : (FD_ISSET c.in_fd s.read_fds || FD_ISSET c.in_fd s.error_fds) = true) :
    do_copy c s w =
      match (if c.demux && c.pkt_len = 0 then read_pkt_line_header c w else .ret c w) with
      | .ret c1 w1 => read_tail c1 s w1
      | .exit code w1 => .exit code w1
      | .hang => .hang := by
  have hn : (!FD_ISSET c.in_fd s.read_fds && !FD_ISSET c.in_fd s.error_fds) = false := by
    cases h1 : FD_ISSET c.in_fd s.read_fds <;> cases h2 : FD_ISSET c.in_fd s.error_fds <;>
      simp [h1, h2] at hrdy ⊢
  unfold do_copy read_tail
  rw [if_pos hcnt]
  simp only [hn, Bool.false_eq_true, if_false]

theorem xread_spec_nonempty (fd : Int) (n : Nat) (w : World) (hn : n ≤ SSIZE_MAX) (hn1 : 1 ≤ n)
    (hne : w.input fd ≠ []) (hok : ReadEv.fail ∉ w.reads) :
    ∃ m w1, xread fd n w = .ret ((w.input fd).take m) w1 ∧ 1 ≤ m ∧ m ≤ n ∧
      m ≤ (w.input fd).length ∧ w1.input fd = (w.input fd).drop m ∧ ReadOnly fd w w1 := by
  obtain ⟨m, w1, hx, hmn, hm1, hin, hro⟩ := xread_spec fd n w hn hok
  have hlen : 1 ≤ (w.input fd).length := by
    rcases Nat.eq_zero_or_pos (w.input fd).length with h | h
    · exact absurd (List.length_eq_zero.mp h) hne
    · exact h
  by_cases hle : m ≤ (w.input fd).length
  · exact ⟨m, w1, hx, hm1 hn1, hmn, hle, hin, hro⟩
  · refine ⟨(w.input fd).length, w1, ?_, hlen, by omega, le_refl _, ?_, hro⟩
    · rw [hx, List.take_of_length_le (by omega), List.take_of_length_le (le_refl _)]
    · rw [hin, List.drop_of_length_le (by omega), List.drop_of_length_le (le_refl _)]

theorem pending_store (c : Copy) (bs : List Nat) :
    Copy.pending { c with pos := 0, buf := store c.buf bs } bs.length = bs := by
  unfold Copy.pending store
  apply List.ext_getElem
  · simp
  · intro i h1 h2
    simp only [List.length_map, List.length_range] at h1
    simp [h1, List.getD_eq_getElem?_getD, List.getElem?_eq_getElem h1]

theorem read_tail_spec (c1 : Copy) (s : FdSets) (w1 : World) (sz : Nat)
    (hsz : (if c1.demux then c1.pkt_len else BUF_SIZE) = (sz : Int)) (hsz1 : 1 ≤ sz)
    (hsz2 : sz ≤ 65536) (hne : w1.input c1.in_fd ≠ []) (hok : ReadEv.fail ∉ w1.reads) :
    ∃ m w2, 1 ≤ m ∧ m ≤ sz ∧ m ≤ (w1.input c1.in_fd).length ∧
      read_tail c1 s w1 =
        .ret ({ c1 with pos := 0, cnt := (m : Int),
                        buf := store c1.buf ((w1.input c1.in_fd).take m),
                        pkt_len := if c1.demux then c1.pkt_len - (m : Int) else c1.pkt_len },
              begin_write c1 s) w2 ∧
      w2.input c1.in_fd = (w1.input c1.in_fd).drop m ∧ ReadOnly c1.in_fd w1 w2 := by
  have hs : size_t_of (if c1.demux then c1.pkt_len else BUF_SIZE) = sz := by
    rw [hsz]
    have := size_t_of_nonneg (z := (sz : Int)) (by omega) (by omega)
    omega
  obtain ⟨m, w2, hx, hm1, hmn, hml, hin, hro⟩ :=
    xread_spec_nonempty c1.in_fd sz w1 (by unfold SSIZE_MAX; omega) hsz1 hne hok
  refine ⟨m, w2, hm1, hmn, hml, ?_, hin, hro⟩
  unfold read_tail
  simp only [hs, hx]
  have hlen : ((w1.input c1.in_fd).take m).length = m := by
    rw [List.length_take]; omega
  rw [hlen, if_neg (by omega)]
  cases hd : c1.demux <;> simp [begin_write]

/-- C4: in a pipeline that does not demultiplex, a read step that buffers `N`
bytes (`1 ≤ N ≤ 65536`) is followed, for every sequence of partial write
results of at least one byte each (and of interrupted calls), by write steps
that hand `buf[pos .. pos + n)` to the sink until `cnt` is back at 0 for the
first time; what the sink has then received is exactly the `N` bytes that
were read from the source, in order, and no other descriptor received
anything. -/
theorem C4_byte_fidelity (c0 : Copy) (s0 : FdSets) (w0 : World) (hcnt : c0.cnt = 0)
    (hnd : c0.demux = false)
    (hrdy : (FD_ISSET c0.in_fd s0.read_fds || FD_ISSET c0.in_fd s0.error_fds) = true)
    (hin : w0.input c0.in_fd ≠ []) (hrd : ReadEv.fail ∉ w0.reads)
    (hwr : WriteEv.fail ∉ w0.writes) (hnz : WriteEv.wrote 0 ∉ w0.writes) :
    ∃ (N : Nat) (c : Copy) (s : FdSets) (w : World), do_copy c0 s0 w0 = .ret (c, s) w ∧
      1 ≤ N ∧ N ≤ 65536 ∧ c.cnt = (N : Int) ∧ c.pos = 0 ∧
      c.pending N = (w0.input c0.in_fd).take N ∧ w.output = w0.output ∧
      ∃ n c1 s1 w1, pump n c s w = .ret (c1, s1) w1 ∧ c1.cnt = 0 ∧
        (∀ j, j < n → ∃ cj sj wj, pump j c s w = .ret (cj, sj) wj ∧ 0 < cj.cnt) ∧
        w1.output c0.out_fd = w0.output c0.out_fd ++ (w0.input c0.in_fd).take N ∧
        (∀ d, d ≠ c0.out_fd → w1.output d = w0.output d) ∧
        w1.input c0.in_fd = (w0.input c0.in_fd).drop N := by
  obtain ⟨m, w, hm1, hm2, hml, hrt, hinp, hro⟩ :=
    read_tail_spec c0 s0 w0 65536 (by simp [hnd, BUF_SIZE]) (by omega) (by omega) hin hrd
  have hstep : do_copy c0 s0 w0 = .ret
      ({ c0 with pos := 0, cnt := (m : Int), buf := store c0.buf ((w0.input c0.in_fd).take m),
                 pkt_len := c0.pkt_len }, begin_write c0 s0) w := by
    have hif : (c0.demux && decide (c0.pkt_len = 0)) = false := by simp [hnd]
    rw [do_copy_read_eq c0 s0 w0 hcnt hrdy]
    simp only [hif, Bool.false_eq_true, if_false]
    rw [hrt]
    simp [hnd]
  have hlen : ((w0.input c0.in_fd).take m).length = m := by
    rw [List.length_take]; omega
  have hpend : Copy.pending
      { c0 with pos := 0, cnt := (m : Int), buf := store c0.buf ((w0.input c0.in_fd).take m),
                pkt_len := c0.pkt_len } m = (w0.input c0.in_fd).take m := by
    have := pending_store { c0 with cnt := (m : Int) } ((w0.input c0.in_fd).take m)
    rw [hlen] at this
    exact this
  obtain ⟨n, s1, w1, hp, _, hout, hwo, hfirst⟩ :=
    drain_spec m
      { c0 with pos := 0, cnt := (m : Int), buf := store c0.buf ((w0.input c0.in_fd).take m),
                pkt_len := c0.pkt_len }
      (begin_write c0 s0) w rfl hm1 (by unfold SSIZE_MAX; omega)
      (by simp [begin_write, FD_ISSET, FD_SET])
      (by rw [hro.2.2.1]; exact hwr) (by rw [hro.2.2.1]; exact hnz)
  refine ⟨m, _, _, w, hstep, hm1, hm2, rfl, rfl, hpend, hro.2.1, n, _, s1, w1, hp, rfl, hfirst,
    ?_, ?_, ?_⟩
  · simp only at hout
    rw [hout, hpend, hro.2.1]
  · intro d hd
    rw [hwo.2.2.1 d hd, hro.2.1]
  · rw [hwo.1, hinp]

theorem C4_byte_fidelity_witness :
    ∃ (N : Nat) (c : Copy) (s : FdSets) (w : World),
      do_copy (cin_init 3) (main_init 3).fds
        (demo_caller_world [104, 101, 108, 108, 111] [.eintr, .data 3]
          [.wrote 1, .eintr, .wrote 2, .wrote 9]) = .ret (c, s) w ∧
      1 ≤ N ∧ N ≤ 65536 ∧ c.cnt = (N : Int) ∧ c.pos = 0 ∧
      c.pending N = ((demo_caller_world [104, 101, 108, 108, 111] [.eintr, .data 3]
          [.wrote 1, .eintr, .wrote 2, .wrote 9]).input (cin_init 3).in_fd).take N ∧
      w.output = (demo_caller_world [104, 101, 108, 108, 111] [.eintr, .data 3]
          [.wrote 1, .eintr, .wrote 2, .wrote 9]).output ∧
      ∃ n c1 s1 w1, pump n c s w = .ret (c1, s1) w1 ∧ c1.cnt = 0 ∧
        (∀ j, j < n → ∃ cj sj wj, pump j c s w = .ret (cj, sj) wj ∧ 0 < cj.cnt) ∧
        w1.output (cin_init 3).out_fd
          = (demo_caller_world [104, 101, 108, 108, 111] [.eintr, .data 3]
              [.wrote 1, .eintr, .wrote 2, .wrote 9]).output (cin_init 3).out_fd ++
            ((demo_caller_world [104, 101, 108, 108, 111] [.eintr, .data 3]
              [.wrote 1, .eintr, .wrote 2, .wrote 9]).input (cin_init 3).in_fd).take N ∧
        (∀ d, d ≠ (cin_init 3).out_fd →
          w1.output d = (demo_caller_world [104, 101, 108, 108, 111] [.eintr, .data 3]
              [.wrote 1, .eintr, .wrote 2, .wrote 9]).output d) ∧
        w1.input (cin_init 3).in_fd
          = ((demo_caller_world [104, 101, 108, 108, 111] [.eintr, .data 3]
              [.wrote 1, .eintr, .wrote 2, .wrote 9]).input (cin_init 3).in_fd).drop N :=
  C4_byte_fidelity (cin_init 3) (main_init 3).fds
    (demo_caller_world [104, 101, 108, 108, 111] [.eintr, .data 3]
      [.wrote 1, .eintr, .wrote 2, .wrote 9])
    rfl rfl (by decide) (by decide) (by decide) (by decide) (by decide)

/-! ## A length field that is not four hexadecimal digits -/

theorem do_copy_header_step (c : Copy) (s : FdSets) (w : World) (h0 h1 h2 h3 ch : Nat)
    (rest : List Nat) (hcnt : c.cnt = 0) (hdemux : c.demux = true) (hpkt : c.pkt_len = 0)
    (hrdy : (FD_ISSET c.in_fd s.read_fds || FD_ISSET c.in_fd s.error_fds) = true)
    (hin : w.input c.in_fd = h0 :: h1 :: h2 :: h3 :: ch :: rest) (hch : ch < 256) (hne : ch ≠ 3)
    (hok : ReadEv.fail ∉ w.reads) :
    ∃ w1, ReadOnly c.in_fd w w1 ∧ w1.input c.in_fd = rest ∧
      do_copy c s w = read_tail { c with out_fd := char_to_int ch,
                                         pkt_len := strtol16 [h0, h1, h2, h3] - 5 } s w1 := by
  obtain ⟨w1, hro, hinp, hr⟩ := read_pkt_line_header_spec c w hok
  have hnch : ¬ char_to_int ch = EXIT_CH := fun h => hne ((char_to_int_eq_exit hch).mp h)
  have hcomp : hdr_complete (w.input c.in_fd) = true := by
    simp only [hdr_complete, decide_eq_true_eq, hin]
    exact ⟨by simp, fun h => absurd (by simpa using h) hnch⟩
  have hcons : hdr_consumed (w.input c.in_fd) = 5 := by
    unfold hdr_consumed
    rw [hin, if_neg (by simp)]
    simp only [List.getD_cons_succ, List.getD_cons_zero, if_neg hnch]
  rw [hcomp, hin] at hr
  simp only [List.getD_cons_succ, List.getD_cons_zero, if_true, if_neg hnch, List.take] at hr
  refine ⟨w1, hro, ?_, ?_⟩
  · rw [hinp, hcons, hin]
    rfl
  · rw [do_copy_read_eq c s w hcnt hrdy]
    simp only [hdemux, hpkt, Bool.true_and, decide_True, if_true, hr]

/-- C1 (as amended): `read_pkt_line_header` does not check the length field;
`pkt_len` becomes the value `strtol` takes from it, minus 5.  For every 5-byte
header whose channel byte is not the exit marker, whatever its first four
bytes are, the read step of the demultiplexing pipeline ends the session with
exit code 1 exactly when that value is below 5 (as it is when the field has no
leading hexadecimal numeral): the payload read is then asked for a negative
count and fails, exactly the 5 header bytes were taken from the source and
nothing but the diagnostic line on descriptor 2 was written.  When the value
is 5 or more the step does not exit with code 1.  If the value is 5, or the
stream ends right after the header, the session ends with exit code 0, nothing
written.  If the value is 6 or more and bytes follow the header, the step
returns with the first `m` of them pending in the buffer, `1 ≤ m ≤ value - 5`,
`out_fd` set from the channel byte, `pkt_len = value - 5 - m`, and nothing
written yet. -/
theorem C1_exit_one_iff_length_below_five (c : Copy) (s : FdSets) (w : World)
    (h0 h1 h2 h3 ch : Nat) (rest : List Nat) (hcnt : c.cnt = 0) (hdemux : c.demux = true)
    (hpkt : c.pkt_len = 0)
    (hrdy : (FD_ISSET c.in_fd s.read_fds || FD_ISSET c.in_fd s.error_fds) = true)
    (hin : w.input c.in_fd = h0 :: h1 :: h2 :: h3 :: ch :: rest) (hch : ch < 256) (hne : ch ≠ 3)
    (hok : ReadEv.fail ∉ w.reads) :
    (strtol16 [h0, h1, h2, h3] < 5 →
        ∃ w1, do_copy c s w = .exit 1 w1 ∧ w1.input c.in_fd = rest ∧
          (∀ d, d ≠ 2 → w1.output d = w.output d)) ∧
      (5 ≤ strtol16 [h0, h1, h2, h3] → (do_copy c s w).exitCode ≠ some 1) ∧
      (strtol16 [h0, h1, h2, h3] = 5 ∨ (5 ≤ strtol16 [h0, h1, h2, h3] ∧ rest = []) →
        ∃ w1, do_copy c s w = .exit 0 w1 ∧ w1.input c.in_fd = rest ∧ w1.output = w.output) ∧
      (6 ≤ strtol16 [h0, h1, h2, h3] → rest ≠ [] →
        ∃ (m : Nat) (c1 : Copy) (s1 : FdSets) (w1 : World), do_copy c s w = .ret (c1, s1) w1 ∧ 1 ≤ m ∧
          (m : Int) ≤ strtol16 [h0, h1, h2, h3] - 5 ∧ m ≤ rest.length ∧
          c1.pos = 0 ∧ c1.cnt = (m : Int) ∧ c1.pending m = rest.take m ∧
          c1.out_fd = char_to_int ch ∧
          c1.pkt_len = strtol16 [h0, h1, h2, h3] - 5 - (m : Int) ∧
          w1.input c.in_fd = rest.drop m ∧ w1.output = w.output) := by
  obtain ⟨w1, hro, hinp, hstep⟩ :=
    do_copy_header_step c s w h0 h1 h2 h3 ch rest hcnt hdemux hpkt hrdy hin hch hne hok
  have hb := strtol16_bounds [h0, h1, h2, h3] (by simp)
  have hok1 : ReadEv.fail ∉ w1.reads := fun h => hok (hro.2.2.2 _ h)
  refine ⟨?_, ?_, ?_, ?_⟩
  · intro hlt
    have hbig := size_t_of_neg (z := strtol16 [h0, h1, h2, h3] - 5) (by omega) (by omega)
    refine ⟨w1.emit 2 (bytes_of ("fatal: " ++ "cannot read from fd" ++ "\n")), ?_, ?_, ?_⟩
    · rw [hstep]
      unfold read_tail xread
      simp only [hdemux, if_true, if_pos hbig, die]
    · simpa [World.emit] using hinp
    · intro d hd
      simp [World.emit, hd, hro.2.1]
  · intro hge
    rw [hstep]
    have hsz := size_t_of_nonneg (z := strtol16 [h0, h1, h2, h3] - 5) (by omega) (by omega)
    obtain ⟨m, w2, hx, _, _, _, _⟩ :=
      xread_spec c.in_fd (size_t_of (strtol16 [h0, h1, h2, h3] - 5)) w1
        (by unfold SSIZE_MAX; omega) hok1
    unfold read_tail
    simp only [hdemux, if_true, hx]
    split <;> simp [Outcome.exitCode]
  · intro hcase
    have hge : 5 ≤ strtol16 [h0, h1, h2, h3] := by
      rcases hcase with h | h
      · omega
      · exact h.1
    have hsz := size_t_of_nonneg (z := strtol16 [h0, h1, h2, h3] - 5) (by omega) (by omega)
    obtain ⟨m, w2, hx, hmn, _, hin2, hro2⟩ :=
      xread_spec c.in_fd (size_t_of (strtol16 [h0, h1, h2, h3] - 5)) w1
        (by unfold SSIZE_MAX; omega) hok1
    have hbs : (w1.input c.in_fd).take m = [] := by
      rcases hcase with h | h
      · have hm0 : m = 0 := by omega
        rw [hm0]
        rfl
      · rw [hinp, h.2]
        simp
    rw [hbs] at hx
    have hdrop : (w1.input c.in_fd).drop m = rest := by
      have h1 := List.take_append_drop m (w1.input c.in_fd)
      rw [hbs, List.nil_append] at h1
      rw [h1, hinp]
    refine ⟨w2, ?_, ?_, ?_⟩
    · rw [hstep]
      unfold read_tail
      simp only [hdemux, if_true, hx]
      simp
    · rw [hin2, hdrop]
    · rw [hro2.2.1, hro.2.1]
  · intro hge hrest
    have hnn : (0 : Int) ≤ strtol16 [h0, h1, h2, h3] - 5 := by omega
    have hcast : (((strtol16 [h0, h1, h2, h3] - 5).toNat : Nat) : Int)
        = strtol16 [h0, h1, h2, h3] - 5 := Int.toNat_of_nonneg hnn
    obtain ⟨m, w2, hm1, hmsz, hml, hr, hin2, hro2⟩ :=
      read_tail_spec
        { c with out_fd := char_to_int ch, pkt_len := strtol16 [h0, h1, h2, h3] - 5 } s w1
        (strtol16 [h0, h1, h2, h3] - 5).toNat
        (by simp only [hdemux, if_true]; exact hcast.symm) (by omega) (by omega)
        (by simp only; rw [hinp]; exact hrest) hok1
    simp only at hml hin2 hr
    rw [hinp] at hml hin2 hr
    refine ⟨m, _, _, w2, hstep.trans hr, hm1, by omega, hml, rfl, rfl, ?_, rfl, ?_, hin2, ?_⟩
    · have hp := pending_store
        { c with out_fd := char_to_int ch, pkt_len := strtol16 [h0, h1, h2, h3] - 5 }
        (rest.take m)
      rw [List.length_take, Nat.min_eq_left hml] at hp
      exact hp
    · simp only [hdemux, if_true]
    · rw [hro2.2.1, hro.2.1]

theorem C1_exit_one_iff_length_below_five_witness :
    (∃ w1, do_copy (cout_init 3) (main_init 3).fds
          (demo_world [122, 122, 122, 122, 1, 97, 98] [.data 1] []) = .exit 1 w1 ∧
        w1.input (cout_init 3).in_fd = [97, 98] ∧
        (∀ d, d ≠ 2 →
          w1.output d = (demo_world [122, 122, 122, 122, 1, 97, 98] [.data 1] []).output d)) ∧
      (∃ w1, do_copy (cout_init 3) (main_init 3).fds
          (demo_world [48, 48, 48, 53, 1, 97, 98] [.data 1] []) = .exit 0 w1 ∧
        w1.input (cout_init 3).in_fd = [97, 98] ∧
        w1.output = (demo_world [48, 48, 48, 53, 1, 97, 98] [.data 1] []).output) ∧
      (∃ (m : Nat) (c1 : Copy) (s1 : FdSets) (w1 : World), do_copy (cout_init 3) (main_init 3).fds
          (demo_world [48, 48, 56, 122, 1, 97, 98, 99, 100] [.data 1] []) = .ret (c1, s1) w1 ∧
        1 ≤ m ∧ (m : Int) ≤ strtol16 [48, 48, 56, 122] - 5 ∧ m ≤ [97, 98, 99, 100].length ∧
        c1.pos = 0 ∧ c1.cnt = (m : Int) ∧ c1.pending m = [97, 98, 99, 100].take m ∧
        c1.out_fd = char_to_int 1 ∧ c1.pkt_len = strtol16 [48, 48, 56, 122] - 5 - (m : Int) ∧
        w1.input (cout_init 3).in_fd = [97, 98, 99, 100].drop m ∧
        w1.output = (demo_world [48, 48, 56, 122, 1, 97, 98, 99, 100] [.data 1] []).output) :=
  ⟨(C1_exit_one_iff_length_below_five (cout_init 3) (main_init 3).fds
      (demo_world [122, 122, 122, 122, 1, 97, 98] [.data 1] []) 122 122 122 122 1 [97, 98]
      rfl rfl rfl (by decide) rfl (by decide) (by decide) (by decide)).1 (by decide),
    (C1_exit_one_iff_length_below_five (cout_init 3) (main_init 3).fds
      (demo_world [48, 48, 48, 53, 1, 97, 98] [.data 1] []) 48 48 48 53 1 [97, 98]
      rfl rfl rfl (by decide) rfl (by decide) (by decide) (by decide)).2.2.1
      (Or.inl (by decide)),
    (C1_exit_one_iff_length_below_five (cout_init 3) (main_init 3).fds
      (demo_world [48, 48, 56, 122, 1, 97, 98, 99, 100] [.data 1] []) 48 48 56 122 1
      [97, 98, 99, 100]
      rfl rfl rfl (by decide) rfl (by decide) (by decide) (by decide)).2.2.2
      (by decide) (by decide)⟩

/-- C1 (counterexample): the length field `008z` is not four hexadecimal
digits, yet the read step on the stream `008z`, channel 1, `abc` does not end
the session: it returns with the three bytes after the header in the buffer,
and the next step writes them to descriptor 1. -/
theorem C1_counterexample :
    (do_copy (cout_init 3) (main_init 3).fds
        (demo_world [48, 48, 56, 122, 1, 97, 98, 99] [] [])).exitCode = none ∧
      (do_copy (cout_init 3) (main_init 3).fds
        (demo_world [48, 48, 56, 122, 1, 97, 98, 99] [] [])).value.map
          (fun p => (p.1.cnt, p.1.pending 3)) = some (3, [97, 98, 99]) ∧
      (pump 2 (cout_init 3) (main_init 3).fds
        (demo_world [48, 48, 56, 122, 1, 97, 98, 99] [] [])).world.map (fun w => w.output 1)
        = some [97, 98, 99] := by
  refine ⟨by decide, by decide, by decide⟩

/-! ## A write that transfers nothing -/

theorem do_copy_zero_write (c : Copy) (s : FdSets) (w : World) (m : Nat)
    (hm : c.cnt = (m : Int)) (hm1 : 1 ≤ m) (hmax : m ≤ SSIZE_MAX)
    (hrdy : FD_ISSET c.out_fd s.write_fds = true) :
    (∀ evs, w.writes = .wrote 0 :: evs →
        ∃ c1 s1 w1, do_copy c s w = .ret (c1, s1) w1 ∧ c1 = c ∧
          FD_ISSET c.out_fd s1.write_fds = true ∧ w1.output = w.output ∧ w1.writes = evs) ∧
      (∀ evs, w.writes = .fail :: evs → ∃ w1, do_copy c s w = .exit 1 w1) := by
  have hsz : size_t_of c.cnt = m := by
    have h := size_t_of_nonneg (z := c.cnt) (by omega) (by unfold SSIZE_MAX at hmax; omega)
    omega
  constructor
  · intro evs hev
    have hstep : do_copy c s w
        = .ret (c, begin_write c s) { w.emit c.out_fd [] with writes := evs } := by
      unfold do_copy
      rw [if_neg (by omega)]
      simp only [hrdy, Bool.not_true, Bool.false_eq_true, if_false]
      unfold xwrite
      rw [hsz, if_neg (by omega), hev]
      simp only [xwrite_go, Nat.zero_min, List.take_zero, Nat.cast_zero, sub_zero, add_zero]
      rw [if_neg (by omega)]
    refine ⟨c, begin_write c s, _, hstep, rfl, ?_, ?_, rfl⟩
    · simp [begin_write, FD_ISSET, FD_SET]
    · funext d
      simp [World.emit]
  · intro evs hev
    refine ⟨({ w with writes := evs } : World).emit 2
      (bytes_of ("fatal: " ++ "cannot write to fd" ++ "\n")), ?_⟩
    unfold do_copy
    rw [if_neg (by omega)]
    simp only [hrdy, Bool.not_true, Bool.false_eq_true, if_false]
    unfold xwrite
    rw [hsz, if_neg (by omega), hev]
    simp only [xwrite_go, die]

theorem pump_zero_writes (c : Copy) (m : Nat) (hm : c.cnt = (m : Int)) (hm1 : 1 ≤ m)
    (hmax : m ≤ SSIZE_MAX) : ∀ (n : Nat) (s : FdSets) (w : World),
    FD_ISSET c.out_fd s.write_fds = true → w.writes = List.replicate n (.wrote 0) →
    ∃ s1 w1, pump n c s w = .ret (c, s1) w1 ∧ FD_ISSET c.out_fd s1.write_fds = true ∧
      w1.output = w.output ∧ w1.writes = [] := by
  intro n
  induction n with
  | zero =>
    intro s w hrdy hw
    exact ⟨s, w, rfl, hrdy, rfl, by simpa using hw⟩
  | succ k ih =>
    intro s w hrdy hw
    obtain ⟨c1, s1, w1, hstep, hc, hrdy1, hout, hw1⟩ :=
      (do_copy_zero_write c s w m hm hm1 hmax hrdy).1 (List.replicate k (.wrote 0))
        (by rw [hw, List.replicate_succ])
    subst hc
    obtain ⟨s2, w2, hp, hrdy2, hout2, hw2⟩ := ih s1 w1 hrdy1 hw1
    refine ⟨s2, w2, ?_, hrdy2, hout2.trans hout, hw2⟩
    unfold pump
    simp only [hstep]
    exact hp

/-- C8 (the code at the failing input): with two bytes pending and the sink
ready, a write that returns zero bytes does not end the session: `do_copy`
returns with `pos = 0` and `cnt = 2` as before, where a failed write in the
same state ends it with exit code 1.  However many writes in a row return
zero, that many calls of `do_copy` all return and leave the pipeline as it
was, the sink still in the write-interest set and nothing written. -/
theorem C8_zero_write_does_not_end_session :
    (do_copy demo_pending (begin_write demo_pending FdSets.empty)
        (demo_caller_world [] [] [.wrote 0])).exitCode = none ∧
      (do_copy demo_pending (begin_write demo_pending FdSets.empty)
        (demo_caller_world [] [] [.wrote 0])).value.map (fun p => (p.1.pos, p.1.cnt))
        = some (0, 2) ∧
      (do_copy demo_pending (begin_write demo_pending FdSets.empty)
        (demo_caller_world [] [] [.fail])).exitCode = some 1 ∧
      ∀ n : Nat, ∃ s1 w1,
        pump n demo_pending (begin_write demo_pending FdSets.empty)
          (demo_caller_world [] [] (List.replicate n (.wrote 0))) = .ret (demo_pending, s1) w1 ∧
        FD_ISSET demo_pending.out_fd s1.write_fds = true ∧
        w1.output = (demo_caller_world [] [] (List.replicate n (.wrote 0))).output := by
  refine ⟨by decide, by decide, by decide, fun n => ?_⟩
  obtain ⟨s1, w1, hp, hrdy, hout, _⟩ :=
    pump_zero_writes demo_pending 2 rfl (by decide) (by decide) n
      (begin_write demo_pending FdSets.empty)
      (demo_caller_world [] [] (List.replicate n (.wrote 0))) (by decide) rfl
  exact ⟨s1, w1, hp, hrdy, hout⟩

/-! ## Read interest across a wake -/

/-- C9 (the code at the failing input): `main` enters its loop with the
socket on descriptor 3 and the first `select` reports only descriptor 0
readable.  After that iteration the caller-to-backend pipeline has read its
byte, while the backend-to-caller pipeline, which did no I/O, still has
`cnt = 0` but its source is in neither `read_fds` nor `error_fds` at the next
`select`; and when that `select` reports every descriptor ready, the pipeline
still does not read the bytes the socket holds. -/
theorem C9_read_interest_lost :
    (loop_body 3 only_stdin_readable (main_init 3)
        (demo_relay_world [120] [48])).value.map
        (fun st => (st.cin.cnt, st.cout.cnt, FD_ISSET st.cout.in_fd st.fds.read_fds,
          FD_ISSET st.cout.in_fd st.fds.error_fds)) = some (1, 0, false, false) ∧
      (main_loop 3 [only_stdin_readable, all_ready] (main_init 3)
        (demo_relay_world [120] [48])).value.map
        (fun st => (st.cin.cnt, st.cout.cnt, FD_ISSET st.cout.in_fd st.fds.read_fds))
        = some (0, 0, false) ∧
      (main_loop 3 [only_stdin_readable, all_ready] (main_init 3)
        (demo_relay_world [120] [48])).world.map
        (fun w => (w.input 3, w.output 3)) = some ([48], [120]) := by
  refine ⟨by decide, by decide, by decide⟩

/-! ## Demultiplexing a stream of frames -/

theorem Benign.of_readOnly {fd : Int} {w w1 : World} (h : ReadOnly fd w w1) (hb : w.Benign) :
    w1.Benign :=
  ⟨fun hf => hb.1 (h.2.2.2 _ hf), by rw [h.2.2.1]; exact hb.2.1, by rw [h.2.2.1]; exact hb.2.2⟩

theorem Benign.of_writeOnly {fd : Int} {w w1 : World} (h : WriteOnly fd w w1) (hb : w.Benign) :
    w1.Benign :=
  ⟨by rw [h.2.1]; exact hb.1, fun hf => hb.2.1 (h.2.2.2 _ hf), fun hf => hb.2.2 (h.2.2.2 _ hf)⟩

theorem Frame.declared_some (f : Frame) (L : Nat) (h : f.declared = some L) :
    ∃ v0 v1 v2 v3, hexval f.d0 = some v0 ∧ hexval f.d1 = some v1 ∧ hexval f.d2 = some v2 ∧
      hexval f.d3 = some v3 ∧ L = ((v0 * 16 + v1) * 16 + v2) * 16 + v3 := by
  unfold Frame.declared at h
  split at h
  · rename_i a b c d h0 h1 h2 h3
    exact ⟨a, b, c, d, h0, h1, h2, h3, (Option.some.inj h).symm⟩
  · simp at h

/-- C15: when a pipeline is in its write phase (`cnt > 0`) and its sink is
not in `write_fds` after the wait, `do_copy` returns with the struct as it was
(`buf`, `pos`, `cnt`, `pkt_len` and the descriptors unchanged) and the world
as it was (no read, no write); of the descriptor sets only `write_fds`
changes, by `FD_SET` of the sink. -/
theorem C15_sink_not_ready_is_a_no_op (c : Copy) (s : FdSets) (w : World) (hcnt : 0 < c.cnt)
    (hnr : FD_ISSET c.out_fd s.write_fds = false) :
    do_copy c s w = .ret (c, { s with write_fds := FD_SET c.out_fd s.write_fds }) w := by
  unfold do_copy
  rw [if_neg (by omega)]
  simp [hnr]

theorem C15_sink_not_ready_is_a_no_op_witness :
    do_copy demo_pending FdSets.empty (demo_caller_world [120] [] [])
      = .ret (demo_pending,
          { FdSets.empty with write_fds := FD_SET demo_pending.out_fd FdSets.empty.write_fds })
          (demo_caller_world [120] [] []) :=
  C15_sink_not_ready_is_a_no_op demo_pending FdSets.empty (demo_caller_world [120] [] [])
    (by decide) (by decide)

/-! ## Interrupted calls -/

theorem xread_go_eintr (fd : Int) (n : Nat) (w : World) (k : Nat) (evs : List ReadEv) :
    xread_go fd n w (List.replicate k ReadEv.eintr ++ evs) = xread_go fd n w evs := by
  induction k with
  | zero => simp
  | succ k ih => simpa [List.replicate_succ, xread_go] using ih

theorem xwrite_go_eintr (fd : Int) (bs : List Nat) (w : World) (k : Nat) (evs : List WriteEv) :
    xwrite_go fd bs w (List.replicate k WriteEv.eintr ++ evs) = xwrite_go fd bs w evs := by
  induction k with
  | zero => simp
  | succ k ih => simpa [List.replicate_succ, xwrite_go] using ih

theorem xread_go_world (fd : Int) (n : Nat) (w : World) (rd rd1 : List ReadEv)
    (evs : List ReadEv) :
    xread_go fd n { w with reads := rd } evs = xread_go fd n { w with reads := rd1 } evs := by
  induction evs with
  | nil => rfl
  | cons ev evs ih =>
    cases ev with
    | eintr => exact ih
    | fail => rfl
    | data k => rfl

theorem xwrite_go_world (fd : Int) (bs : List Nat) (w : World) (wr wr1 : List WriteEv)
    (evs : List WriteEv) :
    xwrite_go fd bs { w with writes := wr } evs = xwrite_go fd bs { w with writes := wr1 } evs := by
  induction evs with
  | nil => rfl
  | cons ev evs ih =>
    cases ev with
    | eintr => exact ih
    | fail => rfl
    | wrote k => rfl

theorem xread_ret_or_exit_one (fd : Int) (n : Nat) (w : World) :
    (∃ bs w1, xread fd n w = .ret bs w1 ∧ bs.length ≤ n) ∨ (∃ w1, xread fd n w = .exit 1 w1) := by
  cases h : xread fd n w with
  | ret bs w1 => exact Or.inl ⟨bs, w1, rfl, (xread_ret fd n w bs w1 h).1⟩
  | exit code w1 =>
    right
    unfold xread at h
    split at h
    · simp only [die, Outcome.exit.injEq] at h
      exact ⟨w1, by rw [h.1]⟩
    · have : ∀ evs, xread_go fd n w evs = .exit code w1 → code = 1 := by
        intro evs
        induction evs with
        | nil => intro h; simp [xread_go] at h
        | cons ev evs ih =>
          cases ev with
          | eintr => exact ih
          | fail => intro h; simp only [xread_go, die, Outcome.exit.injEq] at h; exact h.1.symm
          | data k => intro h; simp [xread_go] at h
      rw [this _ h]
      exact ⟨w1, rfl⟩
  | hang => exact absurd h (xread_ne_hang fd n w)

theorem xwrite_ret_or_exit_one (fd : Int) (mem : Nat → Nat) (n : Nat) (w : World) :
    (∃ r w1, xwrite fd mem n w = .ret r w1 ∧ r ≤ n) ∨ (∃ w1, xwrite fd mem n w = .exit 1 w1) := by
  cases h : xwrite fd mem n w with
  | ret r w1 => exact Or.inl ⟨r, w1, rfl, (xwrite_ret fd mem n w r w1 h).1⟩
  | exit code w1 =>
    right
    unfold xwrite at h
    split at h
    · simp only [die, Outcome.exit.injEq] at h
      exact ⟨w1, by rw [h.1]⟩
    · have : ∀ evs, xwrite_go fd ((List.range n).map mem) w evs = .exit code w1 → code = 1 := by
        intro evs
        induction evs with
        | nil => intro h; simp [xwrite_go] at h
        | cons ev evs ih =>
          cases ev with
          | eintr => exact ih
          | fail => intro h; simp only [xwrite_go, die, Outcome.exit.injEq] at h; exact h.1.symm
          | wrote k => intro h; simp [xwrite_go] at h
      rw [this _ h]
      exact ⟨w1, rfl⟩
  | hang => exact absurd h (xwrite_ne_hang fd mem n w)

/-- C16: `k` consecutive `read` (resp. `write`) attempts that fail with
`EINTR`, for any `k`, do not show: `xread` (resp. `xwrite`) gives the very
outcome it gives when the attempt that comes after them is the first one, in
particular the same return value `r ≥ 0`.  When the attempt after them fails
with another error the process ends with exit code 1.  In every case `xread`
and `xwrite` either return a count between 0 and the count asked for or end
the process with exit code 1; they return no negative value. -/
theorem C16_interrupted_calls_are_invisible (fd : Int) (n : Nat) (mem : Nat → Nat) (w : World)
    (k : Nat) (hn : n ≤ SSIZE_MAX) :
    (∀ revs, xread fd n { w with reads := List.replicate k ReadEv.eintr ++ revs }
        = xread fd n { w with reads := revs }) ∧
      (∀ wevs, xwrite fd mem n { w with writes := List.replicate k WriteEv.eintr ++ wevs }
        = xwrite fd mem n { w with writes := wevs }) ∧
      (∀ revs, ∃ w1, xread fd n
        { w with reads := List.replicate k ReadEv.eintr ++ ReadEv.fail :: revs } = .exit 1 w1) ∧
      (∀ wevs, ∃ w1, xwrite fd mem n
        { w with writes := List.replicate k WriteEv.eintr ++ WriteEv.fail :: wevs }
          = .exit 1 w1) ∧
      ((∃ bs w1, xread fd n w = .ret bs w1 ∧ bs.length ≤ n) ∨ (∃ w1, xread fd n w = .exit 1 w1)) ∧
      ((∃ r w1, xwrite fd mem n w = .ret r w1 ∧ r ≤ n) ∨
        (∃ w1, xwrite fd mem n w = .exit 1 w1)) := by
  have hlt : ¬ SSIZE_MAX < n := Nat.not_lt.mpr hn
  refine ⟨fun revs => ?_, fun wevs => ?_, fun revs => ?_, fun wevs => ?_,
    xread_ret_or_exit_one fd n w, xwrite_ret_or_exit_one fd mem n w⟩
  · unfold xread
    simp only [if_neg hlt]
    rw [xread_go_eintr, xread_go_world fd n w _ revs]
  · unfold xwrite
    simp only [if_neg hlt]
    rw [xwrite_go_eintr, xwrite_go_world fd _ w _ wevs]
  · unfold xread
    simp only [if_neg hlt]
    rw [xread_go_eintr]
    exact ⟨_, rfl⟩
  · unfold xwrite
    simp only [if_neg hlt]
    rw [xwrite_go_eintr]
    exact ⟨_, rfl⟩

theorem C16_interrupted_calls_are_invisible_witness :
    xread 3 5 { demo_world [104, 105] [] [] with
        reads := List.replicate 3 ReadEv.eintr ++ [ReadEv.data 0] }
        = xread 3 5 { demo_world [104, 105] [] [] with reads := [ReadEv.data 0] } ∧
      (∃ w1, xwrite 1 (fun i => i) 5
        { demo_world [104, 105] [] [] with
          writes := List.replicate 3 WriteEv.eintr ++ WriteEv.fail :: [] } = .exit 1 w1) :=
  ⟨(C16_interrupted_calls_are_invisible 3 5 (fun i => i) (demo_world [104, 105] [] []) 3
      (by decide)).1 [ReadEv.data 0],
    (C16_interrupted_calls_are_invisible 1 5 (fun i => i) (demo_world [104, 105] [] []) 3
      (by decide)).2.2.2.1 []⟩
/-! ## The length a header can declare -/

theorem store_outside (buf : Int → Nat) (bs : List Nat) (i : Int)
    (h : i < 0 ∨ (bs.length : Int) ≤ i) : store buf bs i = buf i := by
  unfold store
  rw [if_neg]
  omega

theorem read_tail_ret (c1 : Copy) (s : FdSets) (w1 : World) (c2 : Copy) (s2 : FdSets) (w2 : World)
    (h : read_tail c1 s w1 = .ret (c2, s2) w2) :
    ∃ bs, xread c1.in_fd (size_t_of (if c1.demux then c1.pkt_len else BUF_SIZE)) w1 = .ret bs w2 ∧
      bs ≠ [] ∧ c2.cnt = (bs.length : Int) ∧ c2.pos = 0 ∧ c2.buf = store c1.buf bs ∧
      c2.in_fd = c1.in_fd ∧ c2.out_fd = c1.out_fd ∧ c2.demux = c1.demux ∧
      c2.pkt_len = (if c1.demux then c1.pkt_len - (bs.length : Int) else c1.pkt_len) ∧
      s2 = begin_write c1 s := by
  unfold read_tail at h
  simp only at h
  split at h
  · rename_i bs w3 hx
    split at h
    · simp at h
    · rename_i hne
      simp only [Outcome.ret.injEq, Prod.mk.injEq] at h
      obtain ⟨⟨hc, hs⟩, hw⟩ := h
      subst hw
      refine ⟨bs, hx, ?_, ?_⟩
      · intro hb
        apply hne
        simp [hb]
      · rw [← hc, ← hs]
        cases hd : c1.demux <;> simp [begin_write]
  · simp at h
  · simp at h

/-- C17: for every non-exit header whose length field is four hexadecimal
digits of value `L ≥ 5`, the decoded `pkt_len` is `L - 5` with
`0 ≤ L - 5 ≤ 65530`; the count the read step then passes to `read` is that
value, at most the 65536 bytes of `buf`, and when the step returns it has
stored at most `L - 5` bytes, all of them inside `buf`: no byte outside
`buf[0 .. 65536)` is changed. -/
theorem C17_read_ceiling_within_buffer (c : Copy) (s : FdSets) (w : World)
    (d0 d1 d2 d3 ch v0 v1 v2 v3 : Nat) (rest : List Nat) (hcnt : c.cnt = 0)
    (hdemux : c.demux = true) (hpkt : c.pkt_len = 0)
    (hrdy : (FD_ISSET c.in_fd s.read_fds || FD_ISSET c.in_fd s.error_fds) = true)
    (hin : w.input c.in_fd = d0 :: d1 :: d2 :: d3 :: ch :: rest)
    (h0 : hexval d0 = some v0) (h1 : hexval d1 = some v1) (h2 : hexval d2 = some v2)
    (h3 : hexval d3 = some v3) (hL : 5 ≤ v0 * 16 ^ 3 + v1 * 16 ^ 2 + v2 * 16 + v3)
    (hch : ch < 256) (hne : ch ≠ 3) (hok : ReadEv.fail ∉ w.reads) :
    ∃ c1 w1, read_pkt_line_header c w = .ret c1 w1 ∧
      c1.pkt_len = ((v0 * 16 ^ 3 + v1 * 16 ^ 2 + v2 * 16 + v3 : Nat) : Int) - 5 ∧
      0 ≤ c1.pkt_len ∧ c1.pkt_len ≤ 65530 ∧
      (size_t_of c1.pkt_len : Int) = c1.pkt_len ∧ (size_t_of c1.pkt_len : Int) ≤ BUF_SIZE ∧
      ∀ c2 s2 w2, do_copy c s w = .ret (c2, s2) w2 →
        0 < c2.cnt ∧ c2.cnt ≤ c1.pkt_len ∧ c2.pos + c2.cnt ≤ BUF_SIZE ∧
          ∀ i : Int, i < 0 ∨ BUF_SIZE ≤ i → c2.buf i = c.buf i := by
  obtain ⟨w1, hro, hinp, hstep⟩ :=
    do_copy_header_step c s w d0 d1 d2 d3 ch rest hcnt hdemux hpkt hrdy hin hch hne hok
  obtain ⟨w1', _, _, hr⟩ := read_pkt_line_header_spec c w hok
  have hnch : ¬ char_to_int ch = EXIT_CH := fun h => hne ((char_to_int_eq_exit hch).mp h)
  have hcomp : hdr_complete (w.input c.in_fd) = true := by
    simp only [hdr_complete, decide_eq_true_eq, hin]
    exact ⟨by simp, fun h => absurd (by simpa using h) hnch⟩
  rw [hcomp, hin] at hr
  simp only [List.getD_cons_succ, List.getD_cons_zero, if_true, if_neg hnch, List.take] at hr
  have hv := strtol16_hex d0 d1 d2 d3 v0 v1 v2 v3 h0 h1 h2 h3
  have l0 := hexval_lt h0
  have l1 := hexval_lt h1
  have l2 := hexval_lt h2
  have l3 := hexval_lt h3
  have hval : strtol16 [d0, d1, d2, d3] - 5
      = ((v0 * 16 ^ 3 + v1 * 16 ^ 2 + v2 * 16 + v3 : Nat) : Int) - 5 := by
    rw [hv]
    congr 2
    ring
  have hB : BUF_SIZE = 65536 := rfl
  have hlo : (0 : Int) ≤ strtol16 [d0, d1, d2, d3] - 5 := by rw [hval]; omega
  have hhi : strtol16 [d0, d1, d2, d3] - 5 ≤ 65530 := by rw [hval]; omega
  have hsz := size_t_of_nonneg hlo (by omega)
  refine ⟨_, w1', hr, hval, hlo, hhi, hsz, by rw [hsz]; omega, ?_⟩
  intro c2 s2 w2 hdo
  rw [hstep] at hdo
  obtain ⟨bs, hx, hbs, hc, hp, hb, -⟩ := read_tail_ret _ s w1 c2 s2 w2 hdo
  dsimp only at hx hc hp hb
  simp only [hdemux, if_true] at hx
  have hlen := (xread_ret _ _ _ _ _ hx).1
  have hpos : 0 < bs.length := List.length_pos.mpr hbs
  dsimp only
  refine ⟨by omega, by omega, by omega, fun i hi => ?_⟩
  rw [hb]
  exact store_outside c.buf bs i (by omega)

theorem C17_read_ceiling_within_buffer_witness :
    ∃ c1 w1, read_pkt_line_header (cout_init 3)
        (demo_world [102, 102, 102, 102, 1, 120, 121] [.data 0] []) = .ret c1 w1 ∧
      c1.pkt_len = ((15 * 16 ^ 3 + 15 * 16 ^ 2 + 15 * 16 + 15 : Nat) : Int) - 5 ∧
      0 ≤ c1.pkt_len ∧ c1.pkt_len ≤ 65530 ∧
      (size_t_of c1.pkt_len : Int) = c1.pkt_len ∧ (size_t_of c1.pkt_len : Int) ≤ BUF_SIZE ∧
      ∀ c2 s2 w2, do_copy (cout_init 3) (main_init 3).fds
          (demo_world [102, 102, 102, 102, 1, 120, 121] [.data 0] []) = .ret (c2, s2) w2 →
        0 < c2.cnt ∧ c2.cnt ≤ c1.pkt_len ∧ c2.pos + c2.cnt ≤ BUF_SIZE ∧
          ∀ i : Int, i < 0 ∨ BUF_SIZE ≤ i → c2.buf i = (cout_init 3).buf i :=
  C17_read_ceiling_within_buffer (cout_init 3) (main_init 3).fds
    (demo_world [102, 102, 102, 102, 1, 120, 121] [.data 0] [])
    102 102 102 102 1 15 15 15 15 [120, 121] rfl rfl rfl (by decide) rfl
    (by decide) (by decide) (by decide) (by decide) (by decide) (by decide) (by decide)
    (by decide)

/-! ## A frame with an empty payload -/

/-- C18: for every non-exit header that declares a total length of exactly 5
(the length field `0005`), the read step that decodes it sets `pkt_len` to 0,
asks `read` for 0 bytes, takes the zero-byte result for end-of-stream and
ends the process with exit code 0.  Exactly the 5 header bytes were consumed
and nothing was written: whatever follows the empty frame on the stream is
neither decoded nor forwarded. -/
theorem C18_empty_payload_frame_exits_zero (c : Copy) (s : FdSets) (w : World)
    (h0 h1 h2 h3 ch : Nat) (rest : List Nat) (hcnt : c.cnt = 0) (hdemux : c.demux = true)
    (hpkt : c.pkt_len = 0)
    (hrdy : (FD_ISSET c.in_fd s.read_fds || FD_ISSET c.in_fd s.error_fds) = true)
    (hin : w.input c.in_fd = h0 :: h1 :: h2 :: h3 :: ch :: rest)
    (hlen : strtol16 [h0, h1, h2, h3] = 5) (hch : ch < 256) (hne : ch ≠ 3)
    (hok : ReadEv.fail ∉ w.reads) :
    (∃ c1 w1, read_pkt_line_header c w = .ret c1 w1 ∧ c1.pkt_len = 0 ∧
        size_t_of c1.pkt_len = 0) ∧
      ∃ w2, do_copy c s w = .exit 0 w2 ∧ w2.input c.in_fd = rest ∧ w2.output = w.output := by
  obtain ⟨w1, hro, hinp, hstep⟩ :=
    do_copy_header_step c s w h0 h1 h2 h3 ch rest hcnt hdemux hpkt hrdy hin hch hne hok
  obtain ⟨w1', _, _, hr⟩ := read_pkt_line_header_spec c w hok
  have hnch : ¬ char_to_int ch = EXIT_CH := fun h => hne ((char_to_int_eq_exit hch).mp h)
  have hcomp : hdr_complete (w.input c.in_fd) = true := by
    simp only [hdr_complete, decide_eq_true_eq, hin]
    exact ⟨by simp, fun h => absurd (by simpa using h) hnch⟩
  rw [hcomp, hin] at hr
  simp only [List.getD_cons_succ, List.getD_cons_zero, if_true, if_neg hnch, List.take] at hr
  have hz : size_t_of (strtol16 [h0, h1, h2, h3] - 5) = 0 := by rw [hlen]; decide
  refine ⟨⟨_, w1', hr, by simp [hlen], by simpa using hz⟩, ?_⟩
  have hok1 : ReadEv.fail ∉ w1.reads := fun h => hok (hro.2.2.2 _ h)
  obtain ⟨m, w2, hx, hm, _, hin2, hro2⟩ := xread_spec c.in_fd 0 w1 (by decide) hok1
  have hm0 : m = 0 := by omega
  subst hm0
  refine ⟨w2, ?_, ?_, ?_⟩
  · rw [hstep]
    unfold read_tail
    simp only [hdemux, if_true, hz, hx]
    simp
  · rw [hin2, hinp]
    rfl
  · rw [hro2.2.1, hro.2.1]

theorem C18_empty_payload_frame_exits_zero_witness :
    (∃ c1 w1, read_pkt_line_header (cout_init 3)
        (demo_world [48, 48, 48, 53, 1, 48, 48, 48, 56, 1, 111, 107, 10] [.data 9] [])
          = .ret c1 w1 ∧ c1.pkt_len = 0 ∧ size_t_of c1.pkt_len = 0) ∧
      ∃ w2, do_copy (cout_init 3) (main_init 3).fds
          (demo_world [48, 48, 48, 53, 1, 48, 48, 48, 56, 1, 111, 107, 10] [.data 9] [])
          = .exit 0 w2 ∧
        w2.input (cout_init 3).in_fd = [48, 48, 48, 56, 1, 111, 107, 10] ∧
        w2.output
          = (demo_world [48, 48, 48, 53, 1, 48, 48, 48, 56, 1, 111, 107, 10] [.data 9] []).output :=
  C18_empty_payload_frame_exits_zero (cout_init 3) (main_init 3).fds
    (demo_world [48, 48, 48, 53, 1, 48, 48, 48, 56, 1, 111, 107, 10] [.data 9] [])
    48 48 48 53 1 [48, 48, 48, 56, 1, 111, 107, 10] rfl rfl rfl (by decide) rfl (by decide)
    (by decide) (by decide) (by decide)

/-! ## What a step in the write phase leaves alone -/

theorem xwrite_go_keeps_input (fd : Int) (bs : List Nat) (w : World) (evs : List WriteEv)
    (w1 : World) (h : (xwrite_go fd bs w evs).world = some w1) :
    w1.input = w.input ∧ w1.reads = w.reads := by
  induction evs with
  | nil =>
    simp only [xwrite_go, Outcome.world, Option.some.injEq] at h
    rw [← h]
    exact ⟨rfl, rfl⟩
  | cons ev evs ih =>
    cases ev with
    | eintr => exact ih h
    | fail =>
      simp only [xwrite_go, die, Outcome.world, Option.some.injEq] at h
      rw [← h]
      exact ⟨rfl, rfl⟩
    | wrote k =>
      simp only [xwrite_go, Outcome.world, Option.some.injEq] at h
      rw [← h]
      exact ⟨rfl, rfl⟩

theorem xwrite_keeps_input (fd : Int) (mem : Nat → Nat) (n : Nat) (w w1 : World)
    (h : (xwrite fd mem n w).world = some w1) : w1.input = w.input ∧ w1.reads = w.reads := by
  unfold xwrite at h
  split at h
  · simp only [die, Outcome.world, Option.some.injEq] at h
    rw [← h]
    exact ⟨rfl, rfl⟩
  · exact xwrite_go_keeps_input fd _ w w.writes w1 h

theorem do_copy_write_phase (c : Copy) (s : FdSets) (w : World) (hcnt : c.cnt ≠ 0) :
    (∀ c1 s1 w1, do_copy c s w = .ret (c1, s1) w1 →
        c1.in_fd = c.in_fd ∧ c1.out_fd = c.out_fd ∧ c1.demux = c.demux ∧
          c1.pkt_len = c.pkt_len ∧ c1.buf = c.buf ∧ w1.input = w.input ∧ w1.reads = w.reads) ∧
      (∀ code w1, do_copy c s w = .exit code w1 →
        code = 1 ∧ w1.input = w.input ∧ w1.reads = w.reads) := by
  unfold do_copy
  rw [if_neg hcnt]
  constructor
  · intro c1 s1 w1 h
    split at h
    · simp only [Outcome.ret.injEq, Prod.mk.injEq] at h
      obtain ⟨⟨rfl, _⟩, rfl⟩ := h
      exact ⟨rfl, rfl, rfl, rfl, rfl, rfl, rfl⟩
    · split at h
      · rename_i n w2 hx
        simp only [Outcome.ret.injEq, Prod.mk.injEq] at h
        obtain ⟨⟨hc, _⟩, hw⟩ := h
        have := xwrite_keeps_input _ _ _ w w2 (by rw [hx]; rfl)
        rw [← hc, ← hw]
        exact ⟨rfl, rfl, rfl, rfl, rfl, this.1, this.2⟩
      · simp at h
      · simp at h
  · intro code w1 h
    split at h
    · simp at h
    · split at h
      · simp at h
      · rename_i code2 w2 hx
        simp only [Outcome.exit.injEq] at h
        obtain ⟨hc, hw⟩ := h
        have hk := xwrite_keeps_input _ _ _ w w2 (by rw [hx]; rfl)
        rcases xwrite_ret_or_exit_one c.out_fd (fun i => c.buf (c.pos + (i : Int)))
          (size_t_of c.cnt) w with ⟨r, w3, h3, _⟩ | ⟨w3, h3⟩
        · rw [h3] at hx
          simp at hx
        · rw [h3] at hx
          simp only [Outcome.exit.injEq] at hx
          rw [← hc, ← hw, ← hx.1]
          exact ⟨rfl, hk.1, hk.2⟩
      · simp at h

theorem pump_succ_right (j : Nat) (c : Copy) (s : FdSets) (w : World) (cj : Copy) (sj : FdSets)
    (wj : World) (h : pump j c s w = .ret (cj, sj) wj) :
    pump (j + 1) c s w = pump 1 cj sj wj :=
  pump_ret_add j 1 c s w cj sj wj h

theorem pump_one_ret (c : Copy) (s : FdSets) (w : World) (c1 : Copy) (s1 : FdSets) (w1 : World)
    (h : pump 1 c s w = .ret (c1, s1) w1) : do_copy c s w = .ret (c1, s1) w1 := by
  simp only [pump] at h
  split at h
  · rename_i c2 s2 w2 heq
    simp only [Outcome.ret.injEq, Prod.mk.injEq] at h
    obtain ⟨⟨rfl, rfl⟩, rfl⟩ := h
    exact heq
  · simp at h
  · simp at h

theorem drain_trace (m : Nat) (c : Copy) (s : FdSets) (w : World) (hm : c.cnt = (m : Int))
    (hm1 : 1 ≤ m) (hmax : m ≤ SSIZE_MAX) (hrdy : FD_ISSET c.out_fd s.write_fds = true)
    (hok : WriteEv.fail ∉ w.writes) (hnz : WriteEv.wrote 0 ∉ w.writes) :
    ∃ n s1 w1, pump n c s w = .ret ({ c with pos := c.pos + (m : Int), cnt := 0 }, s1) w1 ∧
      FD_ISSET c.in_fd s1.read_fds = true ∧
      w1.output c.out_fd = w.output c.out_fd ++ c.pending m ∧ WriteOnly c.out_fd w w1 ∧
      ∀ j, j ≤ n → ∃ cj sj wj, pump j c s w = .ret (cj, sj) wj ∧ cj.in_fd = c.in_fd ∧
        cj.out_fd = c.out_fd ∧ cj.demux = c.demux ∧ cj.pkt_len = c.pkt_len ∧ 0 ≤ cj.cnt ∧
        wj.input = w.input ∧ (j < n → 0 < cj.cnt) := by
  obtain ⟨n, s1, w1, hp, hrd, hout, hwo, hfirst⟩ := drain_spec m c s w hm hm1 hmax hrdy hok hnz
  refine ⟨n, s1, w1, hp, hrd, hout, hwo, ?_⟩
  intro j
  induction j with
  | zero =>
    intro _
    refine ⟨c, s, w, rfl, rfl, rfl, rfl, rfl, by omega, rfl, fun _ => by omega⟩
  | succ j ih =>
    intro hj
    obtain ⟨cj, sj, wj, hpj, e1, e2, e3, e4, _, e6, e7⟩ := ih (by omega)
    have hcj : 0 < cj.cnt := e7 (by omega)
    have hnext : ∃ c' s' w', pump (j + 1) c s w = .ret (c', s') w' ∧ 0 ≤ c'.cnt ∧
        (j + 1 < n → 0 < c'.cnt) := by
      by_cases hlt : j + 1 < n
      · obtain ⟨c', s', w', hp', hc'⟩ := hfirst (j + 1) hlt
        exact ⟨c', s', w', hp', by omega, fun _ => hc'⟩
      · have hjn : j + 1 = n := by omega
        rw [hjn]
        exact ⟨_, s1, w1, hp, le_refl _, fun h => absurd h (by omega)⟩
    obtain ⟨c', s', w', hp', hc0, hc1⟩ := hnext
    have hstep := pump_one_ret cj sj wj c' s' w' (by rw [← pump_succ_right j c s w cj sj wj hpj, hp'])
    obtain ⟨f1, f2, f3, f4, _, f6, _⟩ := (do_copy_write_phase cj sj wj (by omega)).1 c' s' w' hstep
    exact ⟨c', s', w', hp', f1.trans e1, f2.trans e2, f3.trans e3, f4.trans e4, hc0,
      f6.trans e6, hc1⟩
/-! ## The states a frame passes through -/

theorem payload_trace : ∀ (r : Nat) (c0 : Copy) (s0 : FdSets) (w0 : World) (c : Copy) (s : FdSets)
    (w : World) (p tail : List Nat), do_copy c0 s0 w0 = read_tail c s w → c.demux = true →
    c.pkt_len = (r : Int) → 1 ≤ r → r ≤ 65536 → w.input c.in_fd = p ++ tail → p.length = r →
    w.Benign →
    ∃ n c1 s1 w1, 1 ≤ n ∧ pump n c0 s0 w0 = .ret (c1, s1) w1 ∧ c1.cnt = 0 ∧ c1.pkt_len = 0 ∧
      c1.demux = true ∧ c1.in_fd = c.in_fd ∧ c1.out_fd = c.out_fd ∧
      FD_ISSET c.in_fd s1.read_fds = true ∧ w1.input c.in_fd = tail ∧
      w1.output c.out_fd = w.output c.out_fd ++ p ∧
      (∀ d, d ≠ c.out_fd → w1.output d = w.output d) ∧ w1.Benign ∧
      ∀ j, 1 ≤ j → j ≤ n → ∃ cj sj wj, pump j c0 s0 w0 = .ret (cj, sj) wj ∧
        InFrame c.in_fd c.out_fd p tail cj wj ∧ (j < n → ¬ (cj.cnt = 0 ∧ cj.pkt_len = 0)) := by
  intro r
  induction r using Nat.strong_induction_on with
  | _ r ih =>
    intro c0 s0 w0 c s w p tail hstart hdemux hpkt hr1 hr2 hin hplen hben
    have hne : w.input c.in_fd ≠ [] := by
      intro h
      rw [h] at hin
      have := congrArg List.length hin
      simp only [List.length_nil, List.length_append] at this
      omega
    obtain ⟨m, w2, hm1, hm2, _, hrt, hinp, hro⟩ :=
      read_tail_spec c s w r (by simp [hdemux, hpkt]) hr1 hr2 hne hben.1
    rw [if_pos hdemux] at hrt
    have htake : (w.input c.in_fd).take m = p.take m := by
      rw [hin, List.take_append_of_le_length (by omega)]
    have hdrop : (w.input c.in_fd).drop m = p.drop m ++ tail := by
      rw [hin, List.drop_append_of_le_length (by omega)]
    have hlen : (p.take m).length = m := by
      rw [List.length_take]; omega
    have hben2 := Benign.of_readOnly hro hben
    rw [htake] at hrt
    obtain ⟨n, s1, w3, hp, hrd, hout, hwo, htr⟩ :=
      drain_trace m
        { c with pos := 0, cnt := (m : Int), buf := store c.buf (p.take m),
                 pkt_len := c.pkt_len - (m : Int) }
        (begin_write c s) w2 rfl hm1 (by unfold SSIZE_MAX; omega)
        (by simp [begin_write, FD_ISSET, FD_SET]) hben2.2.1 hben2.2.2
    have hpend : Copy.pending
        { c with pos := 0, cnt := (m : Int), buf := store c.buf (p.take m),
                 pkt_len := c.pkt_len - (m : Int) } m = p.take m := by
      have := pending_store { c with cnt := (m : Int), pkt_len := c.pkt_len - (m : Int) }
        (p.take m)
      rw [hlen] at this
      exact this
    dsimp only at hout hrd hwo htr
    rw [hpend, hro.2.1] at hout
    have hben3 := Benign.of_writeOnly hwo hben2
    have hfst := hstart.trans hrt
    have hp1 : pump (n + 1) c0 s0 w0 = _ := (pump_succ_of_ret n c0 s0 w0 _ _ _ hfst).trans hp
    -- the states of the first read and of the writes that follow it
    have hlow : ∀ j, 1 ≤ j → j ≤ n + 1 → ∃ cj sj wj, pump j c0 s0 w0 = .ret (cj, sj) wj ∧
        InFrame c.in_fd c.out_fd p tail cj wj ∧
        (j < n + 1 → ¬ (cj.cnt = 0 ∧ cj.pkt_len = 0)) := by
      intro j hj1 hj2
      obtain ⟨i, rfl⟩ : ∃ i, j = i + 1 := ⟨j - 1, by omega⟩
      obtain ⟨ci, si, wi, hpi, _, e2, _, e4, e5, e6, e7⟩ := htr i (by omega)
      refine ⟨ci, si, wi, (pump_succ_of_ret i c0 s0 w0 _ _ _ hfst).trans hpi,
        ⟨e2, e5, p.take m, p.drop m, (List.take_append_drop m p).symm, ?_, ?_⟩, ?_⟩
      · rw [e6, hinp, hdrop]
      · rw [e4, List.length_drop]
        omega
      · intro hlt hstop
        have := e7 (by omega)
        omega
    by_cases hz : r - m = 0
    · have hmr : m = r := by omega
      subst hmr
      refine ⟨n + 1, _, s1, w3, by omega, hp1, rfl, ?_, hdemux, rfl, rfl, hrd, ?_, ?_, ?_, hben3,
        hlow⟩
      · simp only; omega
      · rw [hwo.1, hinp, hdrop, List.drop_of_length_le (by omega)]
        rfl
      · rw [hout, List.take_of_length_le (by omega)]
      · intro d hd
        rw [hwo.2.2.1 d hd, hro.2.1]
    · have hnext : do_copy
          { c with pos := (0 : Int) + (m : Int), cnt := 0, buf := store c.buf (p.take m),
                   pkt_len := c.pkt_len - (m : Int) } s1 w3
          = read_tail
              { c with pos := (0 : Int) + (m : Int), cnt := 0, buf := store c.buf (p.take m),
                       pkt_len := c.pkt_len - (m : Int) } s1 w3 := by
        rw [do_copy_read_eq _ s1 w3 rfl (by simp only; rw [hrd]; rfl)]
        have hif : (c.demux && decide (c.pkt_len - (m : Int) = 0)) = false := by
          simp only [Bool.and_eq_false_imp, decide_eq_false_iff_not]
          intro _
          omega
        simp only [hif, Bool.false_eq_true, if_false]
      obtain ⟨n2, c1, s2, w4, hn2, hp2, h1, h2, h3, h4, h5, h6, h7, h8, h9, h10, htr2⟩ :=
        ih (r - m) (by omega) _ s1 w3 _ s1 w3 (p.drop m) tail hnext hdemux
          (by simp only; omega) (by omega) (by omega)
          (by simp only; rw [hwo.1, hinp, hdrop]) (by rw [List.length_drop]; omega) hben3
      dsimp only at h4 h5 h6 h7 h8 h9 htr2
      refine ⟨(n + 1) + n2, c1, s2, w4, by omega,
        (pump_ret_add (n + 1) n2 c0 s0 w0 _ _ _ hp1).trans hp2, h1, h2, h3, h4, h5, h6, h7, ?_, ?_,
        h10, ?_⟩
      · rw [h8, hout, List.append_assoc, List.take_append_drop]
      · intro d hd
        rw [h9 d hd, hwo.2.2.1 d hd, hro.2.1]
      · intro j hj1 hj2
        by_cases hle : j ≤ n + 1
        · obtain ⟨cj, sj, wj, hpj, hI, hns⟩ := hlow j hj1 hle
          refine ⟨cj, sj, wj, hpj, hI, fun _ hstop => ?_⟩
          by_cases hlt : j < n + 1
          · exact hns hlt hstop
          · -- the state after the last write of this chunk: more payload is owed
            have hjn : j = n + 1 := by omega
            rw [hjn, hp1] at hpj
            simp only [Outcome.ret.injEq, Prod.mk.injEq] at hpj
            obtain ⟨⟨hc, _⟩, _⟩ := hpj
            rw [← hc] at hstop
            simp only at hstop
            omega
        · obtain ⟨i, rfl⟩ : ∃ i, j = (n + 1) + i := ⟨j - (n + 1), by omega⟩
          obtain ⟨cj, sj, wj, hpj, ⟨i1, i2, pre, q, i3, i4, i5⟩, hns⟩ :=
            htr2 i (by omega) (by omega)
          refine ⟨cj, sj, wj, (pump_ret_add (n + 1) i c0 s0 w0 _ _ _ hp1).trans hpj,
            ⟨i1, i2, p.take m ++ pre, q, ?_, i4, i5⟩, fun hlt => hns (by omega)⟩
          rw [List.append_assoc, ← i3, List.take_append_drop]
theorem header_decode_step (c : Copy) (w : World) (h0 h1 h2 h3 ch : Nat) (rest : List Nat)
    (hin : w.input c.in_fd = h0 :: h1 :: h2 :: h3 :: ch :: rest) (hch : ch < 256) (hne : ch ≠ 3)
    (hok : ReadEv.fail ∉ w.reads) :
    ∃ w1, read_pkt_line_header c w
        = .ret { c with out_fd := char_to_int ch, pkt_len := strtol16 [h0, h1, h2, h3] - 5 } w1 ∧
      w1.input c.in_fd = rest ∧ ReadOnly c.in_fd w w1 := by
  obtain ⟨w1, hro, hinp, hr⟩ := read_pkt_line_header_spec c w hok
  have hnch : ¬ char_to_int ch = EXIT_CH := fun h => hne ((char_to_int_eq_exit hch).mp h)
  have hcomp : hdr_complete (w.input c.in_fd) = true := by
    simp only [hdr_complete, decide_eq_true_eq, hin]
    exact ⟨by simp, fun h => absurd (by simpa using h) hnch⟩
  have hcons : hdr_consumed (w.input c.in_fd) = 5 := by
    unfold hdr_consumed
    rw [hin, if_neg (by simp)]
    simp only [List.getD_cons_succ, List.getD_cons_zero, if_neg hnch]
  rw [hcomp, hin] at hr
  simp only [List.getD_cons_succ, List.getD_cons_zero, if_true, if_neg hnch, List.take] at hr
  refine ⟨w1, hr, ?_, hro⟩
  rw [hinp, hcons, hin]
  rfl

theorem do_copy_length_five (c : Copy) (s : FdSets) (w : World) (h0 h1 h2 h3 ch : Nat)
    (rest : List Nat) (hcnt : c.cnt = 0) (hdemux : c.demux = true) (hpkt : c.pkt_len = 0)
    (hrdy : (FD_ISSET c.in_fd s.read_fds || FD_ISSET c.in_fd s.error_fds) = true)
    (hin : w.input c.in_fd = h0 :: h1 :: h2 :: h3 :: ch :: rest)
    (hlen : strtol16 [h0, h1, h2, h3] = 5) (hch : ch < 256) (hne : ch ≠ 3)
    (hok : ReadEv.fail ∉ w.reads) :
    ∃ w2, do_copy c s w = .exit 0 w2 ∧ w2.input c.in_fd = rest ∧ w2.output = w.output := by
  obtain ⟨w1, hro, hinp, hstep⟩ :=
    do_copy_header_step c s w h0 h1 h2 h3 ch rest hcnt hdemux hpkt hrdy hin hch hne hok
  have hz : size_t_of (strtol16 [h0, h1, h2, h3] - 5) = 0 := by rw [hlen]; decide
  have hok1 : ReadEv.fail ∉ w1.reads := fun h => hok (hro.2.2.2 _ h)
  obtain ⟨m, w2, hx, hm, _, hin2, hro2⟩ := xread_spec c.in_fd 0 w1 (by decide) hok1
  have hm0 : m = 0 := by omega
  subst hm0
  refine ⟨w2, ?_, ?_, ?_⟩
  · rw [hstep]
    unfold read_tail
    simp only [hdemux, if_true, hz, hx]
    simp
  · rw [hin2, hinp]
    rfl
  · rw [hro2.2.1, hro.2.1]

theorem frame_trace (c : Copy) (s : FdSets) (w : World) (d0 d1 d2 d3 ch v0 v1 v2 v3 : Nat)
    (payload tail : List Nat) (hcnt : c.cnt = 0) (hdemux : c.demux = true) (hpkt : c.pkt_len = 0)
    (hrdy : (FD_ISSET c.in_fd s.read_fds || FD_ISSET c.in_fd s.error_fds) = true)
    (hin : w.input c.in_fd = d0 :: d1 :: d2 :: d3 :: ch :: (payload ++ tail))
    (h0 : hexval d0 = some v0) (h1 : hexval d1 = some v1) (h2 : hexval d2 = some v2)
    (h3 : hexval d3 = some v3)
    (hL : v0 * 16 ^ 3 + v1 * 16 ^ 2 + v2 * 16 + v3 = 5 + payload.length)
    (hp1 : 1 ≤ payload.length) (hch : ch < 256) (hne : ch ≠ 3) (hben : w.Benign) :
    ∃ n c1 s1 w1, 1 ≤ n ∧ pump n c s w = .ret (c1, s1) w1 ∧ c1.cnt = 0 ∧ c1.pkt_len = 0 ∧
      c1.demux = true ∧ c1.in_fd = c.in_fd ∧ c1.out_fd = char_to_int ch ∧
      FD_ISSET c.in_fd s1.read_fds = true ∧ w1.input c.in_fd = tail ∧
      w1.output (char_to_int ch) = w.output (char_to_int ch) ++ payload ∧
      (∀ d, d ≠ char_to_int ch → w1.output d = w.output d) ∧ w1.Benign ∧
      ∀ j, 1 ≤ j → j ≤ n → ∃ cj sj wj, pump j c s w = .ret (cj, sj) wj ∧
        InFrame c.in_fd (char_to_int ch) payload tail cj wj ∧
        (j < n → ¬ (cj.cnt = 0 ∧ cj.pkt_len = 0)) := by
  obtain ⟨w1, hro, hinp, hstep⟩ :=
    do_copy_header_step c s w d0 d1 d2 d3 ch (payload ++ tail) hcnt hdemux hpkt hrdy hin hch hne
      hben.1
  have hv := strtol16_hex d0 d1 d2 d3 v0 v1 v2 v3 h0 h1 h2 h3
  have l0 := hexval_lt h0
  have l1 := hexval_lt h1
  have l2 := hexval_lt h2
  have l3 := hexval_lt h3
  have hpk : strtol16 [d0, d1, d2, d3] - 5 = (payload.length : Int) := by
    rw [hv]
    have : ((v0 * 16 + v1) * 16 + v2) * 16 + v3 = 5 + payload.length := by rw [← hL]; ring
    rw [this]
    push_cast
    omega
  obtain ⟨n, c1, s1, w2, hn, hp, e1, e2, e3, e4, e5, e6, e7, e8, e9, e10, htr⟩ :=
    payload_trace payload.length c s w
      { c with out_fd := char_to_int ch, pkt_len := strtol16 [d0, d1, d2, d3] - 5 }
      s w1 payload tail hstep hdemux hpk hp1 (by omega) hinp rfl (Benign.of_readOnly hro hben)
  dsimp only at e4 e5 e6 e7 e8 e9 htr
  refine ⟨n, c1, s1, w2, hn, hp, e1, e2, e3, e4, e5, e6, e7, ?_, ?_, e10, htr⟩
  · rw [e8, hro.2.1]
  · intro d hd
    rw [e9 d hd, hro.2.1]

/-- C14: after a header with a four-hex-digit length `L ≥ 5` is decoded,
for every way the payload arrives in short reads and leaves in partial
writes, in every state up to the next header decode `pkt_len` is between 0
and `L - 5` and equals the number of payload bytes still on the stream: what
the source still holds is always a final part of the payload followed, intact,
by what comes after the frame, so every read took at most `pkt_len` bytes and
lowered `pkt_len` by what it took.  No state before the last one has
`cnt = 0` and `pkt_len = 0`, the condition under which `do_copy` calls
`read_pkt_line_header`; the last one has, with exactly the `L - 5` payload
bytes consumed, and the next `do_copy` call decodes the next header.  For
`L = 5` the step that decoded the header ends the process at once, having
read nothing past the header. -/
theorem C14_frame_boundary_tracking (c : Copy) (s : FdSets) (w : World)
    (d0 d1 d2 d3 ch v0 v1 v2 v3 : Nat) (payload tail : List Nat) (hcnt : c.cnt = 0)
    (hdemux : c.demux = true) (hpkt : c.pkt_len = 0)
    (hrdy : (FD_ISSET c.in_fd s.read_fds || FD_ISSET c.in_fd s.error_fds) = true)
    (hin : w.input c.in_fd = d0 :: d1 :: d2 :: d3 :: ch :: (payload ++ tail))
    (h0 : hexval d0 = some v0) (h1 : hexval d1 = some v1) (h2 : hexval d2 = some v2)
    (h3 : hexval d3 = some v3)
    (hL : v0 * 16 ^ 3 + v1 * 16 ^ 2 + v2 * 16 + v3 = 5 + payload.length)
    (hch : ch < 256) (hne : ch ≠ 3) (hben : w.Benign) :
    (payload = [] → ∃ w1, do_copy c s w = .exit 0 w1 ∧ w1.input c.in_fd = tail) ∧
      (payload ≠ [] → ∃ n c1 s1 w1, 1 ≤ n ∧ pump n c s w = .ret (c1, s1) w1 ∧ c1.cnt = 0 ∧
        c1.pkt_len = 0 ∧ w1.input c.in_fd = tail ∧
        do_copy c1 s1 w1 = (match read_pkt_line_header c1 w1 with
          | .ret c2 w2 => read_tail c2 s1 w2
          | .exit code w2 => .exit code w2
          | .hang => .hang) ∧
        ∀ j, 1 ≤ j → j ≤ n → ∃ cj sj wj, pump j c s w = .ret (cj, sj) wj ∧
          0 ≤ cj.pkt_len ∧ cj.pkt_len ≤ (payload.length : Int) ∧
          (∃ pre q, payload = pre ++ q ∧ wj.input c.in_fd = q ++ tail ∧
            cj.pkt_len = (q.length : Int)) ∧
          (j < n → ¬ (cj.cnt = 0 ∧ cj.pkt_len = 0))) := by
  constructor
  · intro hemp
    subst hemp
    have hv := strtol16_hex d0 d1 d2 d3 v0 v1 v2 v3 h0 h1 h2 h3
    have hlen : strtol16 [d0, d1, d2, d3] = 5 := by
      rw [hv]
      have : ((v0 * 16 + v1) * 16 + v2) * 16 + v3 = 5 := by
        simp only [List.length_nil] at hL
        omega
      rw [this]
      rfl
    obtain ⟨w2, hx, hi, _⟩ := do_copy_length_five c s w d0 d1 d2 d3 ch ([] ++ tail) hcnt hdemux
      hpkt hrdy hin hlen hch hne hben.1
    exact ⟨w2, hx, by simpa using hi⟩
  · intro hne'
    have hp1 : 1 ≤ payload.length := List.length_pos.mpr hne'
    obtain ⟨n, c1, s1, w1, hn, hp, e1, e2, e3, e4, _, e6, e7, _, _, _, htr⟩ :=
      frame_trace c s w d0 d1 d2 d3 ch v0 v1 v2 v3 payload tail hcnt hdemux hpkt hrdy hin
        h0 h1 h2 h3 hL hp1 hch hne hben
    refine ⟨n, c1, s1, w1, hn, hp, e1, e2, e7, ?_, ?_⟩
    · rw [do_copy_read_eq c1 s1 w1 e1 (by rw [e4, e6]; rfl)]
      simp only [e3, e2, Bool.true_and, decide_True, if_true]
    · intro j hj1 hj2
      obtain ⟨cj, sj, wj, hpj, ⟨_, _, pre, q, i3, i4, i5⟩, hns⟩ := htr j hj1 hj2
      refine ⟨cj, sj, wj, hpj, by omega, ?_, ⟨pre, q, i3, i4, i5⟩, hns⟩
      rw [i5, i3, List.length_append]
      omega
theorem C14_frame_boundary_tracking_witness :
    ([111, 107, 10] = [] →
        ∃ w1, do_copy (cout_init 3) (main_init 3).fds demo_frame_world = .exit 0 w1 ∧
          w1.input (cout_init 3).in_fd = [48, 48, 48, 54, 2, 101]) ∧
      ([111, 107, 10] ≠ [] → ∃ n c1 s1 w1, 1 ≤ n ∧
        pump n (cout_init 3) (main_init 3).fds demo_frame_world = .ret (c1, s1) w1 ∧
        c1.cnt = 0 ∧ c1.pkt_len = 0 ∧ w1.input (cout_init 3).in_fd = [48, 48, 48, 54, 2, 101] ∧
        do_copy c1 s1 w1 = (match read_pkt_line_header c1 w1 with
          | .ret c2 w2 => read_tail c2 s1 w2
          | .exit code w2 => .exit code w2
          | .hang => .hang) ∧
        ∀ j, 1 ≤ j → j ≤ n → ∃ cj sj wj,
          pump j (cout_init 3) (main_init 3).fds demo_frame_world = .ret (cj, sj) wj ∧
          0 ≤ cj.pkt_len ∧ cj.pkt_len ≤ (([111, 107, 10] : List Nat).length : Int) ∧
          (∃ pre q, [111, 107, 10] = pre ++ q ∧
            wj.input (cout_init 3).in_fd = q ++ [48, 48, 48, 54, 2, 101] ∧
            cj.pkt_len = (q.length : Int)) ∧
          (j < n → ¬ (cj.cnt = 0 ∧ cj.pkt_len = 0))) :=
  C14_frame_boundary_tracking (cout_init 3) (main_init 3).fds demo_frame_world
    48 48 48 56 1 0 0 0 8 [111, 107, 10] [48, 48, 48, 54, 2, 101] rfl rfl rfl (by decide) rfl
    (by decide) (by decide) (by decide) (by decide) (by decide) (by decide) (by decide)
    (by decide)

/-! ## The sink of a frame -/

theorem char_to_int_small {b : Nat} (hb : b < 128) : char_to_int b = (b : Int) := by
  unfold char_to_int
  rw [Nat.mod_eq_of_lt (by omega), if_pos hb]

theorem char_to_int_big {b : Nat} (h1 : 128 ≤ b) (h2 : b < 256) :
    char_to_int b = (b : Int) - 256 := by
  unfold char_to_int
  rw [Nat.mod_eq_of_lt h2, if_neg (by omega)]

/-- C19 (as amended): for every non-exit header with channel byte `ch`,
`read_pkt_line_header` overwrites `out_fd`, whatever it was before, with `ch`
converted from `char` to `int`: `ch` itself for every byte up to 127 (so 1 for
channel 1 and 2 for channel 2), and `ch - 256`, a negative number, for a byte
from 128 up.  For a channel byte up to 127 the payload of the frame is then
written to descriptor `ch` and to no other, and `out_fd` is `ch` in every
state up to the one in which the next header is decoded. -/
theorem C19_sink_is_channel_byte_as_signed_char (c : Copy) (s : FdSets) (w : World)
    (h0 h1 h2 h3 ch : Nat) (rest : List Nat) (hcnt : c.cnt = 0) (hdemux : c.demux = true)
    (hpkt : c.pkt_len = 0)
    (hrdy : (FD_ISSET c.in_fd s.read_fds || FD_ISSET c.in_fd s.error_fds) = true)
    (hin : w.input c.in_fd = h0 :: h1 :: h2 :: h3 :: ch :: rest) (hch : ch < 256) (hne : ch ≠ 3)
    (hben : w.Benign) :
    (∃ c1 w1, read_pkt_line_header c w = .ret c1 w1 ∧
        (ch < 128 → c1.out_fd = (ch : Int)) ∧ (128 ≤ ch → c1.out_fd = (ch : Int) - 256)) ∧
      (ch < 128 → ∀ v0 v1 v2 v3 payload tail, hexval h0 = some v0 → hexval h1 = some v1 →
        hexval h2 = some v2 → hexval h3 = some v3 → rest = payload ++ tail →
        v0 * 16 ^ 3 + v1 * 16 ^ 2 + v2 * 16 + v3 = 5 + payload.length → 1 ≤ payload.length →
        ∃ n c1 s1 w1, 1 ≤ n ∧ pump n c s w = .ret (c1, s1) w1 ∧ c1.cnt = 0 ∧ c1.pkt_len = 0 ∧
          w1.input c.in_fd = tail ∧
          w1.output (ch : Int) = w.output (ch : Int) ++ payload ∧
          (∀ d, d ≠ (ch : Int) → w1.output d = w.output d) ∧
          ∀ j, 1 ≤ j → j ≤ n → ∃ cj sj wj, pump j c s w = .ret (cj, sj) wj ∧
            cj.out_fd = (ch : Int)) := by
  constructor
  · obtain ⟨w1, hr, _, _⟩ := header_decode_step c w h0 h1 h2 h3 ch rest hin hch hne hben.1
    exact ⟨_, w1, hr, fun h => char_to_int_small h, fun h => char_to_int_big h hch⟩
  · intro hsmall v0 v1 v2 v3 payload tail e0 e1 e2 e3 hrest hL hp1
    subst hrest
    obtain ⟨n, c1, s1, w1, hn, hp, f1, f2, _, _, _, _, f7, f8, f9, _, htr⟩ :=
      frame_trace c s w h0 h1 h2 h3 ch v0 v1 v2 v3 payload tail hcnt hdemux hpkt hrdy hin
        e0 e1 e2 e3 hL hp1 hch hne hben
    rw [char_to_int_small hsmall] at f8 f9
    refine ⟨n, c1, s1, w1, hn, hp, f1, f2, f7, f8, f9, fun j hj1 hj2 => ?_⟩
    obtain ⟨cj, sj, wj, hpj, hI, _⟩ := htr j hj1 hj2
    exact ⟨cj, sj, wj, hpj, hI.1.trans (char_to_int_small hsmall)⟩

theorem C19_sink_is_channel_byte_as_signed_char_witness :
    ((∃ c1 w1, read_pkt_line_header (cout_init 3)
          (demo_world [48, 48, 48, 56, 2, 111, 107, 10] [.data 1] [.wrote 1]) = .ret c1 w1 ∧
        (2 < 128 → c1.out_fd = ((2 : Nat) : Int)) ∧
        (128 ≤ 2 → c1.out_fd = ((2 : Nat) : Int) - 256)) ∧
      (2 < 128 → ∀ v0 v1 v2 v3 payload tail, hexval 48 = some v0 → hexval 48 = some v1 →
        hexval 48 = some v2 → hexval 56 = some v3 → [111, 107, 10] = payload ++ tail →
        v0 * 16 ^ 3 + v1 * 16 ^ 2 + v2 * 16 + v3 = 5 + payload.length → 1 ≤ payload.length →
        ∃ n c1 s1 w1, 1 ≤ n ∧
          pump n (cout_init 3) (main_init 3).fds
            (demo_world [48, 48, 48, 56, 2, 111, 107, 10] [.data 1] [.wrote 1])
            = .ret (c1, s1) w1 ∧
          c1.cnt = 0 ∧ c1.pkt_len = 0 ∧ w1.input (cout_init 3).in_fd = tail ∧
          w1.output ((2 : Nat) : Int)
            = (demo_world [48, 48, 48, 56, 2, 111, 107, 10] [.data 1] [.wrote 1]).output
                ((2 : Nat) : Int) ++ payload ∧
          (∀ d, d ≠ ((2 : Nat) : Int) →
            w1.output d
              = (demo_world [48, 48, 48, 56, 2, 111, 107, 10] [.data 1] [.wrote 1]).output d) ∧
          ∀ j, 1 ≤ j → j ≤ n → ∃ cj sj wj,
            pump j (cout_init 3) (main_init 3).fds
              (demo_world [48, 48, 48, 56, 2, 111, 107, 10] [.data 1] [.wrote 1])
              = .ret (cj, sj) wj ∧
            cj.out_fd = ((2 : Nat) : Int))) ∧
      (∃ c1 w1, read_pkt_line_header (cout_init 3)
          (demo_world [48, 48, 48, 56, 200, 111, 107, 10] [.data 1] [.wrote 1]) = .ret c1 w1 ∧
        c1.out_fd = ((200 : Nat) : Int) - 256) :=
  ⟨C19_sink_is_channel_byte_as_signed_char (cout_init 3) (main_init 3).fds
      (demo_world [48, 48, 48, 56, 2, 111, 107, 10] [.data 1] [.wrote 1])
      48 48 48 56 2 [111, 107, 10] rfl rfl rfl (by decide) rfl (by decide) (by decide)
      (by decide),
    (C19_sink_is_channel_byte_as_signed_char (cout_init 3) (main_init 3).fds
      (demo_world [48, 48, 48, 56, 200, 111, 107, 10] [.data 1] [.wrote 1])
      48 48 48 56 200 [111, 107, 10] rfl rfl rfl (by decide) rfl (by decide) (by decide)
      (by decide)).1.imp
      (fun _ hc => hc.imp (fun _ h => ⟨h.1, h.2.2 (by decide)⟩))⟩

/-- C19 (counterexample): on the header `0008` with channel byte 200,
`read_pkt_line_header` returns with `out_fd = -56`, not 200. -/
theorem C19_counterexample :
    (read_pkt_line_header (cout_init 3)
        (demo_world [48, 48, 48, 56, 200, 111, 107, 10] [] [])).value.map
        (fun c1 => (c1.out_fd, decide (c1.out_fd = 200))) = some (-56, false) := by
  decide

/-! ## What has been read has been written when the session ends -/

theorem frames_run : ∀ (fs : List Frame) (c : Copy) (s : FdSets) (w : World) (rest : List Nat),
    (∀ f, f ∈ fs → f.wf) → c.demux = true → c.cnt = 0 → c.pkt_len = 0 →
    (FD_ISSET c.in_fd s.read_fds || FD_ISSET c.in_fd s.error_fds) = true →
    w.input c.in_fd = stream fs ++ rest → w.Benign →
    ∃ n c1 s1 w1, pump n c s w = .ret (c1, s1) w1 ∧ c1.demux = true ∧ c1.cnt = 0 ∧
      c1.pkt_len = 0 ∧ c1.in_fd = c.in_fd ∧
      (FD_ISSET c1.in_fd s1.read_fds || FD_ISSET c1.in_fd s1.error_fds) = true ∧
      w1.input c.in_fd = rest ∧ w1.Benign ∧ ∀ d, w1.output d = w.output d ++ routed d fs := by
  intro fs
  induction fs with
  | nil =>
    intro c s w rest _ hdemux hcnt hpkt hrdy hin hben
    exact ⟨0, c, s, w, rfl, hdemux, hcnt, hpkt, rfl, hrdy, by simpa [stream] using hin, hben,
      fun d => by simp [routed]⟩
  | cons f fs ih =>
    intro c s w rest hwf hdemux hcnt hpkt hrdy hin hben
    obtain ⟨hdecl, hp1, hch, hne⟩ := hwf f (List.mem_cons_self _ _)
    obtain ⟨v0, v1, v2, v3, e0, e1, e2, e3, hL⟩ := f.declared_some _ hdecl
    have hin' : w.input c.in_fd
        = f.d0 :: f.d1 :: f.d2 :: f.d3 :: f.ch :: (f.payload ++ (stream fs ++ rest)) := by
      rw [hin]
      simp [stream, Frame.bytes]
    have hL' : v0 * 16 ^ 3 + v1 * 16 ^ 2 + v2 * 16 + v3 = 5 + f.payload.length := by
      rw [hL]; ring
    obtain ⟨n, c1, s1, w1, _, hp, f1, f2, f3, f4, _, f6, f7, f8, f9, f10, _⟩ :=
      frame_trace c s w f.d0 f.d1 f.d2 f.d3 f.ch v0 v1 v2 v3 f.payload (stream fs ++ rest)
        hcnt hdemux hpkt hrdy hin' e0 e1 e2 e3 hL' hp1 hch hne hben
    obtain ⟨n2, c2, s2, w2, hp2, g1, g2, g3, g4, g5, g6, g7, g8⟩ :=
      ih c1 s1 w1 rest (fun g hg => hwf g (List.mem_cons_of_mem _ hg)) f3 f1 f2
        (by rw [f4, f6]; rfl) (by rw [f4]; exact f7) f10
    refine ⟨n + n2, c2, s2, w2, (pump_ret_add n n2 c s w c1 s1 w1 hp).trans hp2, g1, g2, g3,
      g4.trans f4, g5, by rw [← f4]; exact g6, g7, fun d => ?_⟩
    rw [g8 d]
    simp only [routed]
    by_cases hd : char_to_int f.ch = d
    · rw [if_pos hd, ← hd, f8, List.append_assoc]
    · rw [if_neg hd, f9 d (fun h => hd h.symm)]
      simp

theorem exit_marker_step (c : Copy) (s : FdSets) (w : World) (l0 l1 l2 l3 V : Nat)
    (rest : List Nat) (hcnt : c.cnt = 0) (hdemux : c.demux = true) (hpkt : c.pkt_len = 0)
    (hrdy : (FD_ISSET c.in_fd s.read_fds || FD_ISSET c.in_fd s.error_fds) = true)
    (hin : w.input c.in_fd = l0 :: l1 :: l2 :: l3 :: 3 :: V :: rest) (hV : V < 256)
    (hok : ReadEv.fail ∉ w.reads) :
    ∃ w1, do_copy c s w = .exit V w1 ∧ w1.output = w.output := by
  obtain ⟨w1, hro, _, hr⟩ := read_pkt_line_header_spec c w hok
  have hch : char_to_int 3 = EXIT_CH := by decide
  have hcomp : hdr_complete (w.input c.in_fd) = true := by
    simp [hdr_complete, hin]
  rw [hcomp, hin] at hr
  simp only [List.getD_cons_succ, List.getD_cons_zero, if_true, hch, Nat.mod_eq_of_lt hV] at hr
  refine ⟨w1, ?_, hro.2.1⟩
  rw [do_copy_read_eq c s w hcnt hrdy]
  simp only [hdemux, hpkt, Bool.true_and, decide_True, if_true, hr]

theorem relay_all_spec : ∀ (k : Nat) (c : Copy) (s : FdSets) (w : World), c.demux = false →
    c.cnt = 0 → (FD_ISSET c.in_fd s.read_fds || FD_ISSET c.in_fd s.error_fds) = true →
    (w.input c.in_fd).length = k → w.Benign →
    ∃ n w1, pump n c s w = .exit 0 w1 ∧
      w1.output c.out_fd = w.output c.out_fd ++ w.input c.in_fd ∧
      (∀ d, d ≠ c.out_fd → w1.output d = w.output d) := by
  intro k
  induction k using Nat.strong_induction_on with
  | _ k ih =>
    intro c s w hnd hcnt hrdy hk hben
    have hif : (c.demux && decide (c.pkt_len = 0)) = false := by simp [hnd]
    have hdo : do_copy c s w = read_tail c s w := by
      rw [do_copy_read_eq c s w hcnt hrdy]
      simp only [hif, Bool.false_eq_true, if_false]
    by_cases hemp : w.input c.in_fd = []
    · obtain ⟨m, w1, hx, _, _, _, hro⟩ :=
        xread_spec c.in_fd (size_t_of BUF_SIZE) w (by decide) hben.1
      refine ⟨1, w1, ?_, ?_, fun d _ => by rw [hro.2.1]⟩
      · simp only [pump, hdo]
        unfold read_tail
        simp only [hnd, Bool.false_eq_true, if_false, hx, hemp]
        simp
      · rw [hro.2.1, hemp]
        simp
    · obtain ⟨m, w2, hm1, hm2, hml, hrt, hinp, hro⟩ :=
        read_tail_spec c s w 65536 (by simp [hnd, BUF_SIZE]) (by omega) (by omega) hemp hben.1
      rw [if_neg (by simp [hnd])] at hrt
      have hlen : ((w.input c.in_fd).take m).length = m := by
        rw [List.length_take]; omega
      have hben2 := Benign.of_readOnly hro hben
      obtain ⟨n, s1, w3, hp, hrd, hout, hwo, _⟩ :=
        drain_spec m
          { c with pos := 0, cnt := (m : Int), buf := store c.buf ((w.input c.in_fd).take m),
                   pkt_len := c.pkt_len }
          (begin_write c s) w2 rfl hm1 (by unfold SSIZE_MAX; omega)
          (by simp [begin_write, FD_ISSET, FD_SET]) hben2.2.1 hben2.2.2
      have hpend : Copy.pending
          { c with pos := 0, cnt := (m : Int), buf := store c.buf ((w.input c.in_fd).take m),
                   pkt_len := c.pkt_len } m = (w.input c.in_fd).take m := by
        have := pending_store { c with cnt := (m : Int) } ((w.input c.in_fd).take m)
        rw [hlen] at this
        exact this
      dsimp only at hout hrd hwo
      rw [hpend, hro.2.1] at hout
      have hben3 := Benign.of_writeOnly hwo hben2
      have hp1 : pump (n + 1) c s w = _ :=
        (pump_succ_of_ret n c s w _ _ _ (hdo.trans hrt)).trans hp
      have hin3 : w3.input c.in_fd = (w.input c.in_fd).drop m := by rw [hwo.1, hinp]
      obtain ⟨n2, w4, hp2, hout2, hoth2⟩ :=
        ih (k - m) (by omega)
          { c with pos := (0 : Int) + (m : Int), cnt := 0,
                   buf := store c.buf ((w.input c.in_fd).take m), pkt_len := c.pkt_len }
          s1 w3 hnd rfl (by simp only; rw [hrd]; rfl)
          (by simp only; rw [hin3, List.length_drop]; omega) hben3
      dsimp only at hout2 hoth2
      refine ⟨(n + 1) + n2, w4, (pump_ret_add (n + 1) n2 c s w _ _ _ hp1).trans hp2, ?_, ?_⟩
      · rw [hout2, hout, hin3, List.append_assoc, List.take_append_drop]
      · intro d hd
        rw [hoth2 d hd, hwo.2.2.1 d hd, hro.2.1]
theorem short_header_step (c : Copy) (s : FdSets) (w : World) (hcnt : c.cnt = 0)
    (hdemux : c.demux = true) (hpkt : c.pkt_len = 0)
    (hrdy : (FD_ISSET c.in_fd s.read_fds || FD_ISSET c.in_fd s.error_fds) = true)
    (hshort : (w.input c.in_fd).length < 5) (hok : ReadEv.fail ∉ w.reads) :
    ∃ w1, do_copy c s w = .exit 0 w1 ∧ w1.output = w.output := by
  obtain ⟨w1, hro, _, hr⟩ := read_pkt_line_header_spec c w hok
  have hcomp : hdr_complete (w.input c.in_fd) = false := by
    simp only [hdr_complete, decide_eq_false_iff_not]
    rintro ⟨h5, _⟩
    omega
  rw [hcomp] at hr
  simp only [Bool.false_eq_true, if_false] at hr
  refine ⟨w1, ?_, hro.2.1⟩
  rw [do_copy_read_eq c s w hcnt hrdy]
  simp only [hdemux, hpkt, Bool.true_and, decide_True, if_true, hr]

/-- C11: `do_copy` reads from the source, header or payload, only when `cnt`
is 0: with `cnt ≠ 0` a call takes nothing from any source and can end the
process only through a failed write (exit code 1).  Hence every byte a
pipeline has read is written before its next read, and so before a read ends
the session: the caller-to-backend pipeline, run until its source returns a
zero-byte read, exits with code 0 having written its whole input to its sink;
the demultiplexing pipeline, run until a header decode ends the session (an
exit-marker frame with status `V`, or the stream ending inside a header),
exits with `V` (resp. 0) having written the payload of every frame before it
to that frame's sink. -/
theorem C11_nothing_pending_when_a_read_ends_the_session :
    (∀ (c : Copy) (s : FdSets) (w : World), c.cnt ≠ 0 →
        (∀ c1 s1 w1, do_copy c s w = .ret (c1, s1) w1 →
          w1.input = w.input ∧ w1.reads = w.reads) ∧
        (∀ code w1, do_copy c s w = .exit code w1 →
          code = 1 ∧ w1.input = w.input ∧ w1.reads = w.reads)) ∧
      (∀ (c : Copy) (s : FdSets) (w : World), c.demux = false → c.cnt = 0 →
        (FD_ISSET c.in_fd s.read_fds || FD_ISSET c.in_fd s.error_fds) = true → w.Benign →
        ∃ n w1, pump n c s w = .exit 0 w1 ∧
          w1.output c.out_fd = w.output c.out_fd ++ w.input c.in_fd ∧
          (∀ d, d ≠ c.out_fd → w1.output d = w.output d)) ∧
      (∀ (fs : List Frame) (l0 l1 l2 l3 V : Nat) (rest : List Nat) (c : Copy) (s : FdSets)
        (w : World), (∀ f, f ∈ fs → f.wf) → V < 256 → c.demux = true → c.cnt = 0 →
        c.pkt_len = 0 →
        (FD_ISSET c.in_fd s.read_fds || FD_ISSET c.in_fd s.error_fds) = true →
        w.input c.in_fd = stream fs ++ l0 :: l1 :: l2 :: l3 :: 3 :: V :: rest → w.Benign →
        ∃ n w1, pump n c s w = .exit V w1 ∧ ∀ d, w1.output d = w.output d ++ routed d fs) ∧
      (∀ (fs : List Frame) (last : List Nat) (c : Copy) (s : FdSets) (w : World),
        (∀ f, f ∈ fs → f.wf) → last.length < 5 → c.demux = true → c.cnt = 0 →
        c.pkt_len = 0 →
        (FD_ISSET c.in_fd s.read_fds || FD_ISSET c.in_fd s.error_fds) = true →
        w.input c.in_fd = stream fs ++ last → w.Benign →
        ∃ n w1, pump n c s w = .exit 0 w1 ∧ ∀ d, w1.output d = w.output d ++ routed d fs) := by
  refine ⟨fun c s w hcnt => ?_, fun c s w hnd hcnt hrdy hben => ?_, ?_, ?_⟩
  · obtain ⟨hret, hexit⟩ := do_copy_write_phase c s w hcnt
    exact ⟨fun c1 s1 w1 h => ⟨(hret c1 s1 w1 h).2.2.2.2.2.1, (hret c1 s1 w1 h).2.2.2.2.2.2⟩,
      hexit⟩
  · exact relay_all_spec _ c s w hnd hcnt hrdy rfl hben
  · intro fs l0 l1 l2 l3 V rest c s w hwf hV hdemux hcnt hpkt hrdy hin hben
    obtain ⟨n, c1, s1, w1, hp, g1, g2, g3, g4, g5, g6, g7, g8⟩ :=
      frames_run fs c s w _ hwf hdemux hcnt hpkt hrdy hin hben
    obtain ⟨w2, hx, ho⟩ := exit_marker_step c1 s1 w1 l0 l1 l2 l3 V rest g2 g1 g3 g5
      (by rw [g4]; exact g6) hV g7.1
    refine ⟨n + 1, w2, ?_, fun d => by rw [ho, g8 d]⟩
    rw [pump_ret_add n 1 c s w c1 s1 w1 hp]
    simp only [pump, hx]
  · intro fs last c s w hwf hlast hdemux hcnt hpkt hrdy hin hben
    obtain ⟨n, c1, s1, w1, hp, g1, g2, g3, g4, g5, g6, g7, g8⟩ :=
      frames_run fs c s w _ hwf hdemux hcnt hpkt hrdy hin hben
    obtain ⟨w2, hx, ho⟩ := short_header_step c1 s1 w1 g2 g1 g3 g5
      (by rw [g4, g6]; exact hlast) g7.1
    refine ⟨n + 1, w2, ?_, fun d => by rw [ho, g8 d]⟩
    rw [pump_ret_add n 1 c s w c1 s1 w1 hp]
    simp only [pump, hx]

theorem C11_nothing_pending_when_a_read_ends_the_session_witness :
    (∃ n w1, pump n (cin_init 3) (main_init 3).fds
        (demo_caller_world [104, 101, 108, 108, 111] [.data 1, .eintr] [.wrote 1, .wrote 3])
        = .exit 0 w1 ∧
      w1.output (cin_init 3).out_fd
        = (demo_caller_world [104, 101, 108, 108, 111] [.data 1, .eintr]
            [.wrote 1, .wrote 3]).output (cin_init 3).out_fd ++
          (demo_caller_world [104, 101, 108, 108, 111] [.data 1, .eintr]
            [.wrote 1, .wrote 3]).input (cin_init 3).in_fd ∧
      (∀ d, d ≠ (cin_init 3).out_fd →
        w1.output d = (demo_caller_world [104, 101, 108, 108, 111] [.data 1, .eintr]
          [.wrote 1, .wrote 3]).output d)) ∧
      (∃ n w1, pump n (cout_init 3) (main_init 3).fds
          (demo_world (stream [⟨48, 48, 48, 56, 1, [111, 107, 10]⟩] ++
            48 :: 48 :: 48 :: 53 :: 3 :: 7 :: []) [.data 2] [.wrote 2]) = .exit 7 w1 ∧
        ∀ d, w1.output d
          = (demo_world (stream [⟨48, 48, 48, 56, 1, [111, 107, 10]⟩] ++
              48 :: 48 :: 48 :: 53 :: 3 :: 7 :: []) [.data 2] [.wrote 2]).output d ++
            routed d [⟨48, 48, 48, 56, 1, [111, 107, 10]⟩]) :=
  ⟨C11_nothing_pending_when_a_read_ends_the_session.2.1 (cin_init 3) (main_init 3).fds
      (demo_caller_world [104, 101, 108, 108, 111] [.data 1, .eintr] [.wrote 1, .wrote 3])
      rfl rfl (by decide) (by decide),
    C11_nothing_pending_when_a_read_ends_the_session.2.2.1
      [⟨48, 48, 48, 56, 1, [111, 107, 10]⟩] 48 48 48 53 7 [] (cout_init 3) (main_init 3).fds
      (demo_world (stream [⟨48, 48, 48, 56, 1, [111, 107, 10]⟩] ++
        48 :: 48 :: 48 :: 53 :: 3 :: 7 :: []) [.data 2] [.wrote 2])
      (by decide) (by decide) rfl rfl rfl (by decide) rfl (by decide)⟩

/-! ## What `pkt_write` and the start-up code send -/

theorem xwrite_spec (fd : Int) (mem : Nat → Nat) (n : Nat) (w : World) (hn1 : 1 ≤ n)
    (hn : n ≤ SSIZE_MAX) (hok : WriteEv.fail ∉ w.writes) (hnz : WriteEv.wrote 0 ∉ w.writes) :
    ∃ k w1, xwrite fd mem n w = .ret k w1 ∧ 1 ≤ k ∧ k ≤ n ∧
      w1.output fd = w.output fd ++ (List.range k).map mem ∧ WriteOnly fd w w1 := by
  obtain ⟨k, w1, hx, hk1, hk2, hout, hwo⟩ :=
    xwrite_go_spec fd ((List.range n).map mem) w w.writes (by simpa using hn1) (fun _ h => h)
      hok hnz
  simp only [List.length_map, List.length_range] at hk2
  refine ⟨k, w1, ?_, hk1, hk2, ?_, hwo⟩
  · unfold xwrite
    rw [if_neg (Nat.not_lt.mpr hn)]
    exact hx
  · rw [hout, ← List.map_take, List.take_range, Nat.min_eq_left hk2]

theorem write_or_die_loop_spec (fd : Int) : ∀ (fuel : Nat) (mem : Nat → Nat) (n : Nat) (w : World),
    n ≤ fuel → n ≤ SSIZE_MAX → WriteEv.fail ∉ w.writes → WriteEv.wrote 0 ∉ w.writes →
    ∃ w1, write_or_die_loop fd fuel mem n w = .ret () w1 ∧
      w1.output fd = w.output fd ++ (List.range n).map mem ∧ WriteOnly fd w w1 := by
  intro fuel
  induction fuel with
  | zero =>
    intro mem n w hn _ _ _
    have : n = 0 := by omega
    subst this
    exact ⟨w, by simp [write_or_die_loop], by simp, writeOnly_refl fd w⟩
  | succ f ih =>
    intro mem n w hn hmax hok hnz
    by_cases h0 : 0 < n
    · obtain ⟨k, w1, hx, hk1, hk2, hout, hwo⟩ := xwrite_spec fd mem n w h0 hmax hok hnz
      obtain ⟨w2, hr, hout2, hwo2⟩ := ih (fun i => mem (k + i)) (n - k) w1 (by omega) (by omega)
        (fun h => hok (hwo.2.2.2 _ h)) (fun h => hnz (hwo.2.2.2 _ h))
      refine ⟨w2, ?_, ?_, writeOnly_trans hwo hwo2⟩
      · unfold write_or_die_loop
        rw [if_pos h0]
        simp only [hx]
        rw [if_neg (by omega)]
        exact hr
      · rw [hout2, hout, List.append_assoc]
        congr 1
        have hsplit := List.range_add k (n - k)
        rw [Nat.add_sub_cancel' hk2] at hsplit
        rw [hsplit, List.map_append, List.map_map]
        rfl
    · have : n = 0 := by omega
      subst this
      refine ⟨w, ?_, by simp, writeOnly_refl fd w⟩
      unfold write_or_die_loop
      simp

theorem write_or_die_spec (fd : Int) (mem : Nat → Nat) (n : Nat) (w : World)
    (hmax : n ≤ SSIZE_MAX) (hok : WriteEv.fail ∉ w.writes) (hnz : WriteEv.wrote 0 ∉ w.writes) :
    ∃ w1, write_or_die fd mem n w = .ret () w1 ∧
      w1.output fd = w.output fd ++ (List.range n).map mem ∧ WriteOnly fd w w1 :=
  write_or_die_loop_spec fd n mem n w (le_refl _) hmax hok hnz

theorem pkt_write_spec (sock : Int) (text : List Nat) (stack : Nat → Nat) (w : World)
    (hmax : text.length ≤ SSIZE_MAX) (hok : WriteEv.fail ∉ w.writes)
    (hnz : WriteEv.wrote 0 ∉ w.writes) :
    ∃ w1, pkt_write sock text stack w = .ret () w1 ∧
      w1.output sock = w.output sock ++ pkt_bytes text stack ∧ WriteOnly sock w w1 := by
  obtain ⟨w1, h1, o1, wo1⟩ := write_or_die_spec sock
    (fun i => (fmt_04x (text.length + 4)).getD i 0) 4 w (by decide) hok hnz
  obtain ⟨w2, h2, o2, wo2⟩ := write_or_die_spec sock (vsnprintf_buf text stack) text.length w1
    hmax (fun h => hok (wo1.2.2.2 _ h)) (fun h => hnz (wo1.2.2.2 _ h))
  refine ⟨w2, ?_, ?_, writeOnly_trans wo1 wo2⟩
  · unfold pkt_write
    simp only [h1, h2]
  · rw [o2, o1, List.append_assoc]
    rfl

theorem vsnprintf_fits (text : List Nat) (stack : Nat → Nat) (h : text.length ≤ 999) :
    (List.range text.length).map (vsnprintf_buf text stack) = text := by
  apply List.ext_getElem
  · simp
  · intro i h1 h2
    simp only [List.length_map, List.length_range] at h1
    simp only [List.getElem_map, List.getElem_range, vsnprintf_buf]
    rw [if_pos (by omega)]
    simp [List.getD_eq_getElem?_getD, List.getElem?_eq_getElem h1]

theorem vsnprintf_truncates (text : List Nat) (stack : Nat → Nat) (h : 1000 ≤ text.length) :
    (List.range text.length).map (vsnprintf_buf text stack)
      = text.take 999 ++ 0 :: (List.range (text.length - 1000)).map (fun i => stack (1000 + i)) := by
  apply List.ext_getElem
  · simp
    omega
  · intro i h1 h2
    simp only [List.length_map, List.length_range] at h1
    simp only [List.getElem_map, List.getElem_range, vsnprintf_buf]
    have hmin : min text.length 999 = 999 := by omega
    rw [hmin]
    by_cases hi : i < 999
    · rw [if_pos hi, List.getElem_append_left (by simp; omega)]
      simp [List.getD_eq_getElem?_getD, List.getElem?_eq_getElem h1]
    · rw [if_neg hi]
      have hl : (text.take 999).length = 999 := by simp; omega
      rw [List.getElem_append_right (by omega)]
      by_cases he : i = 999
      · subst he
        simp [hl]
      · rw [if_neg he]
        simp only [hl]
        have : i - 999 = (i - 1000) + 1 := by omega
        simp only [this, List.getElem_cons_succ, List.getElem_map, List.getElem_range]
        exact congrArg stack (by omega)

theorem fmt_04x_four (v : Nat) (h : v < 65536) :
    fmt_04x v = [hexchar (v / 4096), hexchar (v / 256 % 16), hexchar (v / 16 % 16),
      hexchar (v % 16)] := by
  unfold fmt_04x
  by_cases h1 : v < 16
  · have e : to_hex 8 v = [hexchar v] := by simp [to_hex, h1]
    have a : v / 4096 = 0 := by omega
    have b : v / 256 % 16 = 0 := by omega
    have c : v / 16 % 16 = 0 := by omega
    have d : v % 16 = v := by omega
    rw [e, a, b, c, d]
    rfl
  · by_cases h2 : v < 256
    · have e : to_hex 8 v = [hexchar (v / 16), hexchar (v % 16)] := by
        have : v / 16 < 16 := by omega
        simp [to_hex, h1, this]
      have a : v / 4096 = 0 := by omega
      have b : v / 256 % 16 = 0 := by omega
      have c : v / 16 % 16 = v / 16 := by omega
      rw [e, a, b, c]
      rfl
    · by_cases h3 : v < 4096
      · have e : to_hex 8 v = [hexchar (v / 16 / 16), hexchar (v / 16 % 16), hexchar (v % 16)] := by
          have i1 : ¬ v / 16 < 16 := by omega
          have i2 : v / 16 / 16 < 16 := by omega
          simp [to_hex, h1, i1, i2]
        have a : v / 4096 = 0 := by omega
        have b : v / 256 % 16 = v / 16 / 16 := by omega
        rw [e, a, b]
        rfl
      · have e : to_hex 8 v = [hexchar (v / 16 / 16 / 16), hexchar (v / 16 / 16 % 16),
            hexchar (v / 16 % 16), hexchar (v % 16)] := by
          have i1 : ¬ v / 16 < 16 := by omega
          have i2 : ¬ v / 16 / 16 < 16 := by omega
          have i3 : v / 16 / 16 / 16 < 16 := by omega
          simp [to_hex, h1, i1, i2, i3]
        have a : v / 4096 = v / 16 / 16 / 16 := by omega
        have b : v / 256 % 16 = v / 16 / 16 % 16 := by omega
        rw [e, a, b]
        rfl

theorem hexval_hexchar (d : Nat) (h : d < 16) : hexval (hexchar d) = some d := by
  unfold hexchar hexval
  by_cases h1 : d < 10
  · rw [if_pos h1, if_pos (by omega)]
    congr 1
    omega
  · rw [if_neg h1, if_neg (by omega), if_pos (by omega)]
    congr 1
    omega

theorem hexrun_fmt_04x (v : Nat) (h : v < 65536) : hexrun 0 (fmt_04x v) = v := by
  rw [fmt_04x_four v h]
  simp only [hexrun, hexval_hexchar (v / 4096) (by omega), hexval_hexchar (v / 256 % 16) (by omega),
    hexval_hexchar (v / 16 % 16) (by omega), hexval_hexchar (v % 16) (by omega)]
  omega

theorem pkt_bytes_fits (text : List Nat) (stack : Nat → Nat) (h : text.length ≤ 999) :
    pkt_bytes text stack = control_line text := by
  unfold pkt_bytes control_line
  rw [vsnprintf_fits text stack h, fmt_04x_four _ (by omega)]
  rfl

theorem pkt_bytes_truncated (text : List Nat) (stack : Nat → Nat) (h : 1000 ≤ text.length)
    (h16 : text.length + 4 < 65536) :
    pkt_bytes text stack = fmt_04x (text.length + 4) ++ (text.take 999 ++
      0 :: (List.range (text.length - 1000)).map (fun i => stack (1000 + i))) := by
  unfold pkt_bytes
  rw [vsnprintf_truncates text stack h, fmt_04x_four _ h16]
  rfl

theorem dial_gerrit_spec (block key : List Nat) (sock : Int) (stack : Nat → Nat) (w : World)
    (hblock : block.length ≠ 0)
    (hkey : strtoul10_end (cstr (if block.getLast? = some 10 then block.dropLast else block))
      = 10 :: key)
    (hmax : (bytes_of "auth " ++ key ++ [10]).length ≤ SSIZE_MAX)
    (hok : WriteEv.fail ∉ w.writes) (hnz : WriteEv.wrote 0 ∉ w.writes) :
    ∃ w1, dial_gerrit (some block) .connected sock stack w = .ret sock w1 ∧
      w1.output sock = w.output sock ++ pkt_bytes (bytes_of "auth " ++ key ++ [10]) stack ∧
      WriteOnly sock w w1 := by
  obtain ⟨w1, h1, o1, wo1⟩ := pkt_write_spec sock (bytes_of "auth " ++ key ++ [10]) stack w
    hmax hok hnz
  refine ⟨w1, ?_, o1, wo1⟩
  unfold dial_gerrit
  simp only [if_neg hblock, hkey, h1]

theorem handshake_keys_run (args : List (List Nat)) (block key : List Nat) (sock : Int)
    (conn user cmd : Option (List Nat)) (mems : Nat → Nat → Nat) (w : World)
    (hargs : args.length = 4) (hmode : cstr (args.getD 2 []) = bytes_of "keys")
    (hblock : block.length ≠ 0)
    (hkey : strtoul10_end (cstr (if block.getLast? = some 10 then block.dropLast else block))
      = 10 :: key)
    (h0 : (bytes_of "auth " ++ key ++ [10]).length ≤ SSIZE_MAX)
    (h1 : (bytes_of "keys " ++ cstr (args.getD 3 []) ++ [10]).length ≤ SSIZE_MAX)
    (hok : WriteEv.fail ∉ w.writes) (hnz : WriteEv.wrote 0 ∉ w.writes) :
    ∃ w1, main_handshake args (some block) .connected sock conn user cmd mems w = .ret sock w1 ∧
      w1.output sock = w.output sock ++ (pkt_bytes (bytes_of "auth " ++ key ++ [10]) (mems 0) ++
        pkt_bytes (bytes_of "keys " ++ cstr (args.getD 3 []) ++ [10]) (mems 1)) ∧
      WriteOnly sock w w1 := by
  obtain ⟨w1, e1, o1, wo1⟩ := dial_gerrit_spec block key sock (mems 0) w hblock hkey h0 hok hnz
  obtain ⟨w2, e2, o2, wo2⟩ := pkt_write_spec sock
    (bytes_of "keys " ++ cstr (args.getD 3 []) ++ [10]) (mems 1) w1 h1
    (fun h => hok (wo1.2.2.2 _ h)) (fun h => hnz (wo1.2.2.2 _ h))
  refine ⟨w2, ?_, ?_, writeOnly_trans wo1 wo2⟩
  · unfold main_handshake
    rw [if_neg (by omega)]
    simp only [e1]
    rw [if_pos hmode, if_neg (by simp [hargs])]
    simp only [e2]
  · rw [o2, o1, List.append_assoc]

theorem handshake_exec_run (args : List (List Nat)) (block key : List Nat) (sock : Int)
    (conn user cmd : List Nat) (mems : Nat → Nat → Nat) (w : World)
    (hargs : args.length = 3) (hmode : cstr (args.getD 2 []) = bytes_of "exec")
    (hblock : block.length ≠ 0)
    (hkey : strtoul10_end (cstr (if block.getLast? = some 10 then block.dropLast else block))
      = 10 :: key)
    (h0 : (bytes_of "auth " ++ key ++ [10]).length ≤ SSIZE_MAX)
    (h1 : (bytes_of "conn " ++ cstr conn ++ [10]).length ≤ SSIZE_MAX)
    (h2 : (bytes_of "user " ++ cstr user ++ [10]).length ≤ SSIZE_MAX)
    (h3 : (bytes_of "exec " ++ cstr cmd).length ≤ SSIZE_MAX)
    (hok : WriteEv.fail ∉ w.writes) (hnz : WriteEv.wrote 0 ∉ w.writes) :
    ∃ w1, main_handshake args (some block) .connected sock (some conn) (some user) (some cmd)
        mems w = .ret sock w1 ∧
      w1.output sock = w.output sock ++ (pkt_bytes (bytes_of "auth " ++ key ++ [10]) (mems 0) ++
        (pkt_bytes (bytes_of "conn " ++ cstr conn ++ [10]) (mems 1) ++
        (pkt_bytes (bytes_of "user " ++ cstr user ++ [10]) (mems 2) ++
        pkt_bytes (bytes_of "exec " ++ cstr cmd) (mems 3)))) ∧
      WriteOnly sock w w1 := by
  obtain ⟨w1, e1, o1, wo1⟩ := dial_gerrit_spec block key sock (mems 0) w hblock hkey h0 hok hnz
  have hok1 : WriteEv.fail ∉ w1.writes := fun h => hok (wo1.2.2.2 _ h)
  have hnz1 : WriteEv.wrote 0 ∉ w1.writes := fun h => hnz (wo1.2.2.2 _ h)
  obtain ⟨w2, e2, o2, wo2⟩ := pkt_write_spec sock
    (bytes_of "conn " ++ cstr conn ++ [10]) (mems 1) w1 h1 hok1 hnz1
  have hok2 : WriteEv.fail ∉ w2.writes := fun h => hok1 (wo2.2.2.2 _ h)
  have hnz2 : WriteEv.wrote 0 ∉ w2.writes := fun h => hnz1 (wo2.2.2.2 _ h)
  obtain ⟨w3, e3, o3, wo3⟩ := pkt_write_spec sock
    (bytes_of "user " ++ cstr user ++ [10]) (mems 2) w2 h2 hok2 hnz2
  have hok3 : WriteEv.fail ∉ w3.writes := fun h => hok2 (wo3.2.2.2 _ h)
  have hnz3 : WriteEv.wrote 0 ∉ w3.writes := fun h => hnz2 (wo3.2.2.2 _ h)
  obtain ⟨w4, e4, o4, wo4⟩ := pkt_write_spec sock
    (bytes_of "exec " ++ cstr cmd) (mems 3) w3 h3 hok3 hnz3
  refine ⟨w4, ?_, ?_, writeOnly_trans wo1 (writeOnly_trans wo2 (writeOnly_trans wo3 wo4))⟩
  · unfold main_handshake
    have hne : ¬ cstr (args.getD 2 []) = bytes_of "keys" := by
      rw [hmode]
      decide
    rw [if_neg (by omega)]
    simp only [e1]
    rw [if_neg hne, if_pos hmode, if_neg (by simp [hargs])]
    simp only [e2, e3, e4]
  · rw [o4, o3, o2, o1]
    simp only [List.append_assoc]

theorem cstr_of_no_nul (s : List Nat) (h : 0 ∉ s) : cstr s = s := by
  unfold cstr
  rw [List.takeWhile_eq_self_iff]
  intro x hx
  have : x ≠ 0 := fun e => h (e ▸ hx)
  simpa using this

/-- In keys mode, when the secret and the user name leave both lines within
the 999 characters `buf` can hold, the socket receives the control line
framing `auth <secret>\n` and then the one framing `keys <user>\n`, whatever
way the writes are split, and nothing else is written. -/
theorem handshake_keys_fits (args : List (List Nat)) (block key : List Nat) (sock : Int)
    (conn user cmd : Option (List Nat)) (mems : Nat → Nat → Nat) (w : World)
    (hargs : args.length = 4) (hmode : cstr (args.getD 2 []) = bytes_of "keys")
    (hblock : block.length ≠ 0)
    (hkey : strtoul10_end (cstr (if block.getLast? = some 10 then block.dropLast else block))
      = 10 :: key)
    (h0 : (bytes_of "auth " ++ key ++ [10]).length ≤ 999)
    (h1 : (bytes_of "keys " ++ cstr (args.getD 3 []) ++ [10]).length ≤ 999)
    (hok : WriteEv.fail ∉ w.writes) (hnz : WriteEv.wrote 0 ∉ w.writes) :
    ∃ w1, main_handshake args (some block) .connected sock conn user cmd mems w = .ret sock w1 ∧
      w1.output sock = w.output sock ++ (control_line (bytes_of "auth " ++ key ++ [10]) ++
        control_line (bytes_of "keys " ++ cstr (args.getD 3 []) ++ [10])) ∧
      WriteOnly sock w w1 := by
  have hS : (999 : Nat) ≤ SSIZE_MAX := by decide
  obtain ⟨w1, e, o, wo⟩ := handshake_keys_run args block key sock conn user cmd mems w hargs hmode
    hblock hkey (le_trans h0 hS) (le_trans h1 hS) hok hnz
  refine ⟨w1, e, ?_, wo⟩
  rw [o, pkt_bytes_fits _ _ h0, pkt_bytes_fits _ _ h1]

/-- In exec mode, when all four lines stay within the 999 characters `buf`
can hold, the socket receives the control lines framing `auth <secret>\n`,
`conn <SSH_CONNECTION>\n`, `user <LOGNAME>\n` and `exec <command>`, in this
order, whatever way the writes are split, and nothing else is written. -/
theorem handshake_exec_fits (args : List (List Nat)) (block key : List Nat) (sock : Int)
    (conn user cmd : List Nat) (mems : Nat → Nat → Nat) (w : World)
    (hargs : args.length = 3) (hmode : cstr (args.getD 2 []) = bytes_of "exec")
    (hblock : block.length ≠ 0)
    (hkey : strtoul10_end (cstr (if block.getLast? = some 10 then block.dropLast else block))
      = 10 :: key)
    (h0 : (bytes_of "auth " ++ key ++ [10]).length ≤ 999)
    (h1 : (bytes_of "conn " ++ cstr conn ++ [10]).length ≤ 999)
    (h2 : (bytes_of "user " ++ cstr user ++ [10]).length ≤ 999)
    (h3 : (bytes_of "exec " ++ cstr cmd).length ≤ 999)
    (hok : WriteEv.fail ∉ w.writes) (hnz : WriteEv.wrote 0 ∉ w.writes) :
    ∃ w1, main_handshake args (some block) .connected sock (some conn) (some user) (some cmd)
        mems w = .ret sock w1 ∧
      w1.output sock = w.output sock ++ (control_line (bytes_of "auth " ++ key ++ [10]) ++
        (control_line (bytes_of "conn " ++ cstr conn ++ [10]) ++
        (control_line (bytes_of "user " ++ cstr user ++ [10]) ++
        control_line (bytes_of "exec " ++ cstr cmd)))) ∧
      WriteOnly sock w w1 := by
  have hS : (999 : Nat) ≤ SSIZE_MAX := by decide
  obtain ⟨w1, e, o, wo⟩ := handshake_exec_run args block key sock conn user cmd mems w hargs hmode
    hblock hkey (le_trans h0 hS) (le_trans h1 hS) (le_trans h2 hS) (le_trans h3 hS) hok hnz
  refine ⟨w1, e, ?_, wo⟩
  rw [o, pkt_bytes_fits _ _ h0, pkt_bytes_fits _ _ h1, pkt_bytes_fits _ _ h2,
    pkt_bytes_fits _ _ h3]

/-- When the text fits into `buf` (at most 999 characters), `pkt_write`
returns having sent exactly the control line framing it: four lower-case
hexadecimal digits whose value is the length of the text plus four, then the
text, whatever way the writes are split. -/
theorem pkt_write_fits (sock : Int) (text : List Nat) (stack : Nat → Nat) (w : World)
    (h : text.length ≤ 999) (hok : WriteEv.fail ∉ w.writes) (hnz : WriteEv.wrote 0 ∉ w.writes) :
    ∃ w1, pkt_write sock text stack w = .ret () w1 ∧
      w1.output sock = w.output sock ++ control_line text ∧
      (control_line text).length = text.length + 4 ∧
      hexrun 0 ((control_line text).take 4) = text.length + 4 ∧ WriteOnly sock w w1 := by
  obtain ⟨w1, e, o, wo⟩ := pkt_write_spec sock text stack w
    (le_trans h (by decide)) hok hnz
  refine ⟨w1, e, ?_, ?_, ?_, wo⟩
  · rw [o, pkt_bytes_fits _ _ h]
  · unfold control_line
    rw [fmt_04x_four _ (by omega)]
    simp
  · unfold control_line
    have h4 : (fmt_04x (text.length + 4)).length = 4 := by
      rw [fmt_04x_four _ (by omega)]
      rfl
    rw [List.take_left' h4]
    exact hexrun_fmt_04x _ (by omega)

theorem replicate_tail_ne (n a b c : Nat) (h : b ≠ a) :
    List.replicate n a ++ [b, c] ≠ List.replicate (n + 2) a := by
  intro e
  rw [List.replicate_add] at e
  have e2 := List.append_cancel_left e
  simp [List.replicate] at e2
  exact h e2.1

theorem pkt_bytes_overrun (p : List Nat) (m a : Nat) (stack : Nat → Nat)
    (hlen : p.length + (m + 2) = 1001) :
    pkt_bytes (p ++ List.replicate (m + 2) a) stack
      = fmt_04x 1005 ++ (p ++ (List.replicate m a ++ [0, stack 1000])) := by
  have hl : (p ++ List.replicate (m + 2) a).length = 1001 := by
    rw [List.length_append, List.length_replicate]
    exact hlen
  rw [pkt_bytes_truncated _ _ (by omega) (by omega), hl, List.take_append_eq_append_take,
    List.take_of_length_le (by omega), List.take_replicate]
  have hm : min (999 - p.length) (m + 2) = m := by omega
  rw [hm, List.append_assoc]
  rfl

/-- C12 (the code at a payload of 1001 bytes): called with a format that
expands to 1001 letters `a`, with the first `write` taking 3 bytes and the
second interrupted, `pkt_write` returns having sent 1005 bytes to the socket:
the digits `03ed`, then the first 999 letters, then a NUL and the byte that
memory holds behind `buf` (`stack 1000`) in place of the last two letters.
What it sent is not the control line framing the payload. -/
theorem C12_long_payload_is_not_sent_unchanged :
    ∀ stack : Nat → Nat, ∃ w1,
      pkt_write 3 (List.replicate 1001 97) stack (demo_world [] [] [.wrote 3, .eintr])
        = .ret () w1 ∧
      w1.output 3 = bytes_of "03ed" ++ (List.replicate 999 97 ++ [0, stack 1000]) ∧
      w1.output 3 ≠ control_line (List.replicate 1001 97) := by
  intro stack
  have h4 : fmt_04x 1005 = bytes_of "03ed" := by decide
  obtain ⟨w1, e, o, -⟩ := pkt_write_spec 3 (List.replicate 1001 97) stack
    (demo_world [] [] [.wrote 3, .eintr])
    (by rw [List.length_replicate]; decide) (by decide) (by decide)
  have hout : w1.output 3 = bytes_of "03ed" ++ (List.replicate 999 97 ++ [0, stack 1000]) := by
    have hb := pkt_bytes_overrun [] 999 97 stack (by decide)
    rw [h4] at hb
    rw [o]
    exact hb
  refine ⟨w1, e, hout, ?_⟩
  rw [hout]
  unfold control_line
  rw [List.length_replicate, h4]
  intro h
  exact replicate_tail_ne 999 97 0 (stack 1000) (by decide) (List.append_cancel_left h)

/-- C13 (the code at a command of 996 bytes): in exec mode with the secret
`secret`, `SSH_CONNECTION` `10.0.0.1 50000 10.0.0.2 22`, `LOGNAME` `alice` and
an `SSH_ORIGINAL_COMMAND` of 996 letters `a`, the handshake returns having
sent the control lines framing the auth, conn and user lines, and then the
digits `03ed`, `exec `, 994 letters, a NUL and the byte memory holds behind
`buf`: the last line is not the control line framing `exec <command>`. -/
theorem C13_long_command_is_not_framed :
    ∀ mems : Nat → Nat → Nat, ∃ w1,
      main_handshake [bytes_of "ssh_proxy", bytes_of "/srv/gerrit", bytes_of "exec"]
        (some (bytes_of "29418\nsecret\n")) .connected 3
        (some (bytes_of "10.0.0.1 50000 10.0.0.2 22")) (some (bytes_of "alice"))
        (some (List.replicate 996 97)) mems (demo_world [] [] [.wrote 2, .eintr]) = .ret 3 w1 ∧
      w1.output 3 = control_line (bytes_of "auth secret\n") ++
        (control_line (bytes_of "conn 10.0.0.1 50000 10.0.0.2 22\n") ++
        (control_line (bytes_of "user alice\n") ++
        (bytes_of "03ed" ++ (bytes_of "exec " ++
          (List.replicate 994 97 ++ [0, mems 3 1000]))))) ∧
      w1.output 3 ≠ control_line (bytes_of "auth secret\n") ++
        (control_line (bytes_of "conn 10.0.0.1 50000 10.0.0.2 22\n") ++
        (control_line (bytes_of "user alice\n") ++
        control_line (bytes_of "exec " ++ List.replicate 996 97))) := by
  intro mems
  have h4 : fmt_04x 1005 = bytes_of "03ed" := by decide
  have hc : cstr (List.replicate 996 97) = List.replicate 996 97 :=
    cstr_of_no_nul _ (fun h => absurd (List.eq_of_mem_replicate h) (by decide))
  have hconn : cstr (bytes_of "10.0.0.1 50000 10.0.0.2 22")
      = bytes_of "10.0.0.1 50000 10.0.0.2 22" := by decide
  have huser : cstr (bytes_of "alice") = bytes_of "alice" := by decide
  have hl : (bytes_of "exec " ++ List.replicate 996 97).length = 1001 := by
    rw [List.length_append, List.length_replicate]
    decide
  obtain ⟨w1, e, o, -⟩ := handshake_exec_run
    [bytes_of "ssh_proxy", bytes_of "/srv/gerrit", bytes_of "exec"] (bytes_of "29418\nsecret\n")
    (bytes_of "secret") 3 (bytes_of "10.0.0.1 50000 10.0.0.2 22") (bytes_of "alice")
    (List.replicate 996 97) mems (demo_world [] [] [.wrote 2, .eintr]) (by decide) (by decide)
    (by decide) (by decide) (by decide) (by decide) (by decide)
    (by rw [hc, hl]; decide) (by decide) (by decide)
  have ha : bytes_of "auth " ++ bytes_of "secret" ++ [10] = bytes_of "auth secret\n" := by decide
  have hb : bytes_of "conn " ++ bytes_of "10.0.0.1 50000 10.0.0.2 22" ++ [10]
      = bytes_of "conn 10.0.0.1 50000 10.0.0.2 22\n" := by decide
  have hu : bytes_of "user " ++ bytes_of "alice" ++ [10] = bytes_of "user alice\n" := by decide
  have hout : w1.output 3 = control_line (bytes_of "auth secret\n") ++
      (control_line (bytes_of "conn 10.0.0.1 50000 10.0.0.2 22\n") ++
      (control_line (bytes_of "user alice\n") ++
      (bytes_of "03ed" ++ (bytes_of "exec " ++
        (List.replicate 994 97 ++ [0, mems 3 1000]))))) := by
    have hx := pkt_bytes_overrun (bytes_of "exec ") 994 97 (mems 3) (by decide)
    rw [h4] at hx
    rw [o, hc, hconn, huser, ha, hb, hu, pkt_bytes_fits _ _ (by decide),
      pkt_bytes_fits _ _ (by decide), pkt_bytes_fits _ _ (by decide)]
    exact congrArg (fun t => control_line (bytes_of "auth secret\n") ++
      (control_line (bytes_of "conn 10.0.0.1 50000 10.0.0.2 22\n") ++
      (control_line (bytes_of "user alice\n") ++ t))) hx
  refine ⟨w1, e, hout, ?_⟩
  rw [hout]
  intro h
  have h1 := List.append_cancel_left (List.append_cancel_left (List.append_cancel_left h))
  unfold control_line at h1
  rw [hl, h4] at h1
  exact replicate_tail_ne 994 97 0 (mems 3 1000) (by decide)
    (List.append_cancel_left (List.append_cancel_left h1))

end SshProxy
